import Mathlib

/-!
Verification of the fluux-messenger XMPP proxy core against its specification.

The Rust sources under `apps/fluux/src-tauri/src/xmpp_proxy/` are shallowly
embedded here.  Strings and byte buffers (`&str`, `&[u8]`, `String`,
`Vec<u8>`) are modelled as `List Nat` of byte values, so that `&str` byte
indexing, byte-level pattern matching and UTF-8 char-boundary checks can be
expressed exactly.  The permissive XML pull reader used by the code
(`quick_xml::Reader` with `check_end_names = false` and `trim_text(false)`)
is modelled by `readEvent`, an event tokenizer over the byte buffer.
-/

namespace Fluux

/-- ASCII string to byte list.  For the pure-ASCII literals used throughout
this development this agrees with the UTF-8 bytes of the Rust string. -/
def S (s : String) : List Nat := s.data.map Char.toNat

/-- Byte-level whitespace predicate: the set used by `extract_stanza`
(space, tab, newline, carriage return), which also covers every ASCII
whitespace recognized by Rust `str::trim`. -/
def isWsB (b : Nat) : Bool := b == 32 || b == 9 || b == 10 || b == 13

/-- Does the first list start with the second (byte-level `starts_with`)? -/
def startsWithB : List Nat → List Nat → Bool
  | _, [] => true
  | [], _ :: _ => false
  | a :: l, b :: p => a == b && startsWithB l p

/-- Does the list contain the pattern as a contiguous sub-list
(byte-level `str::contains`)? -/
def containsSub : List Nat → List Nat → Bool
  | [], pat => startsWithB [] pat
  | l@(_ :: t), pat => startsWithB l pat || containsSub t pat

/-- Index of the first occurrence of the pattern (byte-level `str::find`). -/
def findSub : List Nat → List Nat → Option Nat
  | [], pat => if pat.isEmpty then some 0 else none
  | l@(_ :: t), pat => if startsWithB l pat then some 0 else (findSub t pat).map (· + 1)

/-- Byte-level model of Rust `str::trim` (ASCII whitespace). -/
def trimB (l : List Nat) : List Nat := ((l.dropWhile isWsB).reverse.dropWhile isWsB).reverse

/-- Quote-tracking state of the element scanner of the XML reader. -/
inductive QS where
  | outside
  | single
  | double
deriving DecidableEq

/-- One step of the quote tracker. -/
def qsStep (st : QS) (b : Nat) : QS :=
  match st with
  | .outside => if b == 39 then .single else if b == 34 then .double else .outside
  | .single => if b == 39 then .outside else .single
  | .double => if b == 34 then .outside else .double

/-- Quote tracker over a byte list. -/
def qsRun (st : QS) (l : List Nat) : QS := l.foldl qsStep st

/-- Scan for the `>` (byte 62) terminating an element tag, skipping any `>`
inside quoted attribute values, as quick-xml's element parser does.
Returns the index of the terminator. -/
def scanElem : QS → List Nat → Option Nat
  | _, [] => none
  | st, b :: r =>
    if st = .outside && b == 62 then some 0
    else (scanElem (qsStep st b) r).map (· + 1)

/-- Events of the permissive XML pull reader (quick-xml `Event`).
`MetaEv` collapses `Decl`, `PI`, `Comment` and `DocType`, which
`extract_stanza` treats identically. -/
inductive XEvent where
  | MetaEv
  | StartT (c : List Nat)
  | EmptyT (c : List Nat)
  | TextEv
  | CDataEv
  | EndT (c : List Nat)
  | EofEv
  | ErrEv
deriving DecidableEq

/-- Name of a tag: the content up to the first whitespace byte
(quick-xml `BytesStart::name`). -/
def nameOf (c : List Nat) : List Nat := c.takeWhile (fun b => !(isWsB b))

/-- Local name: the part after the first `:` if any
(quick-xml `QName::local_name`). -/
def localName (n : List Nat) : List Nat :=
  match findSub n [58] with
  | some i => n.drop (i + 1)
  | none => n

/-- Read one event from the front of the buffer, returning the event and the
number of bytes consumed.  Models one `Reader::read_event` call of quick-xml
on a byte slice, with `check_end_names = false` and `trim_text(false)`:
text runs to the next `<`; tags run to the first unquoted `>`; comments,
CDATA and processing instructions run to their own terminators; a missing
terminator is a syntax error (`ErrEv`), which `extract_stanza` maps to
`None` just as the Rust code does for `SyntaxError::UnclosedTag` and for
every other parse error.  `readTag` is the dispatch on the first byte after
a `<`: bang section, processing instruction, closing tag, or element tag;
`readEvent` handles text and end-of-input. -/
def readTag : List Nat → XEvent × Nat
  | [] => (.ErrEv, 0)
  | c :: r2 =>
    if c == 33 then
      if startsWithB r2 (S "--") then
        match findSub (r2.drop 2) (S "-->") with
        | some i => (.MetaEv, 4 + i + 3)
        | none => (.ErrEv, 0)
      else if startsWithB r2 (S "[CDATA[") then
        match findSub (r2.drop 7) (S "]]>") with
        | some i => (.CDataEv, 9 + i + 3)
        | none => (.ErrEv, 0)
      else if r2.head? = some 68 || r2.head? = some 100 then
        match findSub r2 [62] with
        | some i => (.MetaEv, 2 + i + 1)
        | none => (.ErrEv, 0)
      else (.ErrEv, 0)
    else if c == 63 then
      match findSub r2 (S "?>") with
      | some i => (.MetaEv, 2 + i + 2)
      | none => (.ErrEv, 0)
    else if c == 47 then
      match scanElem .outside r2 with
      | some i => (.EndT (r2.take i), i + 3)
      | none => (.ErrEv, 0)
    else
      match scanElem .outside (c :: r2) with
      | some i =>
        let content := (c :: r2).take i
        if content.getLast? = some 47 then (.EmptyT content.dropLast, i + 2)
        else (.StartT content, i + 2)
      | none => (.ErrEv, 0)

def readEvent : List Nat → XEvent × Nat
  | [] => (.EofEv, 0)
  | b :: rest =>
    if b != 60 then (.TextEv, ((b :: rest).takeWhile (fun x => x != 60)).length)
    else readTag rest

/-- Is the tag name the stream wrapper?  Models the Rust check
`local_name == b"stream" || name == b"stream:stream"` applied to a tag
content `c` (the name is the content up to the first whitespace). -/
def isStreamName (c : List Nat) : Bool :=
  localName (nameOf c) == S "stream" || nameOf c == S "stream:stream"

/-- Fuel-indexed event loop of `extract_stanza` (framing.rs lines 236-313).
`pos` is `reader.buffer_position()` at the top of the Rust loop, `depth`,
`inSt` (`state == InStanza`) and `sStart` (`stanza_start`) are the state
variables.  Fuel only bounds the iteration count; `extract_stanza` passes
enough fuel for the loop to run to completion (`extractLoop_fuel`). -/
def extractLoop (orig : List Nat) : Nat → Nat → Bool → Nat → Nat → Option (List Nat × Nat)
  | _, _, _, _, 0 => none
  | pos, depth, inSt, sStart, fuel + 1 =>
    match readEvent (orig.drop pos) with
    | (.MetaEv, n) => extractLoop orig (pos + n) depth inSt sStart fuel
    | (.TextEv, n) => extractLoop orig (pos + n) depth inSt sStart fuel
    | (.CDataEv, n) => extractLoop orig (pos + n) depth inSt sStart fuel
    | (.StartT c, n) =>
      if !inSt && isStreamName c then
        some (orig.take (pos + n), pos + n)
      else
        if !inSt && depth + 1 == 1 then
          extractLoop orig (pos + n) (depth + 1) true pos fuel
        else
          extractLoop orig (pos + n) (depth + 1) inSt sStart fuel
    | (.EmptyT c, n) =>
      if !inSt && isStreamName c then
        some (orig.take (pos + n), pos + n)
      else if !inSt && depth == 0 then
        some ((orig.take (pos + n)).drop pos, pos + n)
      else
        extractLoop orig (pos + n) depth inSt sStart fuel
    | (.EndT c, n) =>
      if isStreamName c && depth == 0 then
        some (S "</stream:stream>", pos + n)
      else
        if inSt && depth - 1 == 0 then
          some ((orig.take (pos + n)).drop sStart, pos + n)
        else
          extractLoop orig (pos + n) (depth - 1) inSt sStart fuel
    | (.EofEv, _) => none
    | (.ErrEv, _) => none

/-- Index of the first non-whitespace byte (framing.rs line 220). -/
def firstNonWs : List Nat → Option Nat
  | [] => none
  | b :: l => if isWsB b then (firstNonWs l).map (· + 1) else some 0

/-- Model of `extract_stanza` (framing.rs lines 217-314): the leading
`</stream:stream>` special case followed by the event loop.  Returns the
stanza bytes and the number of bytes consumed, or `none` for "need more
data" (and for hard syntax errors, which the Rust code also maps to
`None`). -/
def extract_stanza (buffer : List Nat) : Option (List Nat × Nat) :=
  let run := extractLoop buffer 0 0 false 0 (buffer.length + 1)
  match firstNonWs buffer with
  | some start =>
    if startsWithB (buffer.drop start) (S "</stream:stream>") then
      some (S "</stream:stream>", start + 16)
    else run
  | none => run

/-! ## Basic lemmas about the byte-string helpers -/

@[simp] theorem startsWithB_nil (l : List Nat) : startsWithB l [] = true := by
  cases l <;> rfl

@[simp] theorem startsWithB_cons_cons (a b : Nat) (l p : List Nat) :
    startsWithB (a :: l) (b :: p) = (a == b && startsWithB l p) := rfl

theorem startsWithB_iff (l p : List Nat) :
    startsWithB l p = true ↔ ∃ r, l = p ++ r := by
  induction p generalizing l with
  | nil => simp
  | cons b p ih =>
    cases l with
    | nil => simp [startsWithB]
    | cons a l =>
      simp only [startsWithB_cons_cons, Bool.and_eq_true, beq_iff_eq, ih, List.cons_append]
      constructor
      · rintro ⟨h1, r, h2⟩; exact ⟨r, by rw [h1, h2]⟩
      · rintro ⟨r, h⟩
        injection h with h1 h2
        exact ⟨h1, r, h2⟩

theorem startsWithB_of_append (p r : List Nat) : startsWithB (p ++ r) p = true :=
  (startsWithB_iff _ _).mpr ⟨r, rfl⟩

theorem startsWithB_append_of {l p : List Nat} (m : List Nat)
    (h : startsWithB l p = true) : startsWithB (l ++ m) p = true := by
  obtain ⟨r, hr⟩ := (startsWithB_iff _ _).mp h
  exact (startsWithB_iff _ _).mpr ⟨r ++ m, by rw [hr, List.append_assoc]⟩

theorem startsWithB_length_le {l p : List Nat} (h : startsWithB l p = true) :
    p.length ≤ l.length := by
  obtain ⟨r, hr⟩ := (startsWithB_iff _ _).mp h
  subst hr; simp

theorem startsWithB_of_prefix_eq {l m p r : List Nat} (h : l ++ m = p ++ r)
    (hlen : p.length ≤ l.length) : startsWithB l p = true := by
  refine (startsWithB_iff _ _).mpr ⟨l.drop p.length, ?_⟩
  have h1 : l = (l ++ m).take l.length := by simp
  have h2 : l.take p.length = p := by
    have : (l ++ m).take p.length = (p ++ r).take p.length := by rw [h]
    rwa [List.take_append_of_le_length hlen, List.take_left] at this
  calc l = l.take p.length ++ l.drop p.length := (List.take_append_drop _ _).symm
    _ = p ++ l.drop p.length := by rw [h2]

@[simp] theorem containsSub_nil (pat : List Nat) :
    containsSub [] pat = startsWithB [] pat := rfl

@[simp] theorem containsSub_cons (c : Nat) (t pat : List Nat) :
    containsSub (c :: t) pat = (startsWithB (c :: t) pat || containsSub t pat) := rfl

theorem containsSub_iff (l pat : List Nat) :
    containsSub l pat = true ↔ ∃ u v, l = u ++ pat ++ v := by
  induction l with
  | nil =>
    simp only [containsSub_nil]
    constructor
    · intro h
      cases pat with
      | nil => exact ⟨[], [], rfl⟩
      | cons b p => simp [startsWithB] at h
    · rintro ⟨u, v, h⟩
      have h2 : u ++ pat ++ v = [] := h.symm
      rw [List.append_assoc, List.append_eq_nil] at h2
      rw [List.append_eq_nil] at h2
      simp [h2.2.1]
  | cons a t ih =>
    rw [containsSub_cons, Bool.or_eq_true, ih]
    constructor
    · rintro (h | ⟨u, v, h⟩)
      · obtain ⟨r, hr⟩ := (startsWithB_iff _ _).mp h
        exact ⟨[], r, by simp [hr]⟩
      · exact ⟨a :: u, v, by simp [h]⟩
    · rintro ⟨u, v, h⟩
      cases u with
      | nil =>
        left
        refine (startsWithB_iff _ _).mpr ⟨v, ?_⟩
        simpa using h
      | cons x u =>
        right
        refine ⟨u, v, ?_⟩
        have h2 : x :: (u ++ pat ++ v) = a :: t := by simpa using h.symm
        injection h2 with h3 h4
        exact h4.symm

theorem containsSub_of_sw {l pat : List Nat} (h : startsWithB l pat = true) :
    containsSub l pat = true := by
  obtain ⟨r, hr⟩ := (startsWithB_iff _ _).mp h
  exact (containsSub_iff _ _).mpr ⟨[], r, by simp [hr]⟩

theorem containsSub_append_left {X pat : List Nat} (Y : List Nat)
    (h : containsSub X pat = true) : containsSub (X ++ Y) pat = true := by
  obtain ⟨u, v, hv⟩ := (containsSub_iff _ _).mp h
  exact (containsSub_iff _ _).mpr ⟨u, v ++ Y, by simp [hv]⟩

theorem containsSub_append_right {Y pat : List Nat} (X : List Nat)
    (h : containsSub Y pat = true) : containsSub (X ++ Y) pat = true := by
  obtain ⟨u, v, hv⟩ := (containsSub_iff _ _).mp h
  exact (containsSub_iff _ _).mpr ⟨X ++ u, v, by simp [hv]⟩

theorem containsSub_of_drop {l pat : List Nat} (k : Nat)
    (h : containsSub (l.drop k) pat = true) : containsSub l pat = true := by
  have := containsSub_append_right (l.take k) h
  rwa [List.take_append_drop] at this

theorem containsSub_of_take {l pat : List Nat} (k : Nat)
    (h : containsSub (l.take k) pat = true) : containsSub l pat = true := by
  have := containsSub_append_left (l.drop k) h
  rwa [List.take_append_drop] at this

/-- Decomposition of an occurrence inside a concatenation: it lies in the
left part, in the right part, or spans the boundary. -/
theorem containsSub_append_split {X Y pat : List Nat}
    (h : containsSub (X ++ Y) pat = true) :
    containsSub X pat = true ∨ containsSub Y pat = true ∨
      ∃ s t, pat = s ++ t ∧ s ≠ [] ∧ t ≠ [] ∧ (∃ u, X = u ++ s) ∧
        startsWithB Y t = true := by
  obtain ⟨u, v, huv⟩ := (containsSub_iff _ _).mp h
  by_cases hc1 : u.length + pat.length ≤ X.length
  · -- occurrence fully inside X
    left
    have hx : X = (X ++ Y).take X.length := (List.take_left _ _).symm
    rw [huv, List.append_assoc, List.take_append_eq_append_take,
      List.take_of_length_le (by omega), List.take_append_eq_append_take,
      List.take_of_length_le (by omega)] at hx
    rw [← List.append_assoc] at hx
    exact (containsSub_iff _ _).mpr ⟨u, _, hx⟩
  · by_cases hc2 : X.length ≤ u.length
    · -- occurrence fully inside Y
      right; left
      have hy : Y = (X ++ Y).drop X.length := (List.drop_left _ _).symm
      rw [huv, List.append_assoc, List.drop_append_eq_append_drop,
        Nat.sub_eq_zero_of_le hc2, List.drop_zero] at hy
      exact (containsSub_iff _ _).mpr ⟨u.drop X.length, v, by
        rw [hy, List.append_assoc]⟩
    · -- occurrence spans the boundary
      right; right
      push_neg at hc1 hc2
      have hm1 : X.length - u.length ≤ pat.length := by omega
      have hx : X = (X ++ Y).take X.length := (List.take_left _ _).symm
      rw [huv, List.append_assoc, List.take_append_eq_append_take,
        List.take_of_length_le (by omega),
        List.take_append_of_le_length hm1] at hx
      have hy : Y = (X ++ Y).drop X.length := (List.drop_left _ _).symm
      rw [huv, List.append_assoc, List.drop_append_eq_append_drop,
        List.drop_append_eq_append_drop] at hy
      have hz : X.length - u.length - pat.length = 0 := by omega
      rw [hz, List.drop_zero, List.drop_eq_nil_iff.mpr (le_of_lt hc2),
        List.nil_append] at hy
      refine ⟨pat.take (X.length - u.length), pat.drop (X.length - u.length),
        (List.take_append_drop _ _).symm, ?_, ?_, ⟨u, hx⟩, ?_⟩
      · intro hcon
        have := congrArg List.length hcon
        simp only [List.length_take, List.length_nil] at this
        omega
      · intro hcon
        have := congrArg List.length hcon
        simp only [List.length_drop, List.length_nil] at this
        omega
      · exact (startsWithB_iff _ _).mpr ⟨v, hy⟩

/-- A match found by `findSub` lies entirely inside the list. -/
theorem findSub_fits {a pat : List Nat} {i : Nat} (h : findSub a pat = some i) :
    i + pat.length ≤ a.length := by
  induction a generalizing i with
  | nil =>
    rw [findSub] at h
    split at h
    · next hp =>
      cases h
      rw [List.isEmpty_iff] at hp
      simp [hp]
    · cases h
  | cons x b ih =>
    rw [findSub] at h
    split at h
    · next hs =>
      cases h
      simpa using startsWithB_length_le hs
    · cases hf : findSub b pat with
      | none => rw [hf] at h; cases h
      | some j =>
        rw [hf] at h
        simp only [Option.map_some'] at h
        cases h
        have := ih hf
        simp only [List.length_cons]
        omega

theorem findSub_append_left {a pat : List Nat} {i : Nat} (t : List Nat)
    (h : findSub a pat = some i) : findSub (a ++ t) pat = some i := by
  induction a generalizing i with
  | nil =>
    rw [findSub] at h
    split at h
    · next hp =>
      cases h
      rw [List.isEmpty_iff] at hp
      subst hp
      cases t <;> simp [findSub]
    · cases h
  | cons x a ih =>
    rw [findSub] at h
    have hstep : findSub ((x :: a) ++ t) pat = findSub (x :: (a ++ t)) pat := by
      rw [List.cons_append]
    rw [hstep, findSub]
    split at h
    · next hs =>
      cases h
      have hs2 : startsWithB (x :: (a ++ t)) pat = true := by
        have := startsWithB_append_of t hs
        rwa [List.cons_append] at this
      rw [if_pos hs2]
    · next hs =>
      cases hmap : findSub a pat with
      | none => rw [hmap] at h; cases h
      | some j =>
        rw [hmap] at h
        simp only [Option.map_some'] at h
        have hs2 : ¬ startsWithB (x :: (a ++ t)) pat = true := by
          intro hcon
          by_cases hlen : pat.length ≤ (x :: a).length
          · refine hs ?_
            obtain ⟨r, hr⟩ := (startsWithB_iff _ _).mp hcon
            have hr2 : (x :: a) ++ t = pat ++ r := by rw [List.cons_append]; exact hr
            exact startsWithB_of_prefix_eq hr2 hlen
          · have hfit := findSub_fits hmap
            have := startsWithB_length_le hcon
            simp only [List.length_cons] at hlen
            omega
        rw [if_neg hs2, ih hmap]
        simpa using h

/-! ## Lemmas about the quote tracker and element scanner -/

theorem qsRun_cons (st : QS) (b : Nat) (l : List Nat) :
    qsRun st (b :: l) = qsRun (qsStep st b) l := rfl

theorem qsRun_append (st : QS) (a b : List Nat) :
    qsRun st (a ++ b) = qsRun (qsRun st a) b := by
  simp [qsRun, List.foldl_append]

theorem qsStep_id_of {b : Nat} (st : QS) (h1 : b ≠ 39) (h2 : b ≠ 34) :
    qsStep st b = st := by
  cases st <;> simp [qsStep, h1, h2]

theorem qsRun_id_of {l : List Nat} (st : QS)
    (h : ∀ b ∈ l, b ≠ 39 ∧ b ≠ 34) : qsRun st l = st := by
  induction l with
  | nil => rfl
  | cons x t ih =>
    rw [qsRun_cons, qsStep_id_of st (h x (by simp)).1 (h x (by simp)).2]
    exact ih fun b hb => h b (by simp [hb])

theorem scanElem_none_no_gt {l : List Nat} (st : QS)
    (h : ∀ b ∈ l, b ≠ 62) : scanElem st l = none := by
  induction l generalizing st with
  | nil => rfl
  | cons x t ih =>
    rw [scanElem]
    have hx : x ≠ 62 := h x (by simp)
    rw [if_neg (by simp [hx])]
    rw [ih _ fun b hb => h b (by simp [hb])]
    rfl

theorem scanElem_outside_gt (r : List Nat) : scanElem .outside (62 :: r) = some 0 := by
  rw [scanElem]; rw [if_pos (by simp)]

theorem scanElem_append_no_gt {xs : List Nat} (st : QS) (ys : List Nat)
    (h : ∀ b ∈ xs, b ≠ 62) :
    scanElem st (xs ++ ys) = (scanElem (qsRun st xs) ys).map (· + xs.length) := by
  induction xs generalizing st with
  | nil =>
    simp only [List.nil_append, qsRun, List.foldl_nil, List.length_nil]
    cases scanElem st ys <;> simp
  | cons x t ih =>
    have hx : x ≠ 62 := h x (by simp)
    rw [List.cons_append, scanElem, if_neg (by simp [hx]),
      ih (qsStep st x) fun b hb => h b (by simp [hb]), qsRun_cons]
    cases scanElem (qsRun (qsStep st x) t) ys <;> simp
    omega

/-! ## takeWhile and trim lemmas -/

theorem takeWhile_all_append {P : Nat → Bool} {t r : List Nat}
    (h1 : ∀ b ∈ t, P b = true) (h2 : ∀ h, r.head? = some h → P h = false) :
    (t ++ r).takeWhile P = t := by
  induction t with
  | nil =>
    cases r with
    | nil => rfl
    | cons x r =>
      simp only [List.nil_append, List.takeWhile_cons]
      rw [h2 x rfl]
      rfl
  | cons x t ih =>
    have hx : P x = true := h1 x (by simp)
    simp only [List.cons_append, List.takeWhile_cons, hx, if_true]
    rw [ih fun b hb => h1 b (by simp [hb])]

theorem trimB_eq_self {l : List Nat}
    (h1 : ∀ b, l.head? = some b → isWsB b = false)
    (h2 : ∀ b, l.getLast? = some b → isWsB b = false) : trimB l = l := by
  unfold trimB
  have hd : l.dropWhile isWsB = l := by
    cases l with
    | nil => rfl
    | cons x t =>
      rw [List.dropWhile_cons, h1 x rfl]
      rfl
  rw [hd]
  have hr : l.reverse.dropWhile isWsB = l.reverse := by
    cases hl : l.reverse with
    | nil => rfl
    | cons x t =>
      rw [List.dropWhile_cons]
      have : l.getLast? = some x := by
        rw [← List.head?_reverse, hl]; rfl
      rw [h2 x this]
      rfl
  rw [hr, List.reverse_reverse]

theorem firstNonWs_cons_nonws {b : Nat} (l : List Nat) (h : isWsB b = false) :
    firstNonWs (b :: l) = some 0 := by
  rw [firstNonWs, h]; rfl

/-! ## Well-formed tag names and attribute blobs

These predicates carve out the tag syntax on which the permissive reader
behaves like a standard XML tokenizer: names without structural bytes,
attribute blobs that start with a space, contain no `>` and have balanced
quotes. -/

/-- Bytes allowed in a tag name: no whitespace, no `< > / ! ?` and no
quote characters. -/
def nameByteOk (b : Nat) : Bool :=
  !(isWsB b) && b != 60 && b != 62 && b != 47 && b != 33 && b != 63 &&
    b != 39 && b != 34

/-- Well-formed tag name: nonempty, all bytes allowed. -/
def nameOkB (n : List Nat) : Bool := !n.isEmpty && n.all nameByteOk

/-- Well-formed attribute blob: empty, or starting with a space, free of
`>`, with balanced quotes, and not ending in `/`. -/
def attrsOkB (a : List Nat) : Bool :=
  a.isEmpty ||
    (a.head? == some 32 && a.all (fun b => b != 62) &&
      decide (qsRun .outside a = QS.outside) && !(a.getLast? == some 47))

theorem nameByteOk_spec {b : Nat} (h : nameByteOk b = true) :
    isWsB b = false ∧ b ≠ 60 ∧ b ≠ 62 ∧ b ≠ 47 ∧ b ≠ 33 ∧ b ≠ 63 ∧
      b ≠ 39 ∧ b ≠ 34 := by
  simp only [nameByteOk, Bool.and_eq_true, bne_iff_ne, ne_eq,
    Bool.not_eq_true'] at h
  tauto

theorem nameOkB_spec {n : List Nat} (h : nameOkB n = true) :
    n ≠ [] ∧ ∀ b ∈ n, nameByteOk b = true := by
  simp only [nameOkB, Bool.and_eq_true, Bool.not_eq_true', List.all_eq_true] at h
  refine ⟨?_, h.2⟩
  intro hc
  subst hc
  simp at h

theorem attrsOkB_spec {a : List Nat} (h : attrsOkB a = true) :
    (∀ b ∈ a, b ≠ 62) ∧ qsRun .outside a = QS.outside ∧
      (a = [] ∨ a.head? = some 32) ∧ a.getLast? ≠ some 47 := by
  rcases a with _ | ⟨x, t⟩
  · simp [qsRun]
  · simp only [attrsOkB, List.isEmpty_cons, Bool.false_or, Bool.and_eq_true,
      beq_iff_eq, List.all_eq_true, bne_iff_ne, ne_eq, decide_eq_true_eq,
      Bool.not_eq_true', beq_eq_false_iff_ne] at h
    refine ⟨fun b hb => h.1.1.2 b hb, h.1.2, Or.inr h.1.1.1, h.2⟩

/-- The tag content of a well-formed name and attribute blob: its name part
is exactly the name. -/
theorem nameOf_append {n a : List Nat} (hn : nameOkB n = true)
    (ha : attrsOkB a = true) : nameOf (n ++ a) = n := by
  obtain ⟨-, hmem⟩ := nameOkB_spec hn
  obtain ⟨-, -, hhead, -⟩ := attrsOkB_spec ha
  unfold nameOf
  refine takeWhile_all_append ?_ ?_
  · intro b hb
    simp [(nameByteOk_spec (hmem b hb)).1]
  · intro h hh
    rcases hhead with rfl | hhead
    · simp at hh
    · rw [hhead] at hh
      cases hh
      rfl

theorem tagContent_no_gt {n a : List Nat} (hn : nameOkB n = true)
    (ha : attrsOkB a = true) : ∀ b ∈ n ++ a, b ≠ 62 := by
  obtain ⟨-, hmem⟩ := nameOkB_spec hn
  obtain ⟨hgt, -, -, -⟩ := attrsOkB_spec ha
  intro b hb
  rcases List.mem_append.mp hb with hb | hb
  · exact (nameByteOk_spec (hmem b hb)).2.2.1
  · exact hgt b hb

theorem tagContent_qs {n a : List Nat} (hn : nameOkB n = true)
    (ha : attrsOkB a = true) : qsRun .outside (n ++ a) = QS.outside := by
  obtain ⟨-, hmem⟩ := nameOkB_spec hn
  obtain ⟨-, hqs, -, -⟩ := attrsOkB_spec ha
  rw [qsRun_append]
  rw [qsRun_id_of _ fun b hb =>
    ⟨(nameByteOk_spec (hmem b hb)).2.2.2.2.2.2.1, (nameByteOk_spec (hmem b hb)).2.2.2.2.2.2.2⟩]
  exact hqs

theorem tagContent_getLast {n a : List Nat} (hn : nameOkB n = true)
    (ha : attrsOkB a = true) : (n ++ a).getLast? ≠ some 47 := by
  obtain ⟨hne, hmem⟩ := nameOkB_spec hn
  obtain ⟨-, -, -, hlast⟩ := attrsOkB_spec ha
  rw [List.getLast?_append]
  cases hal : a.getLast? with
  | some z => simpa [hal] using hlast
  | none =>
    simp only [hal, Option.none_or]
    cases hnl : n.getLast? with
    | none => simp
    | some z =>
      have hz : z ∈ n := List.mem_of_mem_getLast? hnl
      simpa using (nameByteOk_spec (hmem z hz)).2.2.2.1

/-! ## Event computation lemmas for readEvent -/

theorem readEvent_nil : readEvent [] = (.EofEv, 0) := rfl

theorem readEvent_cons (b : Nat) (rest : List Nat) :
    readEvent (b :: rest) =
      if b != 60 then (.TextEv, ((b :: rest).takeWhile (fun x => x != 60)).length)
      else readTag rest := rfl

/-- An opening element tag: the reader returns a `Start` event carrying the
content, consuming the tag up to and including the `>`. -/
theorem readEvent_start {n a : List Nat} (rest : List Nat)
    (hn : nameOkB n = true) (ha : attrsOkB a = true) :
    readEvent (60 :: ((n ++ a) ++ 62 :: rest)) =
      (.StartT (n ++ a), (n ++ a).length + 2) := by
  obtain ⟨hne, hmem⟩ := nameOkB_spec hn
  obtain ⟨h, n2, rfl⟩ : ∃ h n2, n = h :: n2 := by
    cases n with
    | nil => exact absurd rfl hne
    | cons h n2 => exact ⟨h, n2, rfl⟩
  obtain ⟨-, -, -, h47, h33, h63, -, -⟩ := nameByteOk_spec (hmem h (by simp))
  have hstep : (h :: n2 ++ a) ++ 62 :: rest = h :: ((n2 ++ a) ++ 62 :: rest) := by
    simp
  rw [readEvent_cons, if_neg (by simp), hstep, readTag]
  rw [if_neg (by simp [h33]), if_neg (by simp [h63]), if_neg (by simp [h47])]
  have hscan : scanElem .outside (h :: ((n2 ++ a) ++ 62 :: rest)) =
      some ((h :: n2 ++ a).length) := by
    have h2 := scanElem_append_no_gt .outside (62 :: rest) (tagContent_no_gt hn ha)
    rw [tagContent_qs hn ha, scanElem_outside_gt] at h2
    simp only [Option.map_some', Nat.zero_add] at h2
    rw [← hstep, h2]
  rw [hscan]
  have htake : (h :: ((n2 ++ a) ++ 62 :: rest)).take ((h :: n2 ++ a).length) =
      h :: n2 ++ a := by
    rw [← hstep, List.take_left]
  simp only [htake]
  rw [if_neg (by simpa using tagContent_getLast hn ha)]

/-- A self-closing element tag: the reader returns an `Empty` event carrying
the content without the trailing `/`. -/
theorem readEvent_empty {n a : List Nat} (rest : List Nat)
    (hn : nameOkB n = true) (ha : attrsOkB a = true) :
    readEvent (60 :: ((n ++ a) ++ 47 :: 62 :: rest)) =
      (.EmptyT (n ++ a), (n ++ a).length + 3) := by
  obtain ⟨hne, hmem⟩ := nameOkB_spec hn
  obtain ⟨h, n2, rfl⟩ : ∃ h n2, n = h :: n2 := by
    cases n with
    | nil => exact absurd rfl hne
    | cons h n2 => exact ⟨h, n2, rfl⟩
  obtain ⟨-, -, -, h47, h33, h63, -, -⟩ := nameByteOk_spec (hmem h (by simp))
  have hstep : ((h :: n2 ++ a) ++ [47]) ++ 62 :: rest =
      h :: ((n2 ++ a) ++ 47 :: 62 :: rest) := by simp
  have hstart : (h :: n2 ++ a) ++ 47 :: 62 :: rest =
      h :: ((n2 ++ a) ++ 47 :: 62 :: rest) := by simp
  rw [readEvent_cons, if_neg (by simp), hstart, readTag]
  rw [if_neg (by simp [h33]), if_neg (by simp [h63]), if_neg (by simp [h47])]
  have hgt2 : ∀ b ∈ (h :: n2 ++ a) ++ [47], b ≠ 62 := by
    intro b hb
    rcases List.mem_append.mp hb with hb | hb
    · exact tagContent_no_gt hn ha b hb
    · simp only [List.mem_singleton] at hb
      omega
  have hscan : scanElem .outside (h :: ((n2 ++ a) ++ 47 :: 62 :: rest)) =
      some (((h :: n2 ++ a) ++ [47]).length) := by
    have h2 := scanElem_append_no_gt .outside (62 :: rest) hgt2
    rw [qsRun_append, tagContent_qs hn ha] at h2
    have hq47 : qsRun QS.outside [47] = QS.outside := by
      rw [qsRun_id_of]
      intro b hb
      simp only [List.mem_singleton] at hb
      omega
    rw [hq47, scanElem_outside_gt] at h2
    simp only [Option.map_some', Nat.zero_add] at h2
    rw [← hstep, h2]
  rw [hscan]
  have htake : (h :: ((n2 ++ a) ++ 47 :: 62 :: rest)).take
      (((h :: n2 ++ a) ++ [47]).length) = (h :: n2 ++ a) ++ [47] := by
    rw [← hstep, List.take_left]
  simp only [htake]
  have hlast : ((h :: n2 ++ a) ++ [47]).getLast? = some 47 := List.getLast?_concat _
  rw [if_pos (by simpa using hlast), List.dropLast_concat]
  simp only [Prod.mk.injEq, List.length_append, List.length_cons,
    List.length_nil]

/-- A closing tag: the reader returns an `End` event carrying the name. -/
theorem readEvent_end {n : List Nat} (rest : List Nat) (hn : nameOkB n = true) :
    readEvent (60 :: 47 :: (n ++ 62 :: rest)) = (.EndT n, n.length + 3) := by
  obtain ⟨hne, hmem⟩ := nameOkB_spec hn
  rw [readEvent_cons, if_neg (by simp), readTag]
  rw [if_neg (by simp), if_neg (by simp), if_pos (by simp)]
  have hgt : ∀ b ∈ n, b ≠ 62 := fun b hb => (nameByteOk_spec (hmem b hb)).2.2.1
  have hqs : qsRun QS.outside n = QS.outside := by
    refine qsRun_id_of _ fun b hb =>
      ⟨(nameByteOk_spec (hmem b hb)).2.2.2.2.2.2.1,
       (nameByteOk_spec (hmem b hb)).2.2.2.2.2.2.2⟩
  have hscan : scanElem .outside (n ++ 62 :: rest) = some n.length := by
    have h2 := scanElem_append_no_gt .outside (62 :: rest) hgt
    rw [hqs, scanElem_outside_gt] at h2
    simpa using h2
  rw [hscan]
  show (XEvent.EndT ((n ++ 62 :: rest).take n.length), n.length + 3) = _
  rw [List.take_left]

/-- A text run: the reader consumes up to the next `<` (or the end of the
buffer). -/
theorem readEvent_text {t : List Nat} (rest : List Nat) (ht : t ≠ [])
    (h60 : ∀ b ∈ t, b ≠ 60) (hr : rest = [] ∨ rest.head? = some 60) :
    readEvent (t ++ rest) = (.TextEv, t.length) := by
  obtain ⟨b, t2, rfl⟩ : ∃ b t2, t = b :: t2 := by
    cases t with
    | nil => exact absurd rfl ht
    | cons b t2 => exact ⟨b, t2, rfl⟩
  have hb : b ≠ 60 := h60 b (by simp)
  rw [List.cons_append, readEvent_cons, if_pos (by simp [hb])]
  have htw : (b :: (t2 ++ rest)).takeWhile (fun x => x != 60) = b :: t2 := by
    have hre : b :: (t2 ++ rest) = (b :: t2) ++ rest := by simp
    rw [hre]
    refine takeWhile_all_append ?_ ?_
    · intro c hc
      simp [h60 c hc]
    · intro h hh
      rcases hr with rfl | hr
      · simp at hh
      · rw [hr] at hh
        cases hh
        simp
  rw [htw]

/-- An unterminated tag (no `>` in the rest of the buffer) is a syntax
error. -/
theorem readEvent_err_open {p : List Nat}
    (hp : p = [] ∨ ∃ h p2, p = h :: p2 ∧ h ≠ 33 ∧ h ≠ 63 ∧ h ≠ 47)
    (hgt : ∀ b ∈ p, b ≠ 62) : readEvent (60 :: p) = (.ErrEv, 0) := by
  rcases hp with rfl | ⟨h, p2, rfl, h33, h63, h47⟩
  · rfl
  · rw [readEvent_cons, if_neg (by simp), readTag]
    rw [if_neg (by simp [h33]), if_neg (by simp [h63]), if_neg (by simp [h47])]
    rw [scanElem_none_no_gt _ hgt]

/-- An unterminated closing tag is a syntax error. -/
theorem readEvent_err_endtag {e : List Nat} (hgt : ∀ b ∈ e, b ≠ 62) :
    readEvent (60 :: 47 :: e) = (.ErrEv, 0) := by
  rw [readEvent_cons, if_neg (by simp), readTag]
  rw [if_neg (by simp), if_neg (by simp), if_pos (by simp)]
  rw [scanElem_none_no_gt _ hgt]

/-- Every tag event consumes at least one byte. -/
theorem readTag_pos {s : List Nat} {ev : XEvent} {k : Nat}
    (h : readTag s = (ev, k)) (h2 : ev ≠ .ErrEv) : 1 ≤ k := by
  cases s with
  | nil =>
    rw [readTag] at h
    injection h with ha hk
    exact absurd ha.symm h2
  | cons c r2 =>
    rw [readTag] at h
    repeat' split at h
    all_goals
      first
      | (injection h with ha hk; exact absurd ha.symm h2)
      | (injection h with ha hk; omega)
      | (simp only [] at h; split at h <;> (injection h with ha hk; omega))

/-- Every event other than end-of-input and error consumes at least one
byte. -/
theorem readEvent_pos {s : List Nat} {ev : XEvent} {k : Nat}
    (h : readEvent s = (ev, k)) (h1 : ev ≠ .EofEv) (h2 : ev ≠ .ErrEv) :
    1 ≤ k := by
  cases s with
  | nil =>
    rw [readEvent_nil] at h
    injection h with ha hb
    exact absurd ha.symm h1
  | cons b rest =>
    rw [readEvent_cons] at h
    by_cases hb : (b != 60) = true
    · rw [if_pos hb] at h
      injection h with ha hk
      rw [← hk]
      simp [List.takeWhile_cons, hb]
    · rw [if_neg hb] at h
      exact readTag_pos h h2

/-! ## Fuel-insensitive view of the extraction loop -/

/-- The extraction loop run with canonical (always sufficient) fuel. -/
def extractGo (orig : List Nat) (pos depth : Nat) (inSt : Bool) (sStart : Nat) :
    Option (List Nat × Nat) :=
  extractLoop orig pos depth inSt sStart (orig.length - pos + 1)

/-- A non-Eof event can only be read from a position inside the buffer. -/
theorem readEvent_lt_length {orig : List Nat} {pos : Nat} {ev : XEvent} {k : Nat}
    (h : readEvent (orig.drop pos) = (ev, k)) (hne : ev ≠ .EofEv) :
    pos < orig.length := by
  by_contra hc
  push_neg at hc
  rw [List.drop_eq_nil_iff.mpr hc, readEvent_nil] at h
  injection h with he hk
  exact hne he.symm

/-- Fuel irrelevance: with enough fuel the loop result does not depend on
the exact fuel value. -/
theorem extractLoop_fuel (orig : List Nat) :
    ∀ f1 f2 pos depth inSt sStart, orig.length - pos + 1 ≤ f1 →
      orig.length - pos + 1 ≤ f2 →
      extractLoop orig pos depth inSt sStart f1 =
        extractLoop orig pos depth inSt sStart f2 := by
  intro f1
  induction f1 with
  | zero =>
    intro f2 pos d i s h1 h2
    omega
  | succ g ih =>
    intro f2 pos d i s h1 h2
    cases f2 with
    | zero => omega
    | succ g2 =>
      simp only [extractLoop]
      cases hre : readEvent (orig.drop pos) with
      | mk ev k =>
        have hbound : ev ≠ .EofEv → ev ≠ .ErrEv →
            orig.length - (pos + k) + 1 ≤ g ∧ orig.length - (pos + k) + 1 ≤ g2 := by
          intro hne hne2
          have hk := readEvent_pos hre hne hne2
          have hpos := readEvent_lt_length hre hne
          omega
        cases ev with
        | MetaEv =>
          simp only [hre]
          obtain ⟨hb1, hb2⟩ := hbound (by simp) (by simp)
          exact ih g2 (pos + k) d i s hb1 hb2
        | TextEv =>
          simp only [hre]
          obtain ⟨hb1, hb2⟩ := hbound (by simp) (by simp)
          exact ih g2 (pos + k) d i s hb1 hb2
        | CDataEv =>
          simp only [hre]
          obtain ⟨hb1, hb2⟩ := hbound (by simp) (by simp)
          exact ih g2 (pos + k) d i s hb1 hb2
        | StartT c =>
          simp only [hre]
          obtain ⟨hb1, hb2⟩ := hbound (by simp) (by simp)
          by_cases hc1 : (!i && isStreamName c) = true
          · simp [hc1]
          · by_cases hc2 : (!i && d + 1 == 1) = true
            · simp only [hc1, hc2, if_true, if_false, Bool.false_eq_true]
              exact ih g2 (pos + k) (d + 1) true pos hb1 hb2
            · simp only [hc1, hc2, if_false, Bool.false_eq_true]
              exact ih g2 (pos + k) (d + 1) i s hb1 hb2
        | EmptyT c =>
          simp only [hre]
          obtain ⟨hb1, hb2⟩ := hbound (by simp) (by simp)
          by_cases hc1 : (!i && isStreamName c) = true
          · simp [hc1]
          · by_cases hc2 : (!i && d == 0) = true
            · simp [hc1, hc2]
            · simp only [hc1, hc2, if_false, Bool.false_eq_true]
              exact ih g2 (pos + k) d i s hb1 hb2
        | EndT c =>
          simp only [hre]
          obtain ⟨hb1, hb2⟩ := hbound (by simp) (by simp)
          by_cases hc1 : (isStreamName c && d == 0) = true
          · simp [hc1]
          · by_cases hc2 : (i && d - 1 == 0) = true
            · simp [hc1, hc2]
            · simp only [hc1, hc2, if_false, Bool.false_eq_true]
              exact ih g2 (pos + k) (d - 1) i s hb1 hb2
        | EofEv => simp only [hre]
        | ErrEv => simp only [hre]

/-- Any sufficient fuel computes `extractGo`. -/
theorem extractLoop_go (orig : List Nat) {f pos : Nat} (depth : Nat)
    (inSt : Bool) (sStart : Nat) (h : orig.length - pos + 1 ≤ f) :
    extractLoop orig pos depth inSt sStart f = extractGo orig pos depth inSt sStart :=
  extractLoop_fuel orig f (orig.length - pos + 1) pos depth inSt sStart h (le_refl _)

/-- The full-buffer run of `extract_stanza` is `extractGo` from position 0. -/
theorem extract_stanza_go (buffer : List Nat) :
    extractLoop buffer 0 0 false 0 (buffer.length + 1) = extractGo buffer 0 0 false 0 := by
  refine extractLoop_go buffer 0 false 0 ?_
  omega

/-! ## One-step unfolding lemmas for extractGo -/

theorem extractGo_eof {orig : List Nat} {pos : Nat} (d : Nat) (i : Bool) (s : Nat)
    (h : orig.drop pos = []) : extractGo orig pos d i s = none := by
  unfold extractGo
  rw [extractLoop]
  rw [h, readEvent_nil]

theorem extractGo_err {orig : List Nat} {pos k : Nat} (d : Nat) (i : Bool) (s : Nat)
    (h : readEvent (orig.drop pos) = (.ErrEv, k)) : extractGo orig pos d i s = none := by
  unfold extractGo
  rw [extractLoop]
  simp only [h]

theorem extractGo_meta {orig : List Nat} {pos k : Nat} (d : Nat) (i : Bool) (s : Nat)
    (h : readEvent (orig.drop pos) = (.MetaEv, k)) :
    extractGo orig pos d i s = extractGo orig (pos + k) d i s := by
  have hk : 1 ≤ k := readEvent_pos h (by simp) (by simp)
  have hpos := readEvent_lt_length h (by simp)
  unfold extractGo
  rw [extractLoop]
  simp only [h]
  exact extractLoop_go orig d i s (by omega)

theorem extractGo_text {orig : List Nat} {pos k : Nat} (d : Nat) (i : Bool) (s : Nat)
    (h : readEvent (orig.drop pos) = (.TextEv, k)) :
    extractGo orig pos d i s = extractGo orig (pos + k) d i s := by
  have hk : 1 ≤ k := readEvent_pos h (by simp) (by simp)
  have hpos := readEvent_lt_length h (by simp)
  unfold extractGo
  rw [extractLoop]
  simp only [h]
  exact extractLoop_go orig d i s (by omega)

theorem extractGo_cdata {orig : List Nat} {pos k : Nat} (d : Nat) (i : Bool) (s : Nat)
    (h : readEvent (orig.drop pos) = (.CDataEv, k)) :
    extractGo orig pos d i s = extractGo orig (pos + k) d i s := by
  have hk : 1 ≤ k := readEvent_pos h (by simp) (by simp)
  have hpos := readEvent_lt_length h (by simp)
  unfold extractGo
  rw [extractLoop]
  simp only [h]
  exact extractLoop_go orig d i s (by omega)

theorem extractGo_start {orig : List Nat} {pos k : Nat} {c : List Nat}
    (d : Nat) (i : Bool) (s : Nat)
    (h : readEvent (orig.drop pos) = (.StartT c, k)) :
    extractGo orig pos d i s =
      if !i && isStreamName c then some (orig.take (pos + k), pos + k)
      else if !i && d + 1 == 1 then extractGo orig (pos + k) (d + 1) true pos
      else extractGo orig (pos + k) (d + 1) i s := by
  have hk : 1 ≤ k := readEvent_pos h (by simp) (by simp)
  have hpos := readEvent_lt_length h (by simp)
  unfold extractGo
  rw [extractLoop]
  simp only [h]
  by_cases hc1 : (!i && isStreamName c) = true
  · simp [hc1]
  · by_cases hc2 : (!i && d + 1 == 1) = true
    · simp only [hc1, hc2, if_true, if_false, Bool.false_eq_true]
      exact extractLoop_go orig (d + 1) true pos (by omega)
    · simp only [hc1, hc2, if_false, Bool.false_eq_true]
      exact extractLoop_go orig (d + 1) i s (by omega)

theorem extractGo_empty {orig : List Nat} {pos k : Nat} {c : List Nat}
    (d : Nat) (i : Bool) (s : Nat)
    (h : readEvent (orig.drop pos) = (.EmptyT c, k)) :
    extractGo orig pos d i s =
      if !i && isStreamName c then some (orig.take (pos + k), pos + k)
      else if !i && d == 0 then some ((orig.take (pos + k)).drop pos, pos + k)
      else extractGo orig (pos + k) d i s := by
  have hk : 1 ≤ k := readEvent_pos h (by simp) (by simp)
  have hpos := readEvent_lt_length h (by simp)
  unfold extractGo
  rw [extractLoop]
  simp only [h]
  by_cases hc1 : (!i && isStreamName c) = true
  · simp [hc1]
  · by_cases hc2 : (!i && d == 0) = true
    · simp [hc1, hc2]
    · simp only [hc1, hc2, if_false, Bool.false_eq_true]
      exact extractLoop_go orig d i s (by omega)

theorem extractGo_end {orig : List Nat} {pos k : Nat} {c : List Nat}
    (d : Nat) (i : Bool) (s : Nat)
    (h : readEvent (orig.drop pos) = (.EndT c, k)) :
    extractGo orig pos d i s =
      if isStreamName c && d == 0 then some (S "</stream:stream>", pos + k)
      else if i && d - 1 == 0 then some ((orig.take (pos + k)).drop s, pos + k)
      else extractGo orig (pos + k) (d - 1) i s := by
  have hk : 1 ≤ k := readEvent_pos h (by simp) (by simp)
  have hpos := readEvent_lt_length h (by simp)
  unfold extractGo
  rw [extractLoop]
  simp only [h]
  by_cases hc1 : (isStreamName c && d == 0) = true
  · simp [hc1]
  · by_cases hc2 : (i && d - 1 == 0) = true
    · simp [hc1, hc2]
    · simp only [hc1, hc2, if_false, Bool.false_eq_true]
      exact extractLoop_go orig (d - 1) i s (by omega)

/-! ## A grammar of well-formed stanzas

`Node`/`Forest` is the grammar that makes the claim "well-formed top-level
stanza" precise: elements with well-formed names and attribute blobs,
self-closing elements, and text runs without `<`.  `serN` is the byte
serialization; `extract_stanza` is proved to recover exactly a serialized
stanza from the front of any buffer. -/

mutual
inductive Node where
  | elem (name attrs : List Nat) (children : Forest)
  | selfc (name attrs : List Nat)
  | text (t : List Nat)
inductive Forest where
  | nil
  | cons (c : Node) (cs : Forest)
end

mutual
/-- Byte serialization of a node. -/
def serN : Node → List Nat
  | .elem n a cs => 60 :: ((n ++ a) ++ 62 :: (serF cs ++ 60 :: 47 :: (n ++ 62 :: [])))
  | .selfc n a => 60 :: ((n ++ a) ++ 47 :: 62 :: [])
  | .text t => t
/-- Byte serialization of a forest (children list). -/
def serF : Forest → List Nat
  | .nil => []
  | .cons c cs => serN c ++ serF cs
end

/-- Is the node a text run? -/
def isTextN : Node → Bool
  | .text _ => true
  | _ => false

mutual
/-- Well-formed node: names and attribute blobs are well-formed, text is
nonempty and free of `<`. -/
def wfN : Node → Bool
  | .elem n a cs => nameOkB n && attrsOkB a && wfF cs
  | .selfc n a => nameOkB n && attrsOkB a
  | .text t => !t.isEmpty && t.all (fun b => b != 60)
/-- Well-formed forest: each node well-formed and no two adjacent text
runs (adjacent runs would be tokenized as one). -/
def wfF : Forest → Bool
  | .nil => true
  | .cons c .nil => wfN c
  | .cons c (.cons d cs) => wfN c && !(isTextN c && isTextN d) && wfF (.cons d cs)
end

/-- Well-formed top-level stanza: a well-formed element or self-closing
element whose local name is not `stream` (those are the stream wrapper,
which the extractor treats specially). -/
def wfStanzaB : Node → Bool
  | .elem n a cs => wfN (.elem n a cs) && !(localName n == S "stream")
  | .selfc n a => wfN (.selfc n a) && !(localName n == S "stream")
  | .text _ => false

/-! ## Helper facts about the grammar -/

/-- Does the forest end in a text run? -/
def lastTextF : Forest → Bool
  | .nil => false
  | .cons c .nil => isTextN c
  | .cons _ (.cons d cs) => lastTextF (.cons d cs)

theorem drop_shift {orig : List Nat} {pos : Nat} {A B : List Nat}
    (h : orig.drop pos = A ++ B) : orig.drop (pos + A.length) = B := by
  have h2 : orig.drop (pos + A.length) = (orig.drop pos).drop A.length :=
    (List.drop_drop A.length pos orig).symm
  rw [h2, h, List.drop_left]

theorem wfF_cons {c : Node} {cs : Forest} (h : wfF (.cons c cs) = true) :
    wfN c = true ∧ wfF cs = true ∧
      ∀ dd cs3, cs = .cons dd cs3 → (isTextN c && isTextN dd) = false := by
  cases cs with
  | nil =>
    refine ⟨by simpa [wfF] using h, by simp [wfF], ?_⟩
    intro dd cs3 hc
    cases hc
  | cons d cs3 =>
    rw [wfF] at h
    simp only [Bool.and_eq_true] at h
    refine ⟨h.1.1, h.2, ?_⟩
    intro dd cs4 hc
    injection hc with h1 h2
    subst h1
    have h3 := h.1.2
    rwa [Bool.not_eq_true'] at h3

theorem wfN_text {t : List Nat} (h : wfN (.text t) = true) :
    t ≠ [] ∧ ∀ b ∈ t, b ≠ 60 := by
  rw [wfN] at h
  simp only [Bool.and_eq_true, Bool.not_eq_true', List.all_eq_true, bne_iff_ne,
    ne_eq] at h
  refine ⟨?_, h.2⟩
  intro hc
  subst hc
  simp at h

theorem serN_pos {c : Node} (h : wfN c = true) : 1 ≤ (serN c).length := by
  cases c with
  | elem n a cs => simp [serN]
  | selfc n a => simp [serN]
  | text t =>
    obtain ⟨hne, -⟩ := wfN_text h
    rw [serN]
    exact List.length_pos.mpr hne

theorem serN_head_tag {c : Node} (h : wfN c = true) (ht : isTextN c = false) :
    (serN c).head? = some 60 := by
  cases c with
  | elem n a cs => rfl
  | selfc n a => rfl
  | text t => simp [isTextN] at ht

/-- A well-formed non-stream tag name never triggers the stream-wrapper
check of the extractor. -/
theorem isStreamName_tag {n a : List Nat} (hn : nameOkB n = true)
    (ha : attrsOkB a = true) (hl : (localName n == S "stream") = false) :
    isStreamName (n ++ a) = false := by
  unfold isStreamName
  rw [nameOf_append hn ha, hl]
  simp only [Bool.false_or]
  by_cases he : n = S "stream:stream"
  · exfalso
    subst he
    revert hl
    decide
  · simp [he]

/-! ## Consuming a serialized node or forest at depth at least 1 -/

/-- Loop behaviour inside a stanza: consuming one well-formed node (first
component) or a whole well-formed forest (second component) advances the
position by the serialized length, keeps the depth, and emits nothing.
The last hypothesis guards text runs: the buffer after a trailing text run
must either end or continue with a `<`, so that the text event stops
exactly at the node boundary. -/
theorem consumeSer : ∀ (L : Nat),
    (∀ (c : Node), (serN c).length ≤ L → wfN c = true →
      ∀ (orig : List Nat) (pos d ss : Nat) (rest : List Nat),
        orig.drop pos = serN c ++ rest → 1 ≤ d →
        (isTextN c = true → rest = [] ∨ rest.head? = some 60) →
        extractGo orig pos d true ss =
          extractGo orig (pos + (serN c).length) d true ss) ∧
    (∀ (cs : Forest), (serF cs).length ≤ L → wfF cs = true →
      ∀ (orig : List Nat) (pos d ss : Nat) (rest : List Nat),
        orig.drop pos = serF cs ++ rest → 1 ≤ d →
        (lastTextF cs = true → rest = [] ∨ rest.head? = some 60) →
        extractGo orig pos d true ss =
          extractGo orig (pos + (serF cs).length) d true ss) := by
  intro L
  induction L using Nat.strong_induction_on with
  | _ L IH =>
    have hnode : ∀ (c : Node), (serN c).length ≤ L → wfN c = true →
        ∀ (orig : List Nat) (pos d ss : Nat) (rest : List Nat),
          orig.drop pos = serN c ++ rest → 1 ≤ d →
          (isTextN c = true → rest = [] ∨ rest.head? = some 60) →
          extractGo orig pos d true ss =
            extractGo orig (pos + (serN c).length) d true ss := by
      intro c hlen hwf orig pos d ss rest hdrop hd hguard
      cases c with
      | elem n a cc =>
        rw [wfN] at hwf
        simp only [Bool.and_eq_true] at hwf
        obtain ⟨⟨hn, ha⟩, hwfcc⟩ := hwf
        have hser : (serN (.elem n a cc)).length =
            (n ++ a).length + 2 + ((serF cc).length + (n.length + 3)) := by
          simp only [serN, List.length_cons, List.length_append, List.length_nil]
          omega
        have hdrop1 : orig.drop pos =
            60 :: ((n ++ a) ++ 62 :: (serF cc ++ 60 :: 47 :: (n ++ 62 :: rest))) := by
          rw [hdrop, serN]
          simp
        have hre1 : readEvent (orig.drop pos) =
            (.StartT (n ++ a), (n ++ a).length + 2) := by
          rw [hdrop1]
          exact readEvent_start _ hn ha
        rw [extractGo_start d true ss hre1]
        simp only [Bool.not_true, Bool.false_and, Bool.false_eq_true, if_false]
        have hsplit1 : orig.drop pos =
            (60 :: ((n ++ a) ++ [62])) ++
              (serF cc ++ (60 :: 47 :: (n ++ 62 :: rest))) := by
          rw [hdrop1]
          simp
        have hdrop2 := drop_shift hsplit1
        have hlenA : (60 :: ((n ++ a) ++ [62])).length = (n ++ a).length + 2 := by
          simp only [List.length_cons, List.length_append, List.length_nil]
        rw [hlenA] at hdrop2
        have hlt : (serF cc).length < L := by
          have := hlen
          rw [hser] at this
          omega
        have hcc := (IH (serF cc).length hlt).2 cc (le_refl _) hwfcc orig
          (pos + ((n ++ a).length + 2)) (d + 1) ss
          (60 :: 47 :: (n ++ 62 :: rest)) hdrop2 (by omega)
          (fun _ => Or.inr rfl)
        rw [hcc]
        have hdrop3 := drop_shift hdrop2
        have hre3 : readEvent
            (orig.drop (pos + ((n ++ a).length + 2) + (serF cc).length)) =
            (.EndT n, n.length + 3) := by
          rw [hdrop3]
          exact readEvent_end rest hn
        rw [extractGo_end (d + 1) true ss hre3]
        have hc1 : (isStreamName n && (d + 1 == 0)) = false := by
          simp
        have hdnz : d ≠ 0 := by omega
        have hc2 : (true && (d + 1 - 1 == 0)) = false := by
          simp [hdnz]
        rw [if_neg (by rw [hc1]; simp), if_neg (by rw [hc2]; simp)]
        have hposeq : pos + ((n ++ a).length + 2) + (serF cc).length + (n.length + 3) =
            pos + (serN (.elem n a cc)).length := by
          rw [hser]
          omega
        have hdeq : d + 1 - 1 = d := by omega
        rw [hdeq, hposeq]
      | selfc n a =>
        rw [wfN] at hwf
        simp only [Bool.and_eq_true] at hwf
        obtain ⟨hn, ha⟩ := hwf
        have hdrop1 : orig.drop pos = 60 :: ((n ++ a) ++ 47 :: 62 :: rest) := by
          rw [hdrop, serN]
          simp
        have hre : readEvent (orig.drop pos) =
            (.EmptyT (n ++ a), (n ++ a).length + 3) := by
          rw [hdrop1]
          exact readEvent_empty rest hn ha
        rw [extractGo_empty d true ss hre]
        simp only [Bool.not_true, Bool.false_and, Bool.false_eq_true, if_false]
        have hposeq : pos + ((n ++ a).length + 3) = pos + (serN (.selfc n a)).length := by
          simp only [serN, List.length_cons, List.length_append, List.length_nil]
        rw [hposeq]
      | text t =>
        obtain ⟨hne, h60⟩ := wfN_text hwf
        have hdrop1 : orig.drop pos = t ++ rest := by
          rw [hdrop, serN]
        have hre : readEvent (orig.drop pos) = (.TextEv, t.length) := by
          rw [hdrop1]
          exact readEvent_text rest hne h60 (hguard rfl)
        rw [extractGo_text d true ss hre]
        rfl
    refine ⟨hnode, ?_⟩
    intro cs hlen hwf orig pos d ss rest hdrop hd hguard
    cases cs with
    | nil => simp [serF]
    | cons c cs2 =>
      obtain ⟨hwfc, hwf2, hadj⟩ := wfF_cons hwf
      have hlen2 : (serF (.cons c cs2)).length =
          (serN c).length + (serF cs2).length := by
        rw [serF, List.length_append]
      have hguard2 : lastTextF cs2 = true → rest = [] ∨ rest.head? = some 60 := by
        intro hlt
        refine hguard ?_
        cases cs2 with
        | nil => simp [lastTextF] at hlt
        | cons dd cs3 => rwa [lastTextF]
      have hdropX : orig.drop pos = serN c ++ (serF cs2 ++ rest) := by
        rw [hdrop, serF, List.append_assoc]
      have hguardc : isTextN c = true → serF cs2 ++ rest = [] ∨
          (serF cs2 ++ rest).head? = some 60 := by
        intro htc
        cases cs2 with
        | nil =>
          have hrest := hguard (by rw [lastTextF]; exact htc)
          rcases hrest with rfl | hrest
          · left; simp [serF]
          · right; simpa [serF] using hrest
        | cons dd cs3 =>
          right
          have hddt : isTextN dd = false := by
            have h3 := hadj dd cs3 rfl
            rwa [htc, Bool.true_and] at h3
          have hwfdd : wfN dd = true := (wfF_cons hwf2).1
          have hhead := serN_head_tag hwfdd hddt
          rw [serF, List.append_assoc, List.head?_append, List.head?_append, hhead]
          rfl
      have hstep := hnode c (by omega) hwfc orig pos d ss (serF cs2 ++ rest)
        hdropX hd hguardc
      rw [hstep]
      have hdrop5 := drop_shift hdropX
      have hlt2 : (serF cs2).length < L := by
        have hp := serN_pos hwfc
        omega
      have htail := (IH (serF cs2).length hlt2).2 cs2 (le_refl _) hwf2 orig
        (pos + (serN c).length) d ss rest hdrop5 hd hguard2
      rw [htail]
      have hposeq : pos + (serN c).length + (serF cs2).length =
          pos + (serF (.cons c cs2)).length := by
        rw [hlen2]
        omega
      rw [hposeq]

/-! ## Extraction of a whole serialized stanza -/

theorem extract_stanza_run {B : List Nat} (hfw : firstNonWs B = some 0)
    (hsw : startsWithB (B.drop 0) (S "</stream:stream>") = false) :
    extract_stanza B = extractGo B 0 0 false 0 := by
  unfold extract_stanza
  rw [hfw]
  show (if startsWithB (List.drop 0 B) (S "</stream:stream>") = true
      then some (S "</stream:stream>", 0 + 16)
      else extractLoop B 0 0 false 0 (B.length + 1)) = extractGo B 0 0 false 0
  rw [if_neg (by rw [hsw]; simp)]
  exact extract_stanza_go B

theorem wfStanzaB_elem {n a : List Nat} {cc : Forest}
    (h : wfStanzaB (.elem n a cc) = true) :
    nameOkB n = true ∧ attrsOkB a = true ∧ wfF cc = true ∧
      (localName n == S "stream") = false := by
  rw [wfStanzaB, wfN] at h
  simp only [Bool.and_eq_true, Bool.not_eq_true'] at h
  exact ⟨h.1.1.1, h.1.1.2, h.1.2, h.2⟩

/-- Part one of the streaming-extraction contract: a complete well-formed
stanza at the front of the buffer is extracted exactly, whatever follows.
This is framing.rs `extract_stanza` applied to `bytes(s) ++ suffix`. -/
theorem extract_stanza_ser (s : Node) (sfx : List Nat)
    (h : wfStanzaB s = true) :
    extract_stanza (serN s ++ sfx) = some (serN s, (serN s).length) := by
  cases s with
  | text t => simp [wfStanzaB] at h
  | elem n a cc =>
    obtain ⟨hn, ha, hwfcc, hloc⟩ := wfStanzaB_elem h
    obtain ⟨hnne, hmem⟩ := nameOkB_spec hn
    obtain ⟨hh, n2, rfl⟩ : ∃ hh n2, n = hh :: n2 := by
      cases n with
      | nil => exact absurd rfl hnne
      | cons hh n2 => exact ⟨hh, n2, rfl⟩
    obtain ⟨-, -, -, h47, -, -, -, -⟩ := nameByteOk_spec (hmem hh (by simp))
    set B := serN (.elem (hh :: n2) a cc) ++ sfx with hBdef
    have hB : B = 60 :: (((hh :: n2) ++ a) ++ 62 ::
        (serF cc ++ 60 :: 47 :: ((hh :: n2) ++ 62 :: sfx))) := by
      rw [hBdef, serN]
      simp
    have hfw : firstNonWs B = some 0 := by
      rw [hB]
      exact firstNonWs_cons_nonws _ (by decide)
    have hps : S "</stream:stream>" =
        [60, 47, 115, 116, 114, 101, 97, 109, 58, 115, 116, 114, 101, 97, 109, 62] := by
      decide
    have hsw : startsWithB (B.drop 0) (S "</stream:stream>") = false := by
      rw [List.drop_zero, hB, hps]
      simp only [List.cons_append, startsWithB_cons_cons]
      have : (hh == 47) = false := by simp [h47]
      simp [this]
    rw [extract_stanza_run hfw hsw]
    have hre1 : readEvent (B.drop 0) =
        (.StartT ((hh :: n2) ++ a), ((hh :: n2) ++ a).length + 2) := by
      rw [List.drop_zero, hB]
      exact readEvent_start _ hn ha
    rw [extractGo_start 0 false 0 hre1]
    rw [if_neg (by rw [isStreamName_tag hn ha hloc]; simp)]
    rw [if_pos (by simp)]
    have hsplit1 : B.drop 0 =
        (60 :: (((hh :: n2) ++ a) ++ [62])) ++
          (serF cc ++ (60 :: 47 :: ((hh :: n2) ++ 62 :: sfx))) := by
      rw [List.drop_zero, hB]
      simp
    have hdrop2 := drop_shift hsplit1
    have hlenA : (60 :: (((hh :: n2) ++ a) ++ [62])).length =
        ((hh :: n2) ++ a).length + 2 := by
      simp only [List.length_cons, List.length_append, List.length_nil]
    rw [hlenA] at hdrop2
    have hcc := (consumeSer (serF cc).length).2 cc (le_refl _) hwfcc B
      (0 + (((hh :: n2) ++ a).length + 2)) 1 0
      (60 :: 47 :: ((hh :: n2) ++ 62 :: sfx)) hdrop2 (le_refl _)
      (fun _ => Or.inr rfl)
    rw [hcc]
    have hdrop3 := drop_shift hdrop2
    have hre3 : readEvent
        (B.drop (0 + (((hh :: n2) ++ a).length + 2) + (serF cc).length)) =
        (.EndT (hh :: n2), (hh :: n2).length + 3) := by
      rw [hdrop3]
      exact readEvent_end sfx hn
    rw [extractGo_end 1 true 0 hre3]
    rw [if_neg (by simp), if_pos (by simp)]
    have htot : 0 + (((hh :: n2) ++ a).length + 2) + (serF cc).length +
        ((hh :: n2).length + 3) = (serN (.elem (hh :: n2) a cc)).length := by
      simp only [serN, List.length_cons, List.length_append, List.length_nil]
      omega
    rw [htot]
    rw [show (B.take (serN (.elem (hh :: n2) a cc)).length).drop 0 =
        serN (.elem (hh :: n2) a cc) by
      rw [List.drop_zero, hBdef, List.take_left]]
  | selfc n a =>
    have h2 : wfStanzaB (.selfc n a) = true := h
    rw [wfStanzaB, wfN] at h2
    simp only [Bool.and_eq_true, Bool.not_eq_true'] at h2
    obtain ⟨⟨hn, ha⟩, hloc⟩ := h2
    obtain ⟨hnne, hmem⟩ := nameOkB_spec hn
    obtain ⟨hh, n2, rfl⟩ : ∃ hh n2, n = hh :: n2 := by
      cases n with
      | nil => exact absurd rfl hnne
      | cons hh n2 => exact ⟨hh, n2, rfl⟩
    obtain ⟨-, -, -, h47, -, -, -, -⟩ := nameByteOk_spec (hmem hh (by simp))
    set B := serN (.selfc (hh :: n2) a) ++ sfx with hBdef
    have hB : B = 60 :: (((hh :: n2) ++ a) ++ 47 :: 62 :: sfx) := by
      rw [hBdef, serN]
      simp
    have hfw : firstNonWs B = some 0 := by
      rw [hB]
      exact firstNonWs_cons_nonws _ (by decide)
    have hps : S "</stream:stream>" =
        [60, 47, 115, 116, 114, 101, 97, 109, 58, 115, 116, 114, 101, 97, 109, 62] := by
      decide
    have hsw : startsWithB (B.drop 0) (S "</stream:stream>") = false := by
      rw [List.drop_zero, hB, hps]
      simp only [List.cons_append, startsWithB_cons_cons]
      have : (hh == 47) = false := by simp [h47]
      simp [this]
    rw [extract_stanza_run hfw hsw]
    have hre : readEvent (B.drop 0) =
        (.EmptyT ((hh :: n2) ++ a), ((hh :: n2) ++ a).length + 3) := by
      rw [List.drop_zero, hB]
      exact readEvent_empty sfx hn ha
    rw [extractGo_empty 0 false 0 hre]
    rw [if_neg (by rw [isStreamName_tag hn ha hloc]; simp)]
    rw [if_pos (by simp)]
    have htot : 0 + (((hh :: n2) ++ a).length + 3) =
        (serN (.selfc (hh :: n2) a)).length := by
      simp only [serN, List.length_cons, List.length_append, List.length_nil]
      omega
    rw [htot]
    rw [show (B.take (serN (.selfc (hh :: n2) a)).length).drop 0 =
        serN (.selfc (hh :: n2) a) by
      rw [List.drop_zero, hBdef, List.take_left]]

/-! ## Prefixes of a serialized stanza yield NeedMore -/

theorem readEvent_single_lt : readEvent [60] = (.ErrEv, 0) := by decide

/-- Head transfer across an append equation. -/
theorem head_of_append_eq {p x m y : List Nat} (hp : p ≠ []) (hm : m ≠ [])
    (h : p ++ x = m ++ y) : p.head? = m.head? := by
  have h2 : (p ++ x).head? = (m ++ y).head? := by rw [h]
  rw [List.head?_append, List.head?_append] at h2
  cases p with
  | nil => exact absurd rfl hp
  | cons a p2 =>
    cases m with
    | nil => exact absurd rfl hm
    | cons b m2 => simpa using h2

/-- A buffer that ends inside an element start tag (after the `<`, before
the closing `>`) makes the reader fail, so the loop returns `none`. -/
theorem starttagPrefixNone {orig : List Nat} {pos : Nat} (d : Nat) (i : Bool)
    (ss : Nat) {n a p2 a2 : List Nat} (hn : nameOkB n = true)
    (ha : attrsOkB a = true) (heq : (n ++ a) ++ [47] = p2 ++ a2)
    (hdrop : orig.drop pos = 60 :: p2) :
    extractGo orig pos d i ss = none := by
  obtain ⟨hnne, hmem⟩ := nameOkB_spec hn
  have herr : readEvent (orig.drop pos) = (.ErrEv, 0) := by
    rw [hdrop]
    refine readEvent_err_open ?_ ?_
    · cases p2 with
      | nil => exact Or.inl rfl
      | cons hp p3 =>
        right
        obtain ⟨hh, n2, rfl⟩ : ∃ hh n2, n = hh :: n2 := by
          cases n with
          | nil => exact absurd rfl hnne
          | cons hh n2 => exact ⟨hh, n2, rfl⟩
        have h5 : (hp :: p3) ++ a2 = (hh :: ((n2 ++ a) ++ [47])) ++ [] := by
          rw [← heq]
          simp
        have hhead : (hp :: p3).head? = (hh :: ((n2 ++ a) ++ [47])).head? :=
          head_of_append_eq (by simp) (by simp) h5
        have hpe : hp = hh := by simpa using hhead
        subst hpe
        obtain ⟨-, -, -, h47, h33, h63, -, -⟩ := nameByteOk_spec (hmem hp (by simp))
        exact ⟨hp, p3, rfl, h33, h63, h47⟩
    · intro b hb
      have hbm : b ∈ (n ++ a) ++ [47] := by
        rw [heq]
        exact List.mem_append.mpr (Or.inl hb)
      rcases List.mem_append.mp hbm with hbm | hbm
      · exact tagContent_no_gt hn ha b hbm
      · simp only [List.mem_singleton] at hbm
        omega
  exact extractGo_err d i ss herr

/-- A buffer that ends inside a closing tag makes the reader fail or hit
end-of-input, so the loop returns `none`. -/
theorem endtagPrefixNone {orig : List Nat} {pos : Nat} (d : Nat) (i : Bool)
    (ss : Nat) {n f c2 : List Nat} (hn : nameOkB n = true)
    (heq : f ++ c2 = 60 :: 47 :: (n ++ [62])) (hc2 : c2 ≠ [])
    (hdrop : orig.drop pos = f) :
    extractGo orig pos d i ss = none := by
  obtain ⟨hnne, hmem⟩ := nameOkB_spec hn
  have hgt : ∀ b ∈ n, b ≠ 62 := fun b hb => (nameByteOk_spec (hmem b hb)).2.2.1
  cases f with
  | nil => exact extractGo_eof d i ss (by rw [hdrop])
  | cons x f2 =>
    simp only [List.cons_append, List.cons.injEq] at heq
    obtain ⟨rfl, heq⟩ := heq
    cases f2 with
    | nil =>
      have herr : readEvent (orig.drop pos) = (.ErrEv, 0) := by
        rw [hdrop]
        exact readEvent_single_lt
      exact extractGo_err d i ss herr
    | cons y f3 =>
      simp only [List.cons_append, List.cons.injEq] at heq
      obtain ⟨rfl, heq⟩ := heq
      rcases List.append_eq_append_iff.mp heq with ⟨a2, hn2, hc⟩ | ⟨c3, he4, hz⟩
      · have herr : readEvent (orig.drop pos) = (.ErrEv, 0) := by
          rw [hdrop]
          refine readEvent_err_endtag ?_
          intro b hb
          refine hgt b ?_
          rw [hn2]
          exact List.mem_append.mpr (Or.inl hb)
        exact extractGo_err d i ss herr
      · cases c3 with
        | nil =>
          simp only [List.append_nil] at he4
          subst he4
          have herr : readEvent (orig.drop pos) = (.ErrEv, 0) := by
            rw [hdrop]
            exact readEvent_err_endtag hgt
          exact extractGo_err d i ss herr
        | cons z c4 =>
          exfalso
          simp only [List.cons_append, List.cons.injEq] at hz
          obtain ⟨-, hz2⟩ := hz
          exact hc2 (List.append_eq_nil.mp hz2.symm).2

/-- A buffer that ends anywhere inside (or exactly at the end of) a
serialized node or forest, while the loop is at depth at least 1, makes
the loop report that more bytes are needed: the reader either faults
inside a cut tag or runs off the end of the buffer. -/
theorem prefixSer : ∀ (L : Nat),
    (∀ (c : Node), (serN c).length ≤ L → wfN c = true →
      ∀ (orig : List Nat) (pos d ss : Nat) (p q : List Nat),
        serN c = p ++ q → orig.drop pos = p → 1 ≤ d →
        extractGo orig pos d true ss = none) ∧
    (∀ (cs : Forest), (serF cs).length ≤ L → wfF cs = true →
      ∀ (orig : List Nat) (pos d ss : Nat) (p q : List Nat),
        serF cs = p ++ q → orig.drop pos = p → 1 ≤ d →
        extractGo orig pos d true ss = none) := by
  intro L
  induction L using Nat.strong_induction_on with
  | _ L IH =>
    have hnode : ∀ (c : Node), (serN c).length ≤ L → wfN c = true →
        ∀ (orig : List Nat) (pos d ss : Nat) (p q : List Nat),
          serN c = p ++ q → orig.drop pos = p → 1 ≤ d →
          extractGo orig pos d true ss = none := by
      intro c hlen hwf orig pos d ss p q hsplit hdrop hd
      by_cases hq : q = []
      · subst hq
        rw [List.append_nil] at hsplit
        subst hsplit
        have hd0 : orig.drop pos = serN c ++ [] := by
          rw [List.append_nil]
          exact hdrop
        have hstep := (consumeSer (serN c).length).1 c (le_refl _) hwf orig
          pos d ss [] hd0 hd (fun _ => Or.inl rfl)
        rw [hstep]
        exact extractGo_eof d true ss (drop_shift hd0)
      · cases c with
        | text t =>
          obtain ⟨hne, h60⟩ := wfN_text hwf
          rw [serN] at hsplit
          cases p with
          | nil => exact extractGo_eof d true ss hdrop
          | cons b p2 =>
            have hre : readEvent (orig.drop pos) = (.TextEv, (b :: p2).length) := by
              rw [hdrop]
              have h60p : ∀ x ∈ (b :: p2), x ≠ 60 := by
                intro x hx
                refine h60 x ?_
                rw [hsplit]
                exact List.mem_append.mpr (Or.inl hx)
              have h6 := readEvent_text ([] : List Nat) (by simp) h60p (Or.inl rfl)
              simpa using h6
            rw [extractGo_text d true ss hre]
            refine extractGo_eof d true ss ?_
            have hdd : orig.drop pos = (b :: p2) ++ [] := by
              rw [List.append_nil]
              exact hdrop
            exact drop_shift hdd
        | selfc n a =>
          rw [wfN] at hwf
          simp only [Bool.and_eq_true] at hwf
          obtain ⟨hn, ha⟩ := hwf
          rw [serN] at hsplit
          cases p with
          | nil => exact extractGo_eof d true ss hdrop
          | cons b p2 =>
            rw [List.cons_append] at hsplit
            injection hsplit with hb hsplit
            subst hb
            have hsplit2 : ((n ++ a) ++ [47]) ++ [62] = p2 ++ q := by
              rw [← hsplit]
              simp
            rcases List.append_eq_append_iff.mp hsplit2 with ⟨k, h1, h2⟩ | ⟨k, h1, h2⟩
            · cases k with
              | nil =>
                rw [List.append_nil] at h1
                have heq2 : (n ++ a) ++ [47] = p2 ++ ([] : List Nat) := by
                  rw [h1]
                  simp
                exact starttagPrefixNone d true ss hn ha heq2 hdrop
              | cons kh k2 =>
                exfalso
                rw [List.cons_append] at h2
                injection h2 with h3 h4
                exact hq (List.append_eq_nil.mp h4.symm).2
            · exact starttagPrefixNone d true ss hn ha h1 hdrop
        | elem n a cc =>
          rw [wfN] at hwf
          simp only [Bool.and_eq_true] at hwf
          obtain ⟨⟨hn, ha⟩, hwfcc⟩ := hwf
          rw [serN] at hsplit
          cases p with
          | nil => exact extractGo_eof d true ss hdrop
          | cons b p2 =>
            rw [List.cons_append] at hsplit
            injection hsplit with hb hsplit
            subst hb
            rcases List.append_eq_append_iff.mp hsplit with ⟨k, h1, h2⟩ | ⟨k, h1, h2⟩
            · cases k with
              | nil =>
                rw [List.append_nil] at h1
                have heq2 : (n ++ a) ++ [47] = p2 ++ [47] := by
                  rw [h1]
                exact starttagPrefixNone d true ss hn ha heq2 hdrop
              | cons kh k2 =>
                rw [List.cons_append] at h2
                injection h2 with hkh h2
                subst hkh
                have hdropS : orig.drop pos = 60 :: ((n ++ a) ++ 62 :: k2) := by
                  rw [hdrop, h1]
                have hre : readEvent (orig.drop pos) =
                    (.StartT (n ++ a), (n ++ a).length + 2) := by
                  rw [hdropS]
                  exact readEvent_start _ hn ha
                rw [extractGo_start d true ss hre]
                simp only [Bool.not_true, Bool.false_and, Bool.false_eq_true, if_false]
                have hsp : orig.drop pos = (60 :: ((n ++ a) ++ [62])) ++ k2 := by
                  rw [hdropS]
                  simp
                have hdrop2 := drop_shift hsp
                have hlenA : (60 :: ((n ++ a) ++ [62])).length = (n ++ a).length + 2 := by
                  simp only [List.length_cons, List.length_append, List.length_nil]
                rw [hlenA] at hdrop2
                rcases List.append_eq_append_iff.mp h2 with ⟨g, hg1, hg2⟩ | ⟨g, hg1, hg2⟩
                · have hdropF : orig.drop (pos + ((n ++ a).length + 2)) =
                      serF cc ++ g := by
                    rw [hdrop2, hg1]
                  have hguard : lastTextF cc = true → g = [] ∨ g.head? = some 60 := by
                    intro hlt
                    cases g with
                    | nil => exact Or.inl rfl
                    | cons gh g2 =>
                      right
                      rw [List.cons_append] at hg2
                      injection hg2 with h7 h8
                      rw [← h7]
                      rfl
                  have hstep := (consumeSer (serF cc).length).2 cc (le_refl _) hwfcc
                    orig (pos + ((n ++ a).length + 2)) (d + 1) ss g hdropF
                    (by omega) hguard
                  rw [hstep]
                  exact endtagPrefixNone (d + 1) true ss hn hg2.symm hq
                    (drop_shift hdropF)
                · have hser : (serN (Node.elem n a cc)).length =
                      (n ++ a).length + 2 + ((serF cc).length + (n.length + 3)) := by
                    simp only [serN, List.length_cons, List.length_append,
                      List.length_nil]
                    omega
                  have hlt : (serF cc).length < L := by
                    rw [hser] at hlen
                    omega
                  exact (IH (serF cc).length hlt).2 cc (le_refl _) hwfcc orig
                    (pos + ((n ++ a).length + 2)) (d + 1) ss k2 g hg1 hdrop2
                    (by omega)
            · have heq2 : (n ++ a) ++ [47] = p2 ++ (k ++ [47]) := by
                rw [h1]
                simp
              exact starttagPrefixNone d true ss hn ha heq2 hdrop
    refine ⟨hnode, ?_⟩
    intro cs hlen hwf orig pos d ss p q hsplit hdrop hd
    by_cases hq : q = []
    · subst hq
      rw [List.append_nil] at hsplit
      subst hsplit
      have hd0 : orig.drop pos = serF cs ++ [] := by
        rw [List.append_nil]
        exact hdrop
      have hstep := (consumeSer (serF cs).length).2 cs (le_refl _) hwf orig
        pos d ss [] hd0 hd (fun _ => Or.inl rfl)
      rw [hstep]
      exact extractGo_eof d true ss (drop_shift hd0)
    · cases cs with
      | nil =>
        exfalso
        rw [serF] at hsplit
        exact hq (List.append_eq_nil.mp hsplit.symm).2
      | cons c cs2 =>
        obtain ⟨hwfc, hwf2, hadj⟩ := wfF_cons hwf
        rw [serF] at hsplit
        rcases List.append_eq_append_iff.mp hsplit with ⟨k, h1, h2⟩ | ⟨k, h1, h2⟩
        · have hdropN : orig.drop pos = serN c ++ k := by
            rw [hdrop, h1]
          have hguardc : isTextN c = true → k = [] ∨ k.head? = some 60 := by
            intro htc
            cases k with
            | nil => exact Or.inl rfl
            | cons kh k2 =>
              right
              cases cs2 with
              | nil =>
                exfalso
                rw [serF] at h2
                rw [List.cons_append] at h2
                exact absurd h2 (by simp)
              | cons dd cs3 =>
                have hddt : isTextN dd = false := by
                  have h3 := hadj dd cs3 rfl
                  rwa [htc, Bool.true_and] at h3
                have hwfdd : wfN dd = true := (wfF_cons hwf2).1
                have hhead := serN_head_tag hwfdd hddt
                have h4 : (kh :: k2) ++ q = serN dd ++ serF cs3 := by
                  rw [← h2, serF]
                have hddn : serN dd ≠ [] := by
                  have h5 := serN_pos hwfdd
                  intro hcon
                  rw [hcon] at h5
                  simp at h5
                have h5 : (kh :: k2).head? = (serN dd).head? :=
                  head_of_append_eq (by simp) hddn h4
                rw [hhead] at h5
                exact h5
          have hstep := (consumeSer (serN c).length).1 c (le_refl _) hwfc orig
            pos d ss k hdropN hd hguardc
          rw [hstep]
          have hlt2 : (serF cs2).length < L := by
            have hp := serN_pos hwfc
            rw [serF, List.length_append] at hlen
            omega
          exact (IH (serF cs2).length hlt2).2 cs2 (le_refl _) hwf2 orig
            (pos + (serN c).length) d ss k q h2 (drop_shift hdropN) hd
        · have hcl : (serN c).length ≤ L := by
            rw [serF, List.length_append] at hlen
            omega
          exact hnode c hcl hwfc orig pos d ss p k h1 hdrop hd

/-- Inside an element at depth at least 1: a buffer that ends anywhere in
the children or inside the closing tag yields `none`. -/
theorem innerPrefixNone {orig : List Nat} {pos : Nat} {n : List Nat}
    {cc : Forest} {f q : List Nat} (d ss : Nat)
    (hn : nameOkB n = true) (hwfcc : wfF cc = true)
    (hfq : serF cc ++ 60 :: 47 :: (n ++ [62]) = f ++ q) (hq : q ≠ [])
    (hdrop : orig.drop pos = f) (hd : 1 ≤ d) :
    extractGo orig pos d true ss = none := by
  rcases List.append_eq_append_iff.mp hfq with ⟨g, hg1, hg2⟩ | ⟨g, hg1, hg2⟩
  · have hdropF : orig.drop pos = serF cc ++ g := by
      rw [hdrop, hg1]
    have hguard : lastTextF cc = true → g = [] ∨ g.head? = some 60 := by
      intro hlt
      cases g with
      | nil => exact Or.inl rfl
      | cons gh g2 =>
        right
        rw [List.cons_append] at hg2
        injection hg2 with h7 h8
        rw [← h7]
        rfl
    have hstep := (consumeSer (serF cc).length).2 cc (le_refl _) hwfcc orig
      pos d ss g hdropF hd hguard
    rw [hstep]
    exact endtagPrefixNone d true ss hn hg2.symm hq (drop_shift hdropF)
  · exact (prefixSer (serF cc).length).2 cc (le_refl _) hwfcc orig pos d ss
      f g hg1 hdrop hd

/-- A buffer whose head byte is not `/` never matches the leading
`</stream:stream>` special case. -/
theorem startsWith_close_false {p2 q T : List Nat} {hh : Nat}
    (h47 : hh ≠ 47) (hs : hh :: T = p2 ++ q) :
    startsWithB ((60 : Nat) :: p2) (S "</stream:stream>") = false := by
  have hps : S "</stream:stream>" =
      [60, 47, 115, 116, 114, 101, 97, 109, 58, 115, 116, 114, 101, 97, 109, 62] := by
    decide
  rw [hps]
  cases p2 with
  | nil => decide
  | cons c p3 =>
    rw [List.cons_append] at hs
    injection hs with h5 h6
    simp only [startsWithB_cons_cons]
    have h47c : (c == 47) = false := by
      rw [← h5]
      simp [h47]
    simp [h47c]

/-- Part two of the streaming-extraction contract: a buffer holding any
strictly incomplete prefix of a well-formed stanza makes `extract_stanza`
report "need more data" (`None`), consuming nothing. -/
theorem extract_stanza_prefix (s : Node) (p q : List Nat)
    (h : wfStanzaB s = true) (hsplit : serN s = p ++ q) (hq : q ≠ []) :
    extract_stanza p = none := by
  cases s with
  | text t => simp [wfStanzaB] at h
  | elem n a cc =>
    obtain ⟨hn, ha, hwfcc, hloc⟩ := wfStanzaB_elem h
    obtain ⟨hnne, hmem⟩ := nameOkB_spec hn
    obtain ⟨hh, n2, rfl⟩ : ∃ hh n2, n = hh :: n2 := by
      cases n with
      | nil => exact absurd rfl hnne
      | cons hh n2 => exact ⟨hh, n2, rfl⟩
    obtain ⟨-, -, -, h47, -, -, -, -⟩ := nameByteOk_spec (hmem hh (by simp))
    rw [serN] at hsplit
    cases p with
    | nil => decide
    | cons b p2 =>
      have h9 : (60 : Nat) :: (((hh :: n2) ++ a) ++ 62 ::
          (serF cc ++ 60 :: 47 :: ((hh :: n2) ++ 62 :: []))) = b :: (p2 ++ q) := by
        rw [hsplit]
        simp
      rw [List.cons_eq_cons] at h9
      obtain ⟨hb, hsp2⟩ := h9
      subst hb
      have hfw : firstNonWs (60 :: p2) = some 0 :=
        firstNonWs_cons_nonws _ (by decide)
      have hs6 : hh :: ((n2 ++ a) ++ 62 ::
          (serF cc ++ 60 :: 47 :: ((hh :: n2) ++ 62 :: []))) = p2 ++ q := by
        rw [← hsp2]
        simp
      have hsw : startsWithB ((60 :: p2).drop 0) (S "</stream:stream>") = false := by
        rw [List.drop_zero]
        exact startsWith_close_false h47 hs6
      rw [extract_stanza_run hfw hsw]
      rcases List.append_eq_append_iff.mp hsp2 with ⟨k, h1, h2⟩ | ⟨k, h1, h2⟩
      · cases k with
        | nil =>
          rw [List.append_nil] at h1
          have heq2 : ((hh :: n2) ++ a) ++ [47] = p2 ++ [47] := by
            rw [h1]
          exact starttagPrefixNone 0 false 0 hn ha heq2 (by rw [List.drop_zero])
        | cons kh k2 =>
          have h2b : (62 : Nat) :: (serF cc ++ 60 :: 47 :: ((hh :: n2) ++ 62 :: [])) =
              kh :: (k2 ++ q) := by
            rw [h2]
            simp
          rw [List.cons_eq_cons] at h2b
          obtain ⟨hkh, h2c⟩ := h2b
          subst hkh
          have hdropS : (60 :: p2).drop 0 =
              60 :: (((hh :: n2) ++ a) ++ 62 :: k2) := by
            rw [List.drop_zero, h1]
          have hre : readEvent ((60 :: p2).drop 0) =
              (.StartT ((hh :: n2) ++ a), ((hh :: n2) ++ a).length + 2) := by
            rw [hdropS]
            exact readEvent_start _ hn ha
          rw [extractGo_start 0 false 0 hre]
          rw [if_neg (by rw [isStreamName_tag hn ha hloc]; simp)]
          rw [if_pos (by simp)]
          have hsp : (60 :: p2).drop 0 =
              (60 :: (((hh :: n2) ++ a) ++ [62])) ++ k2 := by
            rw [hdropS]
            simp
          have hdrop2 := drop_shift hsp
          have hlenA : (60 :: (((hh :: n2) ++ a) ++ [62])).length =
              ((hh :: n2) ++ a).length + 2 := by
            simp only [List.length_cons, List.length_append, List.length_nil]
          rw [hlenA] at hdrop2
          exact innerPrefixNone 1 0 hn hwfcc h2c hq hdrop2 (le_refl _)
      · have heq2 : ((hh :: n2) ++ a) ++ [47] = p2 ++ (k ++ [47]) := by
          rw [h1]
          simp
        exact starttagPrefixNone 0 false 0 hn ha heq2 (by rw [List.drop_zero])
  | selfc n a =>
    have h2 : wfStanzaB (.selfc n a) = true := h
    rw [wfStanzaB, wfN] at h2
    simp only [Bool.and_eq_true, Bool.not_eq_true'] at h2
    obtain ⟨⟨hn, ha⟩, hloc⟩ := h2
    obtain ⟨hnne, hmem⟩ := nameOkB_spec hn
    obtain ⟨hh, n2, rfl⟩ : ∃ hh n2, n = hh :: n2 := by
      cases n with
      | nil => exact absurd rfl hnne
      | cons hh n2 => exact ⟨hh, n2, rfl⟩
    obtain ⟨-, -, -, h47, -, -, -, -⟩ := nameByteOk_spec (hmem hh (by simp))
    rw [serN] at hsplit
    cases p with
    | nil => decide
    | cons b p2 =>
      have h9 : (60 : Nat) :: (((hh :: n2) ++ a) ++ 47 :: 62 :: []) =
          b :: (p2 ++ q) := by
        rw [hsplit]
        simp
      rw [List.cons_eq_cons] at h9
      obtain ⟨hb, hsp2⟩ := h9
      subst hb
      have hfw : firstNonWs (60 :: p2) = some 0 :=
        firstNonWs_cons_nonws _ (by decide)
      have hs6 : hh :: ((n2 ++ a) ++ 47 :: 62 :: []) = p2 ++ q := by
        rw [← hsp2]
        simp
      have hsw : startsWithB ((60 :: p2).drop 0) (S "</stream:stream>") = false := by
        rw [List.drop_zero]
        exact startsWith_close_false h47 hs6
      rw [extract_stanza_run hfw hsw]
      have hsplit2 : (((hh :: n2) ++ a) ++ [47]) ++ [62] = p2 ++ q := by
        rw [← hsp2]
        simp
      rcases List.append_eq_append_iff.mp hsplit2 with ⟨k, h1, h2⟩ | ⟨k, h1, h2⟩
      · cases k with
        | nil =>
          rw [List.append_nil] at h1
          have heq2 : ((hh :: n2) ++ a) ++ [47] = p2 ++ ([] : List Nat) := by
            rw [h1]
            simp
          exact starttagPrefixNone 0 false 0 hn ha heq2 (by rw [List.drop_zero])
        | cons kh k2 =>
          exfalso
          rw [List.cons_append, List.cons_eq_cons] at h2
          obtain ⟨h3, h4⟩ := h2
          exact hq (List.append_eq_nil.mp h4.symm).2
      · exact starttagPrefixNone 0 false 0 hn ha h1 (by rw [List.drop_zero])

/-! ## Streaming several stanzas with a running offset -/

/-- Concatenated serialization of a sequence of stanzas. -/
def serStanzas : List Node → List Nat
  | [] => []
  | s :: rest => serN s ++ serStanzas rest

/-- The caller's read loop: `k` successive calls to `extract_stanza`, each
dropping the consumed bytes (the running offset of the Rust caller).
Returns the extracted stanzas and the unconsumed tail. -/
def extractAll : Nat → List Nat → List (List Nat) × List Nat
  | 0, buf => ([], buf)
  | k + 1, buf =>
    match extract_stanza buf with
    | none => ([], buf)
    | some (st, used) =>
      let r := extractAll k (buf.drop used)
      (st :: r.1, r.2)

/-- Part three of the streaming-extraction contract: `k` successive calls
on `k` concatenated well-formed stanzas recover exactly those stanzas and
leave an empty tail. -/
theorem extractAll_ser (L : List Node) (hwf : ∀ s ∈ L, wfStanzaB s = true) :
    extractAll L.length (serStanzas L) = (L.map serN, []) := by
  induction L with
  | nil => rfl
  | cons s rest ih =>
    have hs := hwf s (by simp)
    have hrest : ∀ t ∈ rest, wfStanzaB t = true := fun t ht => hwf t (by simp [ht])
    have h1 : extract_stanza (serN s ++ serStanzas rest) =
        some (serN s, (serN s).length) := extract_stanza_ser s (serStanzas rest) hs
    show extractAll (rest.length + 1) (serN s ++ serStanzas rest) = _
    simp only [extractAll, h1, List.drop_left, ih hrest, List.map_cons]

/-- C1: `extract_stanza` (framing.rs 217-314) satisfies the
streaming-extraction contract. (a) For every well-formed top-level stanza
`s` and every byte suffix, `extract_stanza (bytes s ++ suffix)` returns
exactly `(bytes s, |bytes s|)`; (b) for every strictly incomplete prefix
of a stanza it returns NeedMore (`none`), consuming nothing; (c) for `k`
concatenated complete stanzas, `k` successive calls with a running offset
recover exactly those stanzas and leave an empty tail. -/
theorem C1_extract_stanza_streaming_contract :
    (∀ (s : Node) (sfx : List Nat), wfStanzaB s = true →
      extract_stanza (serN s ++ sfx) = some (serN s, (serN s).length)) ∧
    (∀ (s : Node) (p q : List Nat), wfStanzaB s = true →
      serN s = p ++ q → q ≠ [] → extract_stanza p = none) ∧
    (∀ (L : List Node), (∀ s ∈ L, wfStanzaB s = true) →
      extractAll L.length (serStanzas L) = (L.map serN, [])) :=
  ⟨fun s sfx h => extract_stanza_ser s sfx h,
   fun s p q h hs hq => extract_stanza_prefix s p q h hs hq,
   fun L h => extractAll_ser L h⟩

theorem C1_extract_stanza_streaming_contract_witness :
    extract_stanza
        (serN (Node.elem (S "message") []
          (Forest.cons (Node.text (S "hi")) Forest.nil)) ++ S "<iq") =
      some (serN (Node.elem (S "message") []
          (Forest.cons (Node.text (S "hi")) Forest.nil)),
        (serN (Node.elem (S "message") []
          (Forest.cons (Node.text (S "hi")) Forest.nil))).length) ∧
    extract_stanza (S "<message>hi</mess") = none ∧
    extractAll ([Node.selfc (S "a") [], Node.selfc (S "b") []].length)
        (serStanzas [Node.selfc (S "a") [], Node.selfc (S "b") []]) =
      ([Node.selfc (S "a") [], Node.selfc (S "b") []].map serN, []) :=
  ⟨C1_extract_stanza_streaming_contract.1
      (Node.elem (S "message") [] (Forest.cons (Node.text (S "hi")) Forest.nil))
      (S "<iq") (by decide),
   C1_extract_stanza_streaming_contract.2.1
      (Node.elem (S "message") [] (Forest.cons (Node.text (S "hi")) Forest.nil))
      (S "<message>hi</mess") (S "age>") (by decide) (by decide) (by decide),
   C1_extract_stanza_streaming_contract.2.2
      [Node.selfc (S "a") [], Node.selfc (S "b") []] (by decide)⟩

/-! ## The RFC 7395 framing translators (framing.rs 18-193)

`translate_ws_to_tcp` and `translate_tcp_to_ws` are embedded byte for
byte.  The `Cow` return is modelled as a `Bool × List Nat` pair whose
first component is `true` for `Cow::Borrowed`.  `translate_tcp_to_ws`
returns an `Option` because its prefix-rewrite loop slices the input
string at byte offset 1 (`&remaining[1..]`), which panics when the
leading character is multi-byte; `none` models that panic. -/

/-- Key of the next attribute: quick-xml reads it after skipping
whitespace, up to the `=` or the next whitespace. -/
def attrKey (l : List Nat) : List Nat :=
  (l.dropWhile isWsB).takeWhile (fun b => b != 61 && !(isWsB b))

/-- One step of quick-xml's attribute iterator on the blobs this code
feeds it: whitespace, a key, `=`, and a quoted value.  Returns the
key/value pair and the rest of the blob; `none` when no further
well-formed attribute exists (the Rust code consumes only the `Ok`
items). -/
def attrStep (l : List Nat) : Option ((List Nat × List Nat) × List Nat) :=
  match (l.dropWhile isWsB).drop (attrKey l).length with
  | 61 :: q :: r3 =>
    if q == 34 || q == 39 then
      match r3.drop ((r3.takeWhile (fun b => b != q)).length) with
      | _ :: r4 => some ((attrKey l, r3.takeWhile (fun b => b != q)), r4)
      | [] => none
    else none
  | _ => none

/-- Fuel-indexed attribute list parser. -/
def parseAttrs : Nat → List Nat → List (List Nat × List Nat)
  | 0, _ => []
  | fuel + 1, l =>
    match attrStep l with
    | some (kv, r4) => kv :: parseAttrs fuel r4
    | none => []

/-- Attribute list parser with canonical (always sufficient) fuel. -/
def parseAttrsR (l : List Nat) : List (List Nat × List Nat) :=
  parseAttrs (l.length + 1) l

/-- Fold of `translate_ws_to_tcp`'s attribute loop (framing.rs 38-47):
`to`, `version`, `xml:lang`; later occurrences overwrite. -/
def foldOpen : List (List Nat × List Nat) → List Nat × List Nat × List Nat →
    List Nat × List Nat × List Nat
  | [], acc => acc
  | (k, v) :: rest, acc =>
    foldOpen rest
      (if k == S "to" then (v, acc.2.1, acc.2.2)
       else if k == S "version" then (acc.1, v, acc.2.2)
       else if k == S "xml:lang" then (acc.1, acc.2.1, v)
       else acc)

/-- The `<stream:stream>` header built by `translate_ws_to_tcp`
(framing.rs 51-59); `39` is the single quote. -/
def streamStreamTag (t ver lg : List Nat) : List Nat :=
  S "<?xml version=" ++ [39] ++ S "1.0" ++ [39] ++ S "?><stream:stream" ++
  (if t.isEmpty then [] else S " to=" ++ [39] ++ t ++ [39]) ++
  (S " version=" ++ [39] ++ ver ++ [39]) ++
  (if lg.isEmpty then [] else S " xml:lang=" ++ [39] ++ lg ++ [39]) ++
  (S " xmlns=" ++ [39] ++ S "jabber:client" ++ [39] ++
   S " xmlns:stream=" ++ [39] ++ S "http://etherx.jabber.org/streams" ++ [39] ++ [62])

/-- Content of a Start or Empty tag event, if any (framing.rs 28-31). -/
def tagContentOf : XEvent → Option (List Nat)
  | .StartT c => some c
  | .EmptyT c => some c
  | _ => none

/-- Model of `translate_ws_to_tcp` (framing.rs 18-71). -/
def translate_ws_to_tcp (text : List Nat) : Bool × List Nat :=
  let trimmed := trimB text
  if startsWithB trimmed (S "<open ") || startsWithB trimmed (S "<open>") then
    let acc :=
      match tagContentOf (readEvent trimmed).1 with
      | some c => foldOpen (parseAttrsR (c.drop (nameOf c).length)) ([], S "1.0", [])
      | none => ([], S "1.0", [])
    (false, streamStreamTag acc.1 acc.2.1 acc.2.2)
  else if startsWithB trimmed (S "<close") then
    (true, S "</stream:stream>")
  else
    (true, text)

/-- UTF-8 bytes pushed by `String::push(byte as char)` for a byte value:
identical for ASCII, a two-byte sequence for 128-255 (the mojibake path
of the rewrite loop, framing.rs 168). -/
def encByte (b : Nat) : List Nat :=
  if b < 128 then [b] else [192 + b / 64, 128 + b % 64]

/-- Fuel-indexed model of the `stream:` prefix rewrite loop
(framing.rs 158-171).  `none` models the panic of `&remaining[1..]` when
byte 1 is a UTF-8 continuation byte (not a char boundary). -/
def rwLoop : Nat → List Nat → Option (List Nat)
  | 0, _ => none
  | _ + 1, [] => some []
  | fuel + 1, b :: rest =>
    if startsWithB (b :: rest) (S "</stream:") then
      (rwLoop fuel ((b :: rest).drop 9)).map (fun r => S "</" ++ r)
    else if startsWithB (b :: rest) (S "<stream:") then
      (rwLoop fuel ((b :: rest).drop 8)).map (fun r => 60 :: r)
    else if rest.head?.any (fun r1 => 128 ≤ r1 && r1 < 192) then none
    else (rwLoop fuel rest).map (fun r => encByte b ++ r)

/-- The rewrite loop with canonical (always sufficient) fuel. -/
def rwRun (l : List Nat) : Option (List Nat) := rwLoop (l.length + 1) l

/-- The injected attribute ` xmlns="http://etherx.jabber.org/streams"`
(framing.rs 179); `34` is the double quote. -/
def xmlnsAttr : List Nat :=
  S " xmlns=" ++ [34] ++ S "http://etherx.jabber.org/streams" ++ [34]

/-- The xmlns injection on the rewritten root element
(framing.rs 172-188). -/
def injectXmlns (result : List Nat) : List Nat :=
  match List.findIdx? (fun b => b == 32 || b == 62 || b == 47) result with
  | none => result
  | some pos =>
    let rtEnd := (findSub result [62]).getD result.length
    if containsSub (result.take rtEnd) (S "xmlns=") then result
    else result.take pos ++ xmlnsAttr ++ result.drop pos

/-- The `<close xmlns="urn:ietf:params:xml:ns:xmpp-framing"/>` literal
(framing.rs 89). -/
def closeOutWS : List Nat :=
  S "<close xmlns=" ++ [34] ++ S "urn:ietf:params:xml:ns:xmpp-framing" ++ [34] ++ S "/>"

/-- The `<open .../>` element built by `translate_tcp_to_ws`
(framing.rs 129-145); attribute order to, from, id, version, xml:lang. -/
def openOutWS (t f i ver lg : List Nat) : List Nat :=
  S "<open xmlns=" ++ [34] ++ S "urn:ietf:params:xml:ns:xmpp-framing" ++ [34] ++
  (if t.isEmpty then [] else S " to=" ++ [34] ++ t ++ [34]) ++
  (if f.isEmpty then [] else S " from=" ++ [34] ++ f ++ [34]) ++
  (if i.isEmpty then [] else S " id=" ++ [34] ++ i ++ [34]) ++
  (if ver.isEmpty then [] else S " version=" ++ [34] ++ ver ++ [34]) ++
  (if lg.isEmpty then [] else S " xml:lang=" ++ [34] ++ lg ++ [34]) ++
  S "/>"

/-- Accumulator of `translate_tcp_to_ws`'s attribute loop
(framing.rs 110-127). -/
structure SAttrs where
  toA : List Nat
  fromA : List Nat
  verA : List Nat
  langA : List Nat
  idA : List Nat
deriving DecidableEq

def foldStream : List (List Nat × List Nat) → SAttrs → SAttrs
  | [], acc => acc
  | (k, v) :: rest, acc =>
    foldStream rest
      (if k == S "to" then ⟨v, acc.fromA, acc.verA, acc.langA, acc.idA⟩
       else if k == S "from" then ⟨acc.toA, v, acc.verA, acc.langA, acc.idA⟩
       else if k == S "version" then ⟨acc.toA, acc.fromA, v, acc.langA, acc.idA⟩
       else if k == S "xml:lang" then ⟨acc.toA, acc.fromA, acc.verA, v, acc.idA⟩
       else if k == S "id" then ⟨acc.toA, acc.fromA, acc.verA, acc.langA, v⟩
       else acc)

/-- Stripping of an optional leading XML declaration (framing.rs 94-102). -/
def declStrip (trimmed : List Nat) : List Nat :=
  if startsWithB trimmed (S "<?xml") then
    match findSub trimmed (S "?>") with
    | some pos => trimB (trimmed.drop (pos + 2))
    | none => trimmed
  else trimmed

/-- The `stream:` prefix rewrite branch and the final passthrough
(framing.rs 155-192). -/
def streamRewrite (text trimmed : List Nat) : Option (Bool × List Nat) :=
  if startsWithB trimmed (S "<stream:") && !(startsWithB trimmed (S "<stream:stream")) then
    (rwRun trimmed).map (fun result => (false, injectXmlns result))
  else some (true, text)

/-- Model of `translate_tcp_to_ws` (framing.rs 84-193). -/
def translate_tcp_to_ws (text : List Nat) : Option (Bool × List Nat) :=
  let trimmed := trimB text
  if trimmed == S "</stream:stream>" then some (true, closeOutWS)
  else if startsWithB (declStrip trimmed) (S "<stream:stream ") then
    match (readEvent (declStrip trimmed)).1 with
    | .StartT c =>
      let acc := foldStream (parseAttrsR (c.drop (nameOf c).length)) ⟨[], [], [], [], []⟩
      some (false, openOutWS acc.toA acc.fromA acc.idA acc.verA acc.langA)
    | _ => streamRewrite text trimmed
  else streamRewrite text trimmed

/-- C4: the claim that `translate_tcp_to_ws` is total on every UTF-8
input is FALSE.  On a `stream:`-prefixed element whose text contains the
two-byte UTF-8 character é (bytes 195, 169), the rewrite loop reaches a
position where the next byte is a continuation byte, and
`&remaining[1..]` (framing.rs 169) slices the string inside the
character, which panics.  The model maps the panic to `none`. -/
theorem C4_translate_tcp_to_ws_panic_on_multibyte :
    translate_tcp_to_ws
      (S "<stream:features>" ++ [195, 169] ++ S "</stream:features>") = none := by
  decide

/-- C9: on every non-stream frame — not RFC 7395 `<open>`/`<close>`
framing, not the `</stream:stream>` closer, not a (possibly
declaration-prefixed) `<stream:stream>` header, and not a
`stream:`-prefixed element — both translators return the input unchanged
as a borrowed (zero-copy) value.  The first component `true` models
`Cow::Borrowed`. -/
theorem C9_translators_passthrough (text : List Nat)
    (h1 : startsWithB (trimB text) (S "<open ") = false)
    (h2 : startsWithB (trimB text) (S "<open>") = false)
    (h3 : startsWithB (trimB text) (S "<close") = false)
    (h4 : (trimB text == S "</stream:stream>") = false)
    (h5 : startsWithB (declStrip (trimB text)) (S "<stream:stream ") = false)
    (h6 : startsWithB (trimB text) (S "<stream:") = false) :
    translate_ws_to_tcp text = (true, text) ∧
    translate_tcp_to_ws text = some (true, text) := by
  constructor
  · unfold translate_ws_to_tcp
    simp [h1, h2, h3]
  · unfold translate_tcp_to_ws streamRewrite
    simp [h4, h5, h6]

theorem C9_translators_passthrough_witness :
    translate_ws_to_tcp (S "<message/>") = (true, S "<message/>") ∧
    translate_tcp_to_ws (S "<message/>") = some (true, S "<message/>") :=
  C9_translators_passthrough (S "<message/>") (by decide) (by decide) (by decide)
    (by decide) (by decide) (by decide)

/-! ## Computation lemmas for the attribute parser -/

theorem attrStep_lt {l r4 : List Nat} {kv : List Nat × List Nat}
    (h : attrStep l = some (kv, r4)) : r4.length < l.length := by
  have hL1 : (l.dropWhile isWsB).length ≤ l.length := (List.dropWhile_sublist _).length_le
  unfold attrStep at h
  split at h
  · next q r3 hm =>
    split at h
    · split at h
      · next x tail hv =>
        simp only [Option.some.injEq, Prod.mk.injEq] at h
        obtain ⟨-, hr⟩ := h
        subst hr
        have hm2 := congrArg List.length hm
        have hv2 := congrArg List.length hv
        simp only [List.length_drop, List.length_cons] at hm2 hv2
        omega
      · cases h
    · cases h
  · cases h

theorem parseAttrs_fuel : ∀ (f : Nat) (l : List Nat), l.length < f →
    parseAttrs f l = parseAttrsR l := by
  intro f
  induction f using Nat.strong_induction_on with
  | _ f IH =>
    intro l hf
    cases f with
    | zero => omega
    | succ g =>
      unfold parseAttrsR
      rw [parseAttrs, parseAttrs]
      cases hs : attrStep l with
      | none => rfl
      | some pr =>
        obtain ⟨kv, r4⟩ := pr
        have hlt := attrStep_lt hs
        simp only [hs]
        have e1 : parseAttrs g r4 = parseAttrsR r4 := IH g (by omega) r4 (by omega)
        have e2 : parseAttrs l.length r4 = parseAttrsR r4 :=
          IH l.length (by omega) r4 hlt
        rw [e1, e2]

theorem parseAttrsR_cons {l r4 : List Nat} {kv : List Nat × List Nat}
    (h : attrStep l = some (kv, r4)) :
    parseAttrsR l = kv :: parseAttrsR r4 := by
  unfold parseAttrsR
  rw [parseAttrs]
  simp only [h]
  rw [parseAttrs_fuel l.length r4 (attrStep_lt h)]
  rfl

/-- One well-formed ` key='value'` group at the front of an attribute
blob is consumed exactly. -/
theorem attrStep_quoted {K V rest : List Nat} {q : Nat}
    (hq : q = 34 ∨ q = 39) (hKne : K ≠ [])
    (hK : ∀ b ∈ K, ((b != 61) && !(isWsB b)) = true)
    (hV : ∀ b ∈ V, (b != q) = true) :
    attrStep (32 :: (K ++ 61 :: q :: (V ++ q :: rest))) = some ((K, V), rest) := by
  obtain ⟨k0, K2, rfl⟩ : ∃ k0 K2, K = k0 :: K2 := by
    cases K with
    | nil => exact absurd rfl hKne
    | cons k0 K2 => exact ⟨k0, K2, rfl⟩
  have hdw : (32 :: ((k0 :: K2) ++ 61 :: q :: (V ++ q :: rest))).dropWhile isWsB
      = (k0 :: K2) ++ 61 :: q :: (V ++ q :: rest) := by
    rw [List.dropWhile_cons]
    have h32 : isWsB 32 = true := rfl
    rw [h32]
    simp only [if_true]
    rw [List.cons_append, List.dropWhile_cons]
    have hk0 : isWsB k0 = false := by
      have h5 := hK k0 (by simp)
      simp only [Bool.and_eq_true, Bool.not_eq_true'] at h5
      exact h5.2
    rw [hk0]
    simp
  have hkey : attrKey (32 :: ((k0 :: K2) ++ 61 :: q :: (V ++ q :: rest))) = k0 :: K2 := by
    unfold attrKey
    rw [hdw]
    refine takeWhile_all_append hK ?_
    intro x hx
    cases hx
    decide
  unfold attrStep
  rw [hkey, hdw, List.drop_left]
  split
  · next q2 r3 heq =>
    rw [List.cons_eq_cons] at heq
    obtain ⟨-, heq⟩ := heq
    rw [List.cons_eq_cons] at heq
    obtain ⟨hq2, hr3⟩ := heq
    subst hq2
    subst hr3
    have hqt : (q == 34 || q == 39) = true := by
      rcases hq with rfl | rfl <;> decide
    rw [hqt]
    simp only [if_true]
    have hval : (V ++ q :: rest).takeWhile (fun b => b != q) = V := by
      refine takeWhile_all_append hV ?_
      intro x hx
      cases hx
      simp
    rw [hval, List.drop_left]
  · next hne =>
    exact absurd rfl (hne q (V ++ q :: rest))

/-! ## Helper lemmas for the round-trip computation -/

theorem getLast?_append_right {A B : List Nat} {b : Nat} (h : B.getLast? = some b) :
    (A ++ B).getLast? = some b := by
  rw [List.getLast?_append, h]
  rfl

theorem ne_of_second_byte {a b c d : Nat} {l m : List Nat} (h : b ≠ d) :
    a :: b :: l ≠ c :: d :: m := by
  intro hcon
  injection hcon with h1 h2
  injection h2 with h3 h4
  exact h h3

theorem beq_false_of_ne {l m : List Nat} (h : l ≠ m) : (l == m) = false :=
  beq_eq_false_iff_ne.mpr h

theorem isEmpty_false_of_ne {X : List Nat} (h : X ≠ []) : X.isEmpty = false :=
  List.isEmpty_eq_false.mpr h

theorem foldOpen_to (v : List Nat) (rest : List (List Nat × List Nat))
    (acc : List Nat × List Nat × List Nat) :
    foldOpen ((S "to", v) :: rest) acc = foldOpen rest (v, acc.2.1, acc.2.2) := by
  rw [foldOpen, show (S "to" == S "to") = true from by decide]
  simp

theorem foldOpen_version (v : List Nat) (rest : List (List Nat × List Nat))
    (acc : List Nat × List Nat × List Nat) :
    foldOpen ((S "version", v) :: rest) acc = foldOpen rest (acc.1, v, acc.2.2) := by
  rw [foldOpen, show (S "version" == S "to") = false from by decide,
    show (S "version" == S "version") = true from by decide]
  simp

theorem foldStream_to (v : List Nat) (rest : List (List Nat × List Nat))
    (acc : SAttrs) :
    foldStream ((S "to", v) :: rest) acc =
      foldStream rest ⟨v, acc.fromA, acc.verA, acc.langA, acc.idA⟩ := by
  rw [foldStream, show (S "to" == S "to") = true from by decide]
  simp

theorem foldStream_version (v : List Nat) (rest : List (List Nat × List Nat))
    (acc : SAttrs) :
    foldStream ((S "version", v) :: rest) acc =
      foldStream rest ⟨acc.toA, acc.fromA, v, acc.langA, acc.idA⟩ := by
  rw [foldStream, show (S "version" == S "to") = false from by decide,
    show (S "version" == S "from") = false from by decide,
    show (S "version" == S "version") = true from by decide]
  simp

theorem foldStream_skip {k : List Nat} (v : List Nat)
    (rest : List (List Nat × List Nat)) (acc : SAttrs)
    (h1 : (k == S "to") = false) (h2 : (k == S "from") = false)
    (h3 : (k == S "version") = false) (h4 : (k == S "xml:lang") = false)
    (h5 : (k == S "id") = false) :
    foldStream ((k, v) :: rest) acc = foldStream rest acc := by
  rw [foldStream, h1, h2, h3, h4, h5]
  simp

/-- The attribute blob ` to='X' …` is well formed whenever `X` is made of
name-safe bytes and the concrete tail `C` is itself unproblematic. -/
theorem attrsOkB_toX {X C : List Nat} (hX : ∀ b ∈ X, nameByteOk b = true)
    (hC62 : C.all (fun b => b != 62) = true)
    (hCqs : qsRun .outside C = QS.outside)
    (hClast : C.getLast? = some 39) :
    attrsOkB (S " to=" ++ [39] ++ X ++ [39] ++ C) = true := by
  have hh : (S " to=" ++ [39] ++ X ++ [39] ++ C).head? = some 32 := by
    rw [show S " to=" = 32 :: S "to=" from by decide]
    simp
  have hall : (S " to=" ++ [39] ++ X ++ [39] ++ C).all (fun b => b != 62) = true := by
    simp only [List.all_append, Bool.and_eq_true]
    refine ⟨⟨⟨⟨by decide, by decide⟩, ?_⟩, by decide⟩, hC62⟩
    refine List.all_eq_true.mpr fun b hb => ?_
    have h5 := (nameByteOk_spec (hX b hb)).2.2.1
    simpa using h5
  have hqs : qsRun .outside (S " to=" ++ [39] ++ X ++ [39] ++ C) = QS.outside := by
    rw [qsRun_append, qsRun_append, qsRun_append, qsRun_append]
    rw [show qsRun QS.outside (S " to=") = QS.outside from by decide]
    rw [show qsRun QS.outside [39] = QS.single from by decide]
    rw [qsRun_id_of QS.single (fun b hb =>
      ⟨(nameByteOk_spec (hX b hb)).2.2.2.2.2.2.1,
       (nameByteOk_spec (hX b hb)).2.2.2.2.2.2.2⟩)]
    rw [show qsRun QS.single [39] = QS.outside from by decide]
    exact hCqs
  have hCne : C ≠ [] := by
    intro hcon
    rw [hcon] at hClast
    cases hClast
  have hlast : (S " to=" ++ [39] ++ X ++ [39] ++ C).getLast? = some 39 :=
    getLast?_append_right hClast
  unfold attrsOkB
  simp only [Bool.or_eq_true]
  refine Or.inr ?_
  simp only [Bool.and_eq_true]
  refine ⟨⟨⟨?_, hall⟩, ?_⟩, ?_⟩
  · rw [hh]
    rfl
  · rw [hqs]
    decide
  · rw [hlast]
    rfl

/-- `translate_ws_to_tcp` on a client `<open to='X' version='1.0'/>`
frame: it builds the stream header with the same `to` and `version`. -/
theorem ws_to_tcp_open (X : List Nat) (hne : X ≠ [])
    (hX : ∀ b ∈ X, nameByteOk b = true) :
    translate_ws_to_tcp (S "<open to=" ++ [39] ++ X ++ [39] ++
        S " version=" ++ [39] ++ S "1.0" ++ [39] ++ S "/>") =
      (false, streamStreamTag X (S "1.0") []) := by
  have hnopen : nameOkB (S "open") = true := by decide
  have hattr : attrsOkB (S " to=" ++ [39] ++ X ++ [39] ++
      (S " version=" ++ [39] ++ S "1.0" ++ [39])) = true :=
    attrsOkB_toX hX (by decide) (by decide) (by decide)
  have hform : S "<open to=" ++ [39] ++ X ++ [39] ++
      S " version=" ++ [39] ++ S "1.0" ++ [39] ++ S "/>" =
      60 :: ((S "open" ++ (S " to=" ++ [39] ++ X ++ [39] ++
        (S " version=" ++ [39] ++ S "1.0" ++ [39]))) ++ 47 :: 62 :: []) := by
    rw [show S "<open to=" = 60 :: (S "open" ++ S " to=") from by decide,
        show S "/>" = [47, 62] from by decide]
    simp
  have htrim : trimB (S "<open to=" ++ [39] ++ X ++ [39] ++
      S " version=" ++ [39] ++ S "1.0" ++ [39] ++ S "/>") =
      S "<open to=" ++ [39] ++ X ++ [39] ++
      S " version=" ++ [39] ++ S "1.0" ++ [39] ++ S "/>" := by
    refine trimB_eq_self ?_ ?_
    · intro b hb
      rw [hform] at hb
      have hb2 : some (60 : Nat) = some b := hb.symm ▸ rfl
      cases hb2
      decide
    · intro b hb
      rw [hform] at hb
      have h62 : ((60 : Nat) :: ((S "open" ++ (S " to=" ++ [39] ++ X ++ [39] ++
          (S " version=" ++ [39] ++ S "1.0" ++ [39]))) ++
          47 :: 62 :: [])).getLast? = some 62 := by
        rw [show (60 : Nat) :: ((S "open" ++ (S " to=" ++ [39] ++ X ++ [39] ++
          (S " version=" ++ [39] ++ S "1.0" ++ [39]))) ++ 47 :: 62 :: []) =
          (60 :: ((S "open" ++ (S " to=" ++ [39] ++ X ++ [39] ++
            (S " version=" ++ [39] ++ S "1.0" ++ [39]))) ++ [47])) ++ [62] from by simp]
        exact List.getLast?_concat _
      rw [h62] at hb
      cases hb
      decide
  have hswopen : startsWithB (S "<open to=" ++ [39] ++ X ++ [39] ++
      S " version=" ++ [39] ++ S "1.0" ++ [39] ++ S "/>") (S "<open ") = true := by
    rw [show S "<open to=" = S "<open " ++ S "to=" from by decide]
    rw [show S "<open " ++ S "to=" ++ [39] ++ X ++ [39] ++
        S " version=" ++ [39] ++ S "1.0" ++ [39] ++ S "/>" =
        S "<open " ++ (S "to=" ++ [39] ++ X ++ [39] ++
        S " version=" ++ [39] ++ S "1.0" ++ [39] ++ S "/>") from by simp]
    exact startsWithB_of_append _ _
  have hre : readEvent (S "<open to=" ++ [39] ++ X ++ [39] ++
      S " version=" ++ [39] ++ S "1.0" ++ [39] ++ S "/>") =
      (.EmptyT (S "open" ++ (S " to=" ++ [39] ++ X ++ [39] ++
        (S " version=" ++ [39] ++ S "1.0" ++ [39]))),
       (S "open" ++ (S " to=" ++ [39] ++ X ++ [39] ++
        (S " version=" ++ [39] ++ S "1.0" ++ [39]))).length + 3) := by
    rw [hform]
    exact readEvent_empty [] hnopen hattr
  have hashape : S " to=" ++ [39] ++ X ++ [39] ++
      (S " version=" ++ [39] ++ S "1.0" ++ [39]) =
      32 :: (S "to" ++ 61 :: 39 :: (X ++ 39 ::
        (S " version=" ++ [39] ++ S "1.0" ++ [39]))) := by
    rw [show S " to=" = 32 :: (S "to" ++ [61]) from by decide]
    simp
  have hstep1 : attrStep (S " to=" ++ [39] ++ X ++ [39] ++
      (S " version=" ++ [39] ++ S "1.0" ++ [39])) =
      some ((S "to", X), S " version=" ++ [39] ++ S "1.0" ++ [39]) := by
    rw [hashape]
    exact attrStep_quoted (Or.inr rfl) (by decide) (by decide) (fun b hb => by
      simpa using (nameByteOk_spec (hX b hb)).2.2.2.2.2.2.1)
  have hpa : parseAttrsR (S " to=" ++ [39] ++ X ++ [39] ++
      (S " version=" ++ [39] ++ S "1.0" ++ [39])) =
      (S "to", X) :: parseAttrsR (S " version=" ++ [39] ++ S "1.0" ++ [39]) :=
    parseAttrsR_cons hstep1
  have hpc : parseAttrsR (S " version=" ++ [39] ++ S "1.0" ++ [39]) =
      [(S "version", S "1.0")] := by decide
  simp only [translate_ws_to_tcp]
  rw [htrim, hswopen]
  simp only [Bool.true_or, if_true]
  rw [hre]
  simp only [tagContentOf]
  rw [nameOf_append hnopen hattr, List.drop_left, hpa, hpc]
  rw [foldOpen_to, foldOpen_version]
  rw [foldOpen]

/-- `translate_tcp_to_ws` on the stream header generated by
`translate_ws_to_tcp`: the declaration is stripped, the header parsed,
and the `<open/>` frame rebuilt with the same `to` and `version`
(`xmlns` attributes are dropped). -/
theorem tcp_to_ws_stream (X : List Nat) (hne : X ≠ [])
    (hX : ∀ b ∈ X, nameByteOk b = true) :
    translate_tcp_to_ws (streamStreamTag X (S "1.0") []) =
      some (false, openOutWS X [] [] (S "1.0") []) := by
  have hn2 : nameOkB (S "stream:stream") = true := by decide
  have hattr2 : attrsOkB (S " to=" ++ [39] ++ X ++ [39] ++ (S " version=" ++ [39] ++ S "1.0" ++ [39] ++ S " xmlns=" ++ [39] ++ S "jabber:client" ++ [39] ++ S " xmlns:stream=" ++ [39] ++ S "http://etherx.jabber.org/streams" ++ [39])) = true :=
    attrsOkB_toX hX (by decide) (by decide) (by decide)
  have hmid : streamStreamTag X (S "1.0") [] = S "<?xml version=" ++ [39] ++ S "1.0" ++ [39] ++ S "?><stream:stream" ++ (S " to=" ++ [39] ++ X ++ [39]) ++ (S " version=" ++ [39] ++ S "1.0" ++ [39]) ++ (S " xmlns=" ++ [39] ++ S "jabber:client" ++ [39] ++ S " xmlns:stream=" ++ [39] ++ S "http://etherx.jabber.org/streams" ++ [39] ++ [62]) := by
    unfold streamStreamTag
    rw [isEmpty_false_of_ne hne]
    simp
  have hmid2 : streamStreamTag X (S "1.0") [] = (S "<?xml version=" ++ [39] ++ S "1.0" ++ [39] ++ S "?><stream:stream") ++ (S " to=" ++ [39] ++ X ++ [39] ++ (S " version=" ++ [39] ++ S "1.0" ++ [39] ++ S " xmlns=" ++ [39] ++ S "jabber:client" ++ [39] ++ S " xmlns:stream=" ++ [39] ++ S "http://etherx.jabber.org/streams" ++ [39] ++ [62])) := by
    rw [hmid]
    simp
  have hlast62 : (streamStreamTag X (S "1.0") []).getLast? = some 62 := by
    rw [hmid2]
    refine getLast?_append_right ?_
    rw [show (S " to=" ++ [39] ++ X ++ [39] ++ (S " version=" ++ [39] ++ S "1.0" ++ [39] ++ S " xmlns=" ++ [39] ++ S "jabber:client" ++ [39] ++ S " xmlns:stream=" ++ [39] ++ S "http://etherx.jabber.org/streams" ++ [39] ++ [62])) = (S " to=" ++ [39] ++ X ++ [39] ++ (S " version=" ++ [39] ++ S "1.0" ++ [39] ++ S " xmlns=" ++ [39] ++ S "jabber:client" ++ [39] ++ S " xmlns:stream=" ++ [39] ++ S "http://etherx.jabber.org/streams" ++ [39])) ++ [62] from by simp]
    exact List.getLast?_concat _
  have hconsM : streamStreamTag X (S "1.0") [] = 60 :: 63 :: (S "xml version=" ++ [39] ++ S "1.0" ++ [39] ++ S "?><stream:stream" ++ (S " to=" ++ [39] ++ X ++ [39]) ++ (S " version=" ++ [39] ++ S "1.0" ++ [39]) ++ (S " xmlns=" ++ [39] ++ S "jabber:client" ++ [39] ++ S " xmlns:stream=" ++ [39] ++ S "http://etherx.jabber.org/streams" ++ [39] ++ [62])) := by
    rw [hmid]
    rw [show S "<?xml version=" = 60 :: 63 :: S "xml version=" from by decide]
    simp
  have htrimM : trimB (streamStreamTag X (S "1.0") []) = streamStreamTag X (S "1.0") [] := by
    refine trimB_eq_self ?_ ?_
    · intro b hb
      rw [hconsM] at hb
      have hb2 : some (60 : Nat) = some b := hb.symm ▸ rfl
      cases hb2
      decide
    · intro b hb
      rw [hlast62] at hb
      cases hb
      decide
  have hnecl : (trimB (streamStreamTag X (S "1.0") []) == S "</stream:stream>") = false := by
    rw [htrimM, hconsM]
    rw [show S "</stream:stream>" = 60 :: 47 :: S "stream:stream>" from by decide]
    exact beq_false_of_ne (ne_of_second_byte (by decide))
  have hsw5 : startsWithB (streamStreamTag X (S "1.0") []) (S "<?xml") = true := by
    rw [hmid2]
    rw [show (S "<?xml version=" ++ [39] ++ S "1.0" ++ [39] ++ S "?><stream:stream") = S "<?xml" ++ (S " version=" ++ [39] ++ S "1.0" ++ [39] ++ S "?><stream:stream") from by decide]
    rw [show (S "<?xml" ++ (S " version=" ++ [39] ++ S "1.0" ++ [39] ++ S "?><stream:stream")) ++ (S " to=" ++ [39] ++ X ++ [39] ++ (S " version=" ++ [39] ++ S "1.0" ++ [39] ++ S " xmlns=" ++ [39] ++ S "jabber:client" ++ [39] ++ S " xmlns:stream=" ++ [39] ++ S "http://etherx.jabber.org/streams" ++ [39] ++ [62])) = S "<?xml" ++ ((S " version=" ++ [39] ++ S "1.0" ++ [39] ++ S "?><stream:stream") ++ (S " to=" ++ [39] ++ X ++ [39] ++ (S " version=" ++ [39] ++ S "1.0" ++ [39] ++ S " xmlns=" ++ [39] ++ S "jabber:client" ++ [39] ++ S " xmlns:stream=" ++ [39] ++ S "http://etherx.jabber.org/streams" ++ [39] ++ [62]))) from by simp]
    exact startsWithB_of_append _ _
  have hfind : findSub (streamStreamTag X (S "1.0") []) (S "?>") = some 19 := by
    rw [hmid2]
    exact findSub_append_left _ (by decide)
  have hdrop21 : (streamStreamTag X (S "1.0") []).drop 21 = S "<stream:stream" ++ (S " to=" ++ [39] ++ X ++ [39] ++ (S " version=" ++ [39] ++ S "1.0" ++ [39] ++ S " xmlns=" ++ [39] ++ S "jabber:client" ++ [39] ++ S " xmlns:stream=" ++ [39] ++ S "http://etherx.jabber.org/streams" ++ [39] ++ [62])) := by
    rw [hmid2]
    rw [List.drop_append_of_le_length (by decide)]
    rw [show List.drop 21 (S "<?xml version=" ++ [39] ++ S "1.0" ++ [39] ++ S "?><stream:stream") = S "<stream:stream" from by decide]
  have hSTform : S "<stream:stream" ++ (S " to=" ++ [39] ++ X ++ [39] ++ (S " version=" ++ [39] ++ S "1.0" ++ [39] ++ S " xmlns=" ++ [39] ++ S "jabber:client" ++ [39] ++ S " xmlns:stream=" ++ [39] ++ S "http://etherx.jabber.org/streams" ++ [39] ++ [62])) = 60 :: ((S "stream:stream" ++ (S " to=" ++ [39] ++ X ++ [39] ++ (S " version=" ++ [39] ++ S "1.0" ++ [39] ++ S " xmlns=" ++ [39] ++ S "jabber:client" ++ [39] ++ S " xmlns:stream=" ++ [39] ++ S "http://etherx.jabber.org/streams" ++ [39]))) ++ 62 :: []) := by
    rw [show S "<stream:stream" = 60 :: S "stream:stream" from by decide]
    simp
  have hlastST : (S "<stream:stream" ++ (S " to=" ++ [39] ++ X ++ [39] ++ (S " version=" ++ [39] ++ S "1.0" ++ [39] ++ S " xmlns=" ++ [39] ++ S "jabber:client" ++ [39] ++ S " xmlns:stream=" ++ [39] ++ S "http://etherx.jabber.org/streams" ++ [39] ++ [62]))).getLast? = some 62 := by
    refine getLast?_append_right ?_
    rw [show (S " to=" ++ [39] ++ X ++ [39] ++ (S " version=" ++ [39] ++ S "1.0" ++ [39] ++ S " xmlns=" ++ [39] ++ S "jabber:client" ++ [39] ++ S " xmlns:stream=" ++ [39] ++ S "http://etherx.jabber.org/streams" ++ [39] ++ [62])) = (S " to=" ++ [39] ++ X ++ [39] ++ (S " version=" ++ [39] ++ S "1.0" ++ [39] ++ S " xmlns=" ++ [39] ++ S "jabber:client" ++ [39] ++ S " xmlns:stream=" ++ [39] ++ S "http://etherx.jabber.org/streams" ++ [39])) ++ [62] from by simp]
    exact List.getLast?_concat _
  have htrimST : trimB (S "<stream:stream" ++ (S " to=" ++ [39] ++ X ++ [39] ++ (S " version=" ++ [39] ++ S "1.0" ++ [39] ++ S " xmlns=" ++ [39] ++ S "jabber:client" ++ [39] ++ S " xmlns:stream=" ++ [39] ++ S "http://etherx.jabber.org/streams" ++ [39] ++ [62]))) = S "<stream:stream" ++ (S " to=" ++ [39] ++ X ++ [39] ++ (S " version=" ++ [39] ++ S "1.0" ++ [39] ++ S " xmlns=" ++ [39] ++ S "jabber:client" ++ [39] ++ S " xmlns:stream=" ++ [39] ++ S "http://etherx.jabber.org/streams" ++ [39] ++ [62])) := by
    refine trimB_eq_self ?_ ?_
    · intro b hb
      rw [hSTform] at hb
      have hb2 : some (60 : Nat) = some b := hb.symm ▸ rfl
      cases hb2
      decide
    · intro b hb
      rw [hlastST] at hb
      cases hb
      decide
  have hds : declStrip (trimB (streamStreamTag X (S "1.0") [])) = 60 :: ((S "stream:stream" ++ (S " to=" ++ [39] ++ X ++ [39] ++ (S " version=" ++ [39] ++ S "1.0" ++ [39] ++ S " xmlns=" ++ [39] ++ S "jabber:client" ++ [39] ++ S " xmlns:stream=" ++ [39] ++ S "http://etherx.jabber.org/streams" ++ [39]))) ++ 62 :: []) := by
    rw [htrimM]
    unfold declStrip
    rw [hsw5]
    simp only [if_true]
    rw [hfind]
    show trimB ((streamStreamTag X (S "1.0") []).drop (19 + 2)) = _
    rw [show (19 + 2) = 21 from rfl, hdrop21, htrimST, hSTform]
  have hswst : startsWithB (60 :: ((S "stream:stream" ++ (S " to=" ++ [39] ++ X ++ [39] ++ (S " version=" ++ [39] ++ S "1.0" ++ [39] ++ S " xmlns=" ++ [39] ++ S "jabber:client" ++ [39] ++ S " xmlns:stream=" ++ [39] ++ S "http://etherx.jabber.org/streams" ++ [39]))) ++ 62 :: []) : List Nat) (S "<stream:stream ") = true := by
    rw [show S "<stream:stream " = 60 :: (S "stream:stream" ++ [32]) from by decide]
    rw [show S " to=" = 32 :: S "to=" from by decide]
    rw [show (60 : Nat) :: ((S "stream:stream" ++ ((32 :: S "to=") ++ [39] ++ X ++ [39] ++ (S " version=" ++ [39] ++ S "1.0" ++ [39] ++ S " xmlns=" ++ [39] ++ S "jabber:client" ++ [39] ++ S " xmlns:stream=" ++ [39] ++ S "http://etherx.jabber.org/streams" ++ [39]))) ++ 62 :: []) = (60 :: (S "stream:stream" ++ [32])) ++ (S "to=" ++ [39] ++ X ++ [39] ++ (S " version=" ++ [39] ++ S "1.0" ++ [39] ++ S " xmlns=" ++ [39] ++ S "jabber:client" ++ [39] ++ S " xmlns:stream=" ++ [39] ++ S "http://etherx.jabber.org/streams" ++ [39]) ++ 62 :: []) from by simp]
    exact startsWithB_of_append _ _
  have hre2 : readEvent (60 :: ((S "stream:stream" ++ (S " to=" ++ [39] ++ X ++ [39] ++ (S " version=" ++ [39] ++ S "1.0" ++ [39] ++ S " xmlns=" ++ [39] ++ S "jabber:client" ++ [39] ++ S " xmlns:stream=" ++ [39] ++ S "http://etherx.jabber.org/streams" ++ [39]))) ++ 62 :: []) : List Nat) =
      (.StartT (S "stream:stream" ++ (S " to=" ++ [39] ++ X ++ [39] ++ (S " version=" ++ [39] ++ S "1.0" ++ [39] ++ S " xmlns=" ++ [39] ++ S "jabber:client" ++ [39] ++ S " xmlns:stream=" ++ [39] ++ S "http://etherx.jabber.org/streams" ++ [39]))), (S "stream:stream" ++ (S " to=" ++ [39] ++ X ++ [39] ++ (S " version=" ++ [39] ++ S "1.0" ++ [39] ++ S " xmlns=" ++ [39] ++ S "jabber:client" ++ [39] ++ S " xmlns:stream=" ++ [39] ++ S "http://etherx.jabber.org/streams" ++ [39]))).length + 2) :=
    readEvent_start [] hn2 hattr2
  have hashape2 : (S " to=" ++ [39] ++ X ++ [39] ++ (S " version=" ++ [39] ++ S "1.0" ++ [39] ++ S " xmlns=" ++ [39] ++ S "jabber:client" ++ [39] ++ S " xmlns:stream=" ++ [39] ++ S "http://etherx.jabber.org/streams" ++ [39])) = 32 :: (S "to" ++ 61 :: 39 :: (X ++ 39 :: (S " version=" ++ [39] ++ S "1.0" ++ [39] ++ S " xmlns=" ++ [39] ++ S "jabber:client" ++ [39] ++ S " xmlns:stream=" ++ [39] ++ S "http://etherx.jabber.org/streams" ++ [39]))) := by
    rw [show S " to=" = 32 :: (S "to" ++ [61]) from by decide]
    simp
  have hstep2 : attrStep (S " to=" ++ [39] ++ X ++ [39] ++ (S " version=" ++ [39] ++ S "1.0" ++ [39] ++ S " xmlns=" ++ [39] ++ S "jabber:client" ++ [39] ++ S " xmlns:stream=" ++ [39] ++ S "http://etherx.jabber.org/streams" ++ [39])) = some ((S "to", X), (S " version=" ++ [39] ++ S "1.0" ++ [39] ++ S " xmlns=" ++ [39] ++ S "jabber:client" ++ [39] ++ S " xmlns:stream=" ++ [39] ++ S "http://etherx.jabber.org/streams" ++ [39])) := by
    rw [hashape2]
    exact attrStep_quoted (Or.inr rfl) (by decide) (by decide) (fun b hb => by
      simpa using (nameByteOk_spec (hX b hb)).2.2.2.2.2.2.1)
  have hpa2 : parseAttrsR (S " to=" ++ [39] ++ X ++ [39] ++ (S " version=" ++ [39] ++ S "1.0" ++ [39] ++ S " xmlns=" ++ [39] ++ S "jabber:client" ++ [39] ++ S " xmlns:stream=" ++ [39] ++ S "http://etherx.jabber.org/streams" ++ [39])) = (S "to", X) :: parseAttrsR (S " version=" ++ [39] ++ S "1.0" ++ [39] ++ S " xmlns=" ++ [39] ++ S "jabber:client" ++ [39] ++ S " xmlns:stream=" ++ [39] ++ S "http://etherx.jabber.org/streams" ++ [39]) :=
    parseAttrsR_cons hstep2
  have hpc2 : parseAttrsR (S " version=" ++ [39] ++ S "1.0" ++ [39] ++ S " xmlns=" ++ [39] ++ S "jabber:client" ++ [39] ++ S " xmlns:stream=" ++ [39] ++ S "http://etherx.jabber.org/streams" ++ [39]) = [(S "version", S "1.0"), (S "xmlns", S "jabber:client"), (S "xmlns:stream", S "http://etherx.jabber.org/streams")] := by decide
  simp only [translate_tcp_to_ws]
  rw [hnecl]
  simp only [Bool.false_eq_true, if_false]
  rw [hds, hswst]
  simp only [if_true]
  have hfst : (readEvent (60 :: ((S "stream:stream" ++ (S " to=" ++ [39] ++ X ++ [39] ++ (S " version=" ++ [39] ++ S "1.0" ++ [39] ++ S " xmlns=" ++ [39] ++ S "jabber:client" ++ [39] ++ S " xmlns:stream=" ++ [39] ++ S "http://etherx.jabber.org/streams" ++ [39]))) ++ 62 :: []) : List Nat)).1 = .StartT (S "stream:stream" ++ (S " to=" ++ [39] ++ X ++ [39] ++ (S " version=" ++ [39] ++ S "1.0" ++ [39] ++ S " xmlns=" ++ [39] ++ S "jabber:client" ++ [39] ++ S " xmlns:stream=" ++ [39] ++ S "http://etherx.jabber.org/streams" ++ [39]))) := by
    rw [hre2]
  rw [hfst]
  simp only []
  rw [nameOf_append hn2 hattr2, List.drop_left, hpa2, hpc2]
  rw [foldStream_to, foldStream_version]
  rw [foldStream_skip (S "jabber:client") _ _ (by decide) (by decide) (by decide) (by decide) (by decide)]
  rw [foldStream_skip (S "http://etherx.jabber.org/streams") _ _ (by decide) (by decide) (by decide) (by decide) (by decide)]
  rw [foldStream]

/-- C2: the framing translators round-trip.  For a client `<open>` frame
carrying `to='X'` and `version='1.0'` (with `X` nonempty and made of
name-safe bytes), `translate_tcp_to_ws ∘ translate_ws_to_tcp` yields the
`<open/>` element with `to="X"` and `version="1.0"` preserved (and no
`from`/`id`/`xml:lang`); the `<close>` round-trip is exactly
`<close xmlns="urn:ietf:params:xml:ns:xmpp-framing"/>`. -/
theorem C2_framing_round_trip (X : List Nat) (hne : X ≠ [])
    (hX : ∀ b ∈ X, nameByteOk b = true) :
    translate_tcp_to_ws (translate_ws_to_tcp (S "<open to=" ++ [39] ++ X ++ [39] ++
        S " version=" ++ [39] ++ S "1.0" ++ [39] ++ S "/>")).2 =
      some (false, openOutWS X [] [] (S "1.0") []) ∧
    translate_tcp_to_ws (translate_ws_to_tcp (S "<close xmlns=" ++ [34] ++
        S "urn:ietf:params:xml:ns:xmpp-framing" ++ [34] ++ S "/>")).2 =
      some (true, closeOutWS) := by
  constructor
  · rw [ws_to_tcp_open X hne hX]
    exact tcp_to_ws_stream X hne hX
  · decide

theorem C2_framing_round_trip_witness :
    translate_tcp_to_ws (translate_ws_to_tcp (S "<open to=" ++ [39] ++
        S "example.com" ++ [39] ++
        S " version=" ++ [39] ++ S "1.0" ++ [39] ++ S "/>")).2 =
      some (false, openOutWS (S "example.com") [] [] (S "1.0") []) ∧
    translate_tcp_to_ws (translate_ws_to_tcp (S "<close xmlns=" ++ [34] ++
        S "urn:ietf:params:xml:ns:xmpp-framing" ++ [34] ++ S "/>")).2 =
      some (true, closeOutWS) :=
  C2_framing_round_trip (S "example.com") (by decide) (by decide)

/-! ## Computation lemmas for the prefix-rewrite loop -/

theorem rwLoop_fuel : ∀ (f : Nat) (l : List Nat), l.length < f →
    rwLoop f l = rwRun l := by
  intro f
  induction f using Nat.strong_induction_on with
  | _ f IH =>
    intro l hf
    cases f with
    | zero => omega
    | succ g =>
      unfold rwRun
      cases l with
      | nil => rw [rwLoop, rwLoop]
      | cons b rest =>
        rw [rwLoop, rwLoop]
        have hlen : (b :: rest).length = rest.length + 1 := rfl
        by_cases h1 : startsWithB (b :: rest) (S "</stream:") = true
        · rw [if_pos h1, if_pos h1]
          have hd : ((b :: rest).drop 9).length < (b :: rest).length := by
            rw [List.length_drop]
            simp only [List.length_cons]
            omega
          rw [IH g (by omega) _ (by omega)]
          rw [IH (b :: rest).length (by omega) _ hd]
        · rw [if_neg h1, if_neg h1]
          by_cases h2 : startsWithB (b :: rest) (S "<stream:") = true
          · rw [if_pos h2, if_pos h2]
            have hd : ((b :: rest).drop 8).length < (b :: rest).length := by
              rw [List.length_drop]
              simp only [List.length_cons]
              omega
            rw [IH g (by omega) _ (by omega)]
            rw [IH (b :: rest).length (by omega) _ hd]
          · rw [if_neg h2, if_neg h2]
            by_cases h3 : rest.head?.any (fun r1 => 128 ≤ r1 && r1 < 192) = true
            · rw [if_pos h3, if_pos h3]
            · rw [if_neg h3, if_neg h3]
              have hd : rest.length < (b :: rest).length := by simp
              rw [IH g (by omega) _ (by omega)]
              rw [IH (b :: rest).length (by omega) _ hd]

theorem rwRun_nil : rwRun [] = some [] := rfl

theorem rwRun_closeP {b : Nat} {rest : List Nat}
    (h : startsWithB (b :: rest) (S "</stream:") = true) :
    rwRun (b :: rest) = (rwRun ((b :: rest).drop 9)).map (fun r => S "</" ++ r) := by
  show rwLoop ((b :: rest).length + 1) (b :: rest) = _
  rw [rwLoop, if_pos h]
  rw [rwLoop_fuel (b :: rest).length _ (by rw [List.length_drop]; simp; omega)]

theorem rwRun_openP {b : Nat} {rest : List Nat}
    (h1 : startsWithB (b :: rest) (S "</stream:") = false)
    (h2 : startsWithB (b :: rest) (S "<stream:") = true) :
    rwRun (b :: rest) = (rwRun ((b :: rest).drop 8)).map (fun r => 60 :: r) := by
  show rwLoop ((b :: rest).length + 1) (b :: rest) = _
  rw [rwLoop, if_neg (by rw [h1]; simp), if_pos h2]
  rw [rwLoop_fuel (b :: rest).length _ (by rw [List.length_drop]; simp; omega)]

theorem rwRun_panicP {b : Nat} {rest : List Nat}
    (h1 : startsWithB (b :: rest) (S "</stream:") = false)
    (h2 : startsWithB (b :: rest) (S "<stream:") = false)
    (h3 : rest.head?.any (fun r1 => 128 ≤ r1 && r1 < 192) = true) :
    rwRun (b :: rest) = none := by
  show rwLoop ((b :: rest).length + 1) (b :: rest) = _
  rw [rwLoop, if_neg (by rw [h1]; simp), if_neg (by rw [h2]; simp)]
  rw [if_pos h3]

theorem rwRun_asciiP {b : Nat} {rest : List Nat}
    (h1 : startsWithB (b :: rest) (S "</stream:") = false)
    (h2 : startsWithB (b :: rest) (S "<stream:") = false)
    (h3 : rest.head?.any (fun r1 => 128 ≤ r1 && r1 < 192) = false) :
    rwRun (b :: rest) = (rwRun rest).map (fun r => encByte b ++ r) := by
  show rwLoop ((b :: rest).length + 1) (b :: rest) = _
  rw [rwLoop, if_neg (by rw [h1]; simp), if_neg (by rw [h2]; simp)]
  rw [if_neg (by rw [h3]; simp)]
  rw [rwLoop_fuel (b :: rest).length _ (by simp)]

theorem containsSub_false_of_short {l pat : List Nat} (h : l.length < pat.length) :
    containsSub l pat = false := by
  induction l with
  | nil =>
    cases pat with
    | nil => simp at h
    | cons p ps => rfl
  | cons a t ih =>
    rw [containsSub_cons]
    have h1 : startsWithB (a :: t) pat = false := by
      by_contra hc
      rw [Bool.not_eq_false] at hc
      have := startsWithB_length_le hc
      omega
    rw [h1, ih (by simp only [List.length_cons] at h; omega)]
    rfl

theorem startsWithB_decomp {l p : List Nat} (h : startsWithB l p = true) :
    l = p ++ l.drop p.length := by
  obtain ⟨r, hr⟩ := (startsWithB_iff _ _).mp h
  have h2 : l.drop p.length = r := by rw [hr, List.drop_left]
  rw [h2]
  exact hr

theorem contains_of_two_prefix {l A B Z : List Nat}
    (h1 : l = A ++ (B ++ Z)) : containsSub l (A ++ B) = true := by
  refine (containsSub_iff _ _).mpr ⟨[], Z, ?_⟩
  simp [h1]

/-- Output-to-input prefix transfer for the rewrite loop: the loop only
ever emits `<`/`</` at rewrite points and copies other bytes, so an
output that begins with a `<`-free ASCII word comes from an input that
begins with the same word. -/
theorem rwRun_transfer {l : List Nat} : ∀ (r w : List Nat),
    rwRun l = some r → (∀ b ∈ w, b ≠ 60 ∧ b < 128) →
    startsWithB r w = true → startsWithB l w = true := by
  induction l with
  | nil =>
    intro r w hrun hw hsw
    rw [rwRun_nil] at hrun
    cases hrun
    cases w with
    | nil => rfl
    | cons w1 w2 => simp [startsWithB] at hsw
  | cons b rest ih =>
    intro r w hrun hw hsw
    cases w with
    | nil => rfl
    | cons w1 w2 =>
      by_cases h1 : startsWithB (b :: rest) (S "</stream:") = true
      · rw [rwRun_closeP h1] at hrun
        rw [Option.map_eq_some'] at hrun
        obtain ⟨r0, hr0, hreq⟩ := hrun
        subst hreq
        rw [show S "</" = [60, 47] from by decide] at hsw
        rw [show ([60, 47] : List Nat) ++ r0 = 60 :: 47 :: r0 from rfl] at hsw
        rw [startsWithB_cons_cons] at hsw
        simp only [Bool.and_eq_true, beq_iff_eq] at hsw
        exact absurd hsw.1.symm (hw w1 (by simp)).1
      · by_cases h2 : startsWithB (b :: rest) (S "<stream:") = true
        · rw [rwRun_openP (by simpa using h1) h2] at hrun
          rw [Option.map_eq_some'] at hrun
          obtain ⟨r0, hr0, hreq⟩ := hrun
          subst hreq
          rw [startsWithB_cons_cons] at hsw
          simp only [Bool.and_eq_true, beq_iff_eq] at hsw
          exact absurd hsw.1.symm (hw w1 (by simp)).1
        · by_cases h3 : rest.head?.any (fun r1 => 128 ≤ r1 && r1 < 192) = true
          · rw [rwRun_panicP (by simpa using h1) (by simpa using h2) h3] at hrun
            cases hrun
          · rw [rwRun_asciiP (by simpa using h1) (by simpa using h2)
                (by simpa using h3)] at hrun
            rw [Option.map_eq_some'] at hrun
            obtain ⟨r0, hr0, hreq⟩ := hrun
            subst hreq
            by_cases hb : b < 128
            · have henc : encByte b = [b] := by
                unfold encByte
                rw [if_pos hb]
              rw [henc] at hsw
              rw [show ([b] : List Nat) ++ r0 = b :: r0 from rfl] at hsw
              rw [startsWithB_cons_cons] at hsw
              simp only [Bool.and_eq_true] at hsw
              obtain ⟨hbw, hsw2⟩ := hsw
              have hrest : startsWithB rest w2 = true :=
                ih r0 w2 hr0 (fun x hx => hw x (by simp [hx])) hsw2
              rw [startsWithB_cons_cons, hbw, hrest]
              rfl
            · have henc : encByte b = [192 + b / 64, 128 + b % 64] := by
                unfold encByte
                rw [if_neg hb]
              rw [henc] at hsw
              rw [show ([192 + b / 64, 128 + b % 64] : List Nat) ++ r0 =
                  (192 + b / 64) :: (128 + b % 64) :: r0 from rfl] at hsw
              rw [startsWithB_cons_cons] at hsw
              simp only [Bool.and_eq_true, beq_iff_eq] at hsw
              have hlt := (hw w1 (by simp)).2
              omega

/-- No `<stream:` or `</stream:` occurrence survives the rewrite when the
input avoids the three pathological overlaps (`<stream:stream:`,
`</stream:stream:`, `<stream:/stream:`), in which the rewrite of one
occurrence manufactures text for the next. -/
theorem rwRun_no_leftover : ∀ (N : Nat) (l r : List Nat), l.length ≤ N →
    rwRun l = some r →
    containsSub l (S "<stream:stream:") = false →
    containsSub l (S "</stream:stream:") = false →
    containsSub l (S "<stream:/stream:") = false →
    containsSub r (S "<stream:") = false ∧
    containsSub r (S "</stream:") = false := by
  intro N
  induction N using Nat.strong_induction_on with
  | _ N IH =>
    intro l r hN hrun hb1 hb2 hb3
    cases l with
    | nil =>
      rw [rwRun_nil] at hrun
      cases hrun
      exact ⟨rfl, rfl⟩
    | cons b rest =>
      have hsub : ∀ (k : Nat) (pat : List Nat), containsSub (b :: rest) pat = false →
          containsSub ((b :: rest).drop k) pat = false := by
        intro k pat hc
        by_contra hcon
        rw [Bool.not_eq_false] at hcon
        have h5 := containsSub_of_drop k hcon
        rw [h5] at hc
        exact Bool.noConfusion hc
      have hNr : rest.length < N := by
        simp only [List.length_cons] at hN
        omega
      by_cases h1 : startsWithB (b :: rest) (S "</stream:") = true
      · rw [rwRun_closeP h1] at hrun
        rw [Option.map_eq_some'] at hrun
        obtain ⟨r0, hr0, hreq⟩ := hrun
        subst hreq
        obtain ⟨hA0, hB0⟩ := IH rest.length hNr ((b :: rest).drop 9) r0
          (by rw [List.length_drop]; simp only [List.length_cons]; omega) hr0
          (hsub 9 _ hb1) (hsub 9 _ hb2) (hsub 9 _ hb3)
        have hform : S "</" ++ r0 = 60 :: 47 :: r0 := by
          rw [show S "</" = [60, 47] from by decide]
          rfl
        rw [hform]
        constructor
        · by_contra hcon
          rw [Bool.not_eq_false] at hcon
          rw [containsSub_cons, containsSub_cons] at hcon
          simp only [Bool.or_eq_true] at hcon
          rcases hcon with hsw0 | hsw1 | hrest
          · rw [show S "<stream:" = 60 :: 115 :: S "tream:" from by decide] at hsw0
            simp only [startsWithB_cons_cons, Bool.and_eq_true, beq_iff_eq] at hsw0
            obtain ⟨-, h47, -⟩ := hsw0
            omega
          · rw [show S "<stream:" = 60 :: 115 :: S "tream:" from by decide] at hsw1
            simp only [startsWithB_cons_cons, Bool.and_eq_true, beq_iff_eq] at hsw1
            obtain ⟨h60, -⟩ := hsw1
            omega
          · rw [hrest] at hA0
            exact Bool.noConfusion hA0
        · by_contra hcon
          rw [Bool.not_eq_false] at hcon
          rw [containsSub_cons, containsSub_cons] at hcon
          simp only [Bool.or_eq_true] at hcon
          rcases hcon with hsw0 | hsw1 | hrest
          · rw [show S "</stream:" = 60 :: 47 :: S "stream:" from by decide] at hsw0
            simp only [startsWithB_cons_cons, Bool.and_eq_true] at hsw0
            obtain ⟨-, -, hsw2⟩ := hsw0
            have htr : startsWithB ((b :: rest).drop 9) (S "stream:") = true :=
              rwRun_transfer r0 (S "stream:") hr0 (by decide) hsw2
            have hdec1 : (b :: rest) = S "</stream:" ++ (b :: rest).drop 9 := by
              have h5 := startsWithB_decomp h1
              rwa [show (S "</stream:").length = 9 from by decide] at h5
            have hdec2 := startsWithB_decomp htr
            have hctr : containsSub (b :: rest) (S "</stream:" ++ S "stream:") = true :=
              contains_of_two_prefix (by rw [hdec1, hdec2])
            rw [show S "</stream:stream:" = S "</stream:" ++ S "stream:" from by decide] at hb2
            rw [hctr] at hb2
            exact Bool.noConfusion hb2
          · rw [show S "</stream:" = 60 :: 47 :: S "stream:" from by decide] at hsw1
            simp only [startsWithB_cons_cons, Bool.and_eq_true, beq_iff_eq] at hsw1
            obtain ⟨h60, -⟩ := hsw1
            omega
          · rw [hrest] at hB0
            exact Bool.noConfusion hB0
      · by_cases h2 : startsWithB (b :: rest) (S "<stream:") = true
        · rw [rwRun_openP (by simpa using h1) h2] at hrun
          rw [Option.map_eq_some'] at hrun
          obtain ⟨r0, hr0, hreq⟩ := hrun
          subst hreq
          obtain ⟨hA0, hB0⟩ := IH rest.length hNr ((b :: rest).drop 8) r0
            (by rw [List.length_drop]; simp only [List.length_cons]; omega) hr0
            (hsub 8 _ hb1) (hsub 8 _ hb2) (hsub 8 _ hb3)
          have hdec1 : (b :: rest) = S "<stream:" ++ (b :: rest).drop 8 := by
            have h5 := startsWithB_decomp h2
            rwa [show (S "<stream:").length = 8 from by decide] at h5
          constructor
          · by_contra hcon
            rw [Bool.not_eq_false] at hcon
            rw [containsSub_cons] at hcon
            simp only [Bool.or_eq_true] at hcon
            rcases hcon with hsw0 | hrest
            · rw [show S "<stream:" = 60 :: S "stream:" from by decide] at hsw0
              rw [startsWithB_cons_cons] at hsw0
              simp only [Bool.and_eq_true] at hsw0
              obtain ⟨-, hsw2⟩ := hsw0
              have htr : startsWithB ((b :: rest).drop 8) (S "stream:") = true :=
                rwRun_transfer r0 (S "stream:") hr0 (by decide) hsw2
              have hdec2 := startsWithB_decomp htr
              have hctr : containsSub (b :: rest) (S "<stream:" ++ S "stream:") = true :=
                contains_of_two_prefix (by rw [hdec1, hdec2])
              rw [show S "<stream:stream:" = S "<stream:" ++ S "stream:" from by decide] at hb1
              rw [hctr] at hb1
              exact Bool.noConfusion hb1
            · rw [hrest] at hA0
              exact Bool.noConfusion hA0
          · by_contra hcon
            rw [Bool.not_eq_false] at hcon
            rw [containsSub_cons] at hcon
            simp only [Bool.or_eq_true] at hcon
            rcases hcon with hsw0 | hrest
            · rw [show S "</stream:" = 60 :: S "/stream:" from by decide] at hsw0
              rw [startsWithB_cons_cons] at hsw0
              simp only [Bool.and_eq_true] at hsw0
              obtain ⟨-, hsw2⟩ := hsw0
              have htr : startsWithB ((b :: rest).drop 8) (S "/stream:") = true :=
                rwRun_transfer r0 (S "/stream:") hr0 (by decide) hsw2
              have hdec2 := startsWithB_decomp htr
              have hctr : containsSub (b :: rest) (S "<stream:" ++ S "/stream:") = true :=
                contains_of_two_prefix (by rw [hdec1, hdec2])
              rw [show S "<stream:/stream:" = S "<stream:" ++ S "/stream:" from by decide] at hb3
              rw [hctr] at hb3
              exact Bool.noConfusion hb3
            · rw [hrest] at hB0
              exact Bool.noConfusion hB0
        · by_cases h3 : rest.head?.any (fun r1 => 128 ≤ r1 && r1 < 192) = true
          · rw [rwRun_panicP (by simpa using h1) (by simpa using h2) h3] at hrun
            cases hrun
          · rw [rwRun_asciiP (by simpa using h1) (by simpa using h2)
                (by simpa using h3)] at hrun
            rw [Option.map_eq_some'] at hrun
            obtain ⟨r0, hr0, hreq⟩ := hrun
            subst hreq
            obtain ⟨hA0, hB0⟩ := IH rest.length hNr rest r0 (le_refl _) hr0
              (hsub 1 _ hb1) (hsub 1 _ hb2) (hsub 1 _ hb3)
            by_cases hb : b < 128
            · have henc : encByte b = [b] := by
                unfold encByte
                rw [if_pos hb]
              rw [henc, show ([b] : List Nat) ++ r0 = b :: r0 from rfl]
              constructor
              · by_contra hcon
                rw [Bool.not_eq_false] at hcon
                rw [containsSub_cons] at hcon
                simp only [Bool.or_eq_true] at hcon
                rcases hcon with hsw0 | hrest
                · rw [show S "<stream:" = 60 :: S "stream:" from by decide] at hsw0
                  rw [startsWithB_cons_cons] at hsw0
                  simp only [Bool.and_eq_true, beq_iff_eq] at hsw0
                  obtain ⟨hb60, hsw2⟩ := hsw0
                  have htr : startsWithB rest (S "stream:") = true :=
                    rwRun_transfer r0 (S "stream:") hr0 (by decide) hsw2
                  have hdec2 := startsWithB_decomp htr
                  have hl : startsWithB (b :: rest) (S "<stream:") = true := by
                    rw [hb60, hdec2]
                    rw [show S "<stream:" = 60 :: S "stream:" from by decide]
                    rw [show (60 : Nat) :: (S "stream:" ++
                        rest.drop (S "stream:").length) =
                        (60 :: S "stream:") ++ rest.drop (S "stream:").length from rfl]
                    exact startsWithB_of_append _ _
                  exact absurd hl h2
                · rw [hrest] at hA0
                  exact Bool.noConfusion hA0
              · by_contra hcon
                rw [Bool.not_eq_false] at hcon
                rw [containsSub_cons] at hcon
                simp only [Bool.or_eq_true] at hcon
                rcases hcon with hsw0 | hrest
                · rw [show S "</stream:" = 60 :: S "/stream:" from by decide] at hsw0
                  rw [startsWithB_cons_cons] at hsw0
                  simp only [Bool.and_eq_true, beq_iff_eq] at hsw0
                  obtain ⟨hb60, hsw2⟩ := hsw0
                  have htr : startsWithB rest (S "/stream:") = true :=
                    rwRun_transfer r0 (S "/stream:") hr0 (by decide) hsw2
                  have hdec2 := startsWithB_decomp htr
                  have hl : startsWithB (b :: rest) (S "</stream:") = true := by
                    rw [hb60, hdec2]
                    rw [show S "</stream:" = 60 :: S "/stream:" from by decide]
                    rw [show (60 : Nat) :: (S "/stream:" ++
                        rest.drop (S "/stream:").length) =
                        (60 :: S "/stream:") ++ rest.drop (S "/stream:").length from rfl]
                    exact startsWithB_of_append _ _
                  exact absurd hl h1
                · rw [hrest] at hB0
                  exact Bool.noConfusion hB0
            · have henc : encByte b = [192 + b / 64, 128 + b % 64] := by
                unfold encByte
                rw [if_neg hb]
              rw [henc, show ([192 + b / 64, 128 + b % 64] : List Nat) ++ r0 =
                  (192 + b / 64) :: (128 + b % 64) :: r0 from rfl]
              constructor
              · by_contra hcon
                rw [Bool.not_eq_false] at hcon
                rw [containsSub_cons, containsSub_cons] at hcon
                simp only [Bool.or_eq_true] at hcon
                rcases hcon with hsw0 | hsw1 | hrest
                · rw [show S "<stream:" = 60 :: S "stream:" from by decide] at hsw0
                  simp only [startsWithB_cons_cons, Bool.and_eq_true, beq_iff_eq] at hsw0
                  obtain ⟨he, -⟩ := hsw0
                  omega
                · rw [show S "<stream:" = 60 :: S "stream:" from by decide] at hsw1
                  simp only [startsWithB_cons_cons, Bool.and_eq_true, beq_iff_eq] at hsw1
                  obtain ⟨he, -⟩ := hsw1
                  omega
                · rw [hrest] at hA0
                  exact Bool.noConfusion hA0
              · by_contra hcon
                rw [Bool.not_eq_false] at hcon
                rw [containsSub_cons, containsSub_cons] at hcon
                simp only [Bool.or_eq_true] at hcon
                rcases hcon with hsw0 | hsw1 | hrest
                · rw [show S "</stream:" = 60 :: S "/stream:" from by decide] at hsw0
                  simp only [startsWithB_cons_cons, Bool.and_eq_true, beq_iff_eq] at hsw0
                  obtain ⟨he, -⟩ := hsw0
                  omega
                · rw [show S "</stream:" = 60 :: S "/stream:" from by decide] at hsw1
                  simp only [startsWithB_cons_cons, Bool.and_eq_true, beq_iff_eq] at hsw1
                  obtain ⟨he, -⟩ := hsw1
                  omega
                · rw [hrest] at hB0
                  exact Bool.noConfusion hB0

theorem startsWithB_mono {l p q : List Nat} (h : startsWithB l (p ++ q) = true) :
    startsWithB l p = true := by
  obtain ⟨r, hr⟩ := (startsWithB_iff _ _).mp h
  exact (startsWithB_iff _ _).mpr ⟨q ++ r, by rw [hr, List.append_assoc]⟩

/-- Splicing the xmlns attribute into a clean rewrite output cannot
manufacture a `<stream:`/`</stream:` occurrence: the attribute contains
no `<`, starts with a space and ends with a quote, and the patterns
contain neither space nor quote. -/
theorem containsSub_splice {R M pat : List Nat} (pos : Nat)
    (hR : containsSub R pat = false)
    (hM : containsSub M pat = false)
    (hpat32 : ∀ b ∈ pat, b ≠ 32)
    (hpat34 : ∀ b ∈ pat, b ≠ 34)
    (hMhead : M.head? = some 32)
    (hMlast : M.getLast? = some 34) :
    containsSub (R.take pos ++ M ++ R.drop pos) pat = false := by
  by_contra hcon
  rw [Bool.not_eq_false] at hcon
  rcases containsSub_append_split hcon with hTM | hD | ⟨s, t, hpat, hsne, htne, ⟨u, hu⟩, hswt⟩
  · rcases containsSub_append_split hTM with hT | hMM | ⟨s, t, hpat, hsne, htne, ⟨u, hu⟩, hswt⟩
    · have h5 := containsSub_of_take pos hT
      rw [h5] at hR
      exact Bool.noConfusion hR
    · rw [hMM] at hM
      exact Bool.noConfusion hM
    · obtain ⟨th, t2, rfl⟩ : ∃ th t2, t = th :: t2 := by
        cases t with
        | nil => exact absurd rfl htne
        | cons th t2 => exact ⟨th, t2, rfl⟩
      obtain ⟨mh, m2, hm⟩ : ∃ mh m2, M = mh :: m2 := by
        cases M with
        | nil => cases hMhead
        | cons mh m2 => exact ⟨mh, m2, rfl⟩
      subst hm
      have hmh : mh = 32 := by
        have h6 : some mh = some (32 : Nat) := hMhead
        injection h6
      rw [hmh] at hswt
      rw [startsWithB_cons_cons] at hswt
      simp only [Bool.and_eq_true, beq_iff_eq] at hswt
      have hmem : th ∈ pat := by
        rw [hpat]
        exact List.mem_append.mpr (Or.inr (by simp))
      exact absurd hswt.1.symm (hpat32 th hmem)
  · have h5 := containsSub_of_drop pos hD
    rw [h5] at hR
    exact Bool.noConfusion hR
  · have hzs : s.getLast?.isSome := by
      rw [List.getLast?_isSome]
      exact hsne
    obtain ⟨z, hz⟩ := Option.isSome_iff_exists.mp hzs
    have hz2 : (R.take pos ++ M).getLast? = some z := by
      rw [hu]
      exact getLast?_append_right hz
    have hz3 : (R.take pos ++ M).getLast? = some 34 := getLast?_append_right hMlast
    rw [hz2] at hz3
    injection hz3 with hz4
    have hzmem : z ∈ pat := by
      rw [hpat]
      exact List.mem_append.mpr (Or.inl (List.mem_of_mem_getLast? hz))
    exact absurd hz4 (hpat34 z hzmem)

/-- On a `stream:`-prefixed frame that is not a stream header, the
translator runs the prefix rewrite and the xmlns injection. -/
theorem tcp_to_ws_stream_branch {text : List Nat}
    (hsw : startsWithB (trimB text) (S "<stream:") = true)
    (hnss : startsWithB (trimB text) (S "<stream:stream") = false) :
    translate_tcp_to_ws text =
      (rwRun (trimB text)).map (fun r => (false, injectXmlns r)) := by
  obtain ⟨rr, hrr⟩ := (startsWithB_iff _ _).mp hsw
  have hcons : trimB text = 60 :: 115 :: (S "tream:" ++ rr) := by
    rw [hrr, show S "<stream:" = 60 :: 115 :: S "tream:" from by decide]
    simp
  have hnecl : (trimB text == S "</stream:stream>") = false := by
    rw [hcons, show S "</stream:stream>" = 60 :: 47 :: S "stream:stream>" from by decide]
    exact beq_false_of_ne (ne_of_second_byte (by decide))
  have hnxml : startsWithB (trimB text) (S "<?xml") = false := by
    rw [hcons, show S "<?xml" = 60 :: 63 :: S "xml" from by decide]
    simp only [startsWithB_cons_cons]
    simp
  have hds : declStrip (trimB text) = trimB text := by
    unfold declStrip
    rw [hnxml]
    simp
  have hsw2 : startsWithB (trimB text) (S "<stream:stream ") = false := by
    by_contra hc
    rw [Bool.not_eq_false] at hc
    have h5 : startsWithB (trimB text) (S "<stream:stream") = true := by
      refine startsWithB_mono (q := [32]) ?_
      rwa [show S "<stream:stream" ++ [32] = S "<stream:stream " from by decide]
    rw [h5] at hnss
    exact Bool.noConfusion hnss
  simp only [translate_tcp_to_ws]
  rw [hnecl]
  simp only [Bool.false_eq_true, if_false]
  rw [hds, hsw2]
  simp only [Bool.false_eq_true, if_false]
  unfold streamRewrite
  rw [hsw, hnss]
  simp

/-- C3 counterexample to the claim as stated: the frame
`<stream:a><stream:stream:b/></stream:a>` satisfies the claim's
hypothesis (trimmed text starts with `<stream:` but not
`<stream:stream`), yet the rewritten output still contains `<stream:`:
rewriting the inner `<stream:stream:b/>` consumes only the first
`<stream:` and leaves `<stream:b/>` in the output. -/
theorem C3_leftover_counterexample :
    startsWithB (trimB (S "<stream:a><stream:stream:b/></stream:a>"))
      (S "<stream:") = true ∧
    startsWithB (trimB (S "<stream:a><stream:stream:b/></stream:a>"))
      (S "<stream:stream") = false ∧
    (translate_tcp_to_ws (S "<stream:a><stream:stream:b/></stream:a>")).map
      (fun p => containsSub p.2 (S "<stream:")) = some true := by
  decide

/-- C3 (amended): for a frame whose trimmed text starts with `<stream:`
but not `<stream:stream`, PROVIDED the text contains none of the
pathological overlaps `<stream:stream:`, `</stream:stream:` and
`<stream:/stream:` and the rewrite loop does not hit its multi-byte
panic, the output contains no remaining `<stream:`/`</stream:`
occurrence; and when an injection point exists and the rewritten root tag
(up to the first `>`) has no `xmlns=`, the explicit
` xmlns="http://etherx.jabber.org/streams"` attribute is spliced into the
root tag. -/
theorem C3_stream_prefix_rewrite (text : List Nat)
    (hsw : startsWithB (trimB text) (S "<stream:") = true)
    (hnss : startsWithB (trimB text) (S "<stream:stream") = false)
    (hb1 : containsSub (trimB text) (S "<stream:stream:") = false)
    (hb2 : containsSub (trimB text) (S "</stream:stream:") = false)
    (hb3 : containsSub (trimB text) (S "<stream:/stream:") = false)
    (result : List Nat) (hrw : rwRun (trimB text) = some result) :
    translate_tcp_to_ws text = some (false, injectXmlns result) ∧
    containsSub (injectXmlns result) (S "<stream:") = false ∧
    containsSub (injectXmlns result) (S "</stream:") = false ∧
    (∀ pos, List.findIdx? (fun b => b == 32 || b == 62 || b == 47) result = some pos →
      containsSub (result.take ((findSub result [62]).getD result.length))
        (S "xmlns=") = false →
      injectXmlns result = result.take pos ++ xmlnsAttr ++ result.drop pos) := by
  obtain ⟨hA, hB⟩ := rwRun_no_leftover (trimB text).length (trimB text) result
    (le_refl _) hrw hb1 hb2 hb3
  have hinj : containsSub (injectXmlns result) (S "<stream:") = false ∧
      containsSub (injectXmlns result) (S "</stream:") = false := by
    simp only [injectXmlns]
    cases hf : List.findIdx? (fun b => b == 32 || b == 62 || b == 47) result with
    | none => exact ⟨hA, hB⟩
    | some pos =>
      simp only []
      by_cases hx : containsSub (result.take ((findSub result [62]).getD result.length))
          (S "xmlns=") = true
      · rw [if_pos hx]
        exact ⟨hA, hB⟩
      · rw [if_neg hx]
        exact ⟨containsSub_splice pos hA (by decide) (by decide) (by decide)
            (by decide) (by decide),
          containsSub_splice pos hB (by decide) (by decide) (by decide)
            (by decide) (by decide)⟩
  refine ⟨?_, hinj.1, hinj.2, ?_⟩
  · rw [tcp_to_ws_stream_branch hsw hnss, hrw]
    rfl
  · intro pos hf hx
    simp only [injectXmlns, hf]
    rw [if_neg (by rw [hx]; simp)]

theorem C3_stream_prefix_rewrite_witness :
    translate_tcp_to_ws (S "<stream:error/>") =
      some (false, injectXmlns (S "<error/>")) ∧
    containsSub (injectXmlns (S "<error/>")) (S "<stream:") = false ∧
    containsSub (injectXmlns (S "<error/>")) (S "</stream:") = false ∧
    (∀ pos, List.findIdx? (fun b => b == 32 || b == 62 || b == 47)
        (S "<error/>") = some pos →
      containsSub ((S "<error/>").take
        ((findSub (S "<error/>") [62]).getD (S "<error/>").length))
        (S "xmlns=") = false →
      injectXmlns (S "<error/>") =
        (S "<error/>").take pos ++ xmlnsAttr ++ (S "<error/>").drop pos) :=
  C3_stream_prefix_rewrite (S "<stream:error/>")
    (by decide) (by decide) (by decide) (by decide) (by decide)
    (S "<error/>") (by decide)

/-! ## Server input parsing (dns.rs 58-128)

`parse_server_input` and its helpers, byte for byte: `split_domain_param`
(split at the first `?`, strip `domain=`), `rsplit_once(':')` and Rust's
`u16::from_str` (optional leading `+`, digits only, value at most
65535). -/

inductive ConnectionMode where
  | Tcp
  | DirectTls
deriving DecidableEq

inductive ParsedServer where
  | Direct (host : List Nat) (port : Nat) (mode : ConnectionMode)
      (domain : Option (List Nat))
  | Domain (d : List Nat)
deriving DecidableEq

def stripPrefixB (l p : List Nat) : Option (List Nat) :=
  if startsWithB l p then some (l.drop p.length) else none

def split_domain_param (input : List Nat) : List Nat × Option (List Nat) :=
  match findSub input [63] with
  | some i =>
    (input.take i,
      if startsWithB (input.drop (i + 1)) (S "domain=") then
        some ((input.drop (i + 1)).drop 7)
      else none)
  | none => (input, none)

def rsplitColon (l : List Nat) : Option (List Nat × List Nat) :=
  match findSub l.reverse [58] with
  | some j => some (l.take (l.length - 1 - j), l.drop (l.length - j))
  | none => none

def portVal (digits : List Nat) : Nat :=
  digits.foldl (fun acc b => acc * 10 + (b - 48)) 0

def parseU16 (s : List Nat) : Option Nat :=
  let digits := if s.head? == some 43 then s.drop 1 else s
  if digits.isEmpty then none
  else if digits.all (fun b => 48 ≤ b && b ≤ 57) then
    if portVal digits ≤ 65535 then some (portVal digits) else none
  else none

/-- The shared body of the `tls://` and `tcp://` branches
(dns.rs 82-113): split the optional `?domain=`, then `host:port` with the
scheme's default port when the port is absent or unparsable. -/
def schemeParse (rest : List Nat) (defPort : Nat) (mode : ConnectionMode) :
    ParsedServer :=
  let hp := split_domain_param rest
  match rsplitColon hp.1 with
  | some (host, portStr) =>
    match parseU16 portStr with
    | some port => .Direct host port mode hp.2
    | none => .Direct hp.1 defPort mode hp.2
  | none => .Direct hp.1 defPort mode hp.2

/-- Model of `parse_server_input` (dns.rs 77-128). -/
def parse_server_input (server : List Nat) : ParsedServer :=
  let trimmed := trimB server
  match stripPrefixB trimmed (S "tls://") with
  | some rest => schemeParse rest 5223 .DirectTls
  | none =>
    match stripPrefixB trimmed (S "tcp://") with
    | some rest => schemeParse rest 5222 .Tcp
    | none =>
      match rsplitColon trimmed with
      | some (host, portStr) =>
        match parseU16 portStr with
        | some port =>
          .Direct host port (if port == 5223 then .DirectTls else .Tcp) none
        | none => .Domain trimmed
      | none => .Domain trimmed

/-- C8 counterexample to the fall-through sentence: a zero port and an
empty host are ACCEPTED as explicit endpoints, they do not fall through
to the next rule; and a scheme input with a non-numeric port does NOT
fall through to the next rule either — it stays in the scheme branch,
keeping the whole host:port as host with the scheme's default port. -/
theorem C8_no_fallthrough_counterexample :
    parse_server_input (S "example.org:0") =
      .Direct (S "example.org") 0 ConnectionMode.Tcp none ∧
    parse_server_input (S "tls://:5223") =
      .Direct [] 5223 ConnectionMode.DirectTls none ∧
    parse_server_input (S "host:+1") =
      .Direct (S "host") 1 ConnectionMode.Tcp none ∧
    parse_server_input (S "tls://host:x") =
      .Direct (S "host:x") 5223 ConnectionMode.DirectTls none ∧
    parse_server_input (S "tcp://host:x") =
      .Direct (S "host:x") 5222 ConnectionMode.Tcp none := by
  decide

/-! ## Computation lemmas for the input parser -/

theorem startsWithB_false_of_missing {l pat : List Nat} {c : Nat}
    (hc : c ∈ pat) (hl : ∀ b ∈ l, b ≠ c) : startsWithB l pat = false := by
  by_contra hcon
  rw [Bool.not_eq_false] at hcon
  obtain ⟨r, hr⟩ := (startsWithB_iff _ _).mp hcon
  have hm : c ∈ l := by
    rw [hr]
    exact List.mem_append.mpr (Or.inl hc)
  exact hl c hm rfl

theorem startsWithB_false_second {a b c d : Nat} {l p : List Nat}
    (h : (b == d) = false) :
    startsWithB (a :: b :: l) (c :: d :: p) = false := by
  simp only [startsWithB_cons_cons]
  rw [h]
  simp

theorem trimB_eq_self_of_all {l : List Nat} (h : ∀ b ∈ l, isWsB b = false) :
    trimB l = l :=
  trimB_eq_self (fun b hb => h b (List.mem_of_mem_head? hb))
    (fun b hb => h b (List.mem_of_mem_getLast? hb))

theorem allNonWs_append {A B : List Nat} (hA : ∀ b ∈ A, isWsB b = false)
    (hB : ∀ b ∈ B, isWsB b = false) : ∀ b ∈ A ++ B, isWsB b = false := by
  intro b hb
  rcases List.mem_append.mp hb with h | h
  · exact hA b h
  · exact hB b h

theorem allNonWs_cons {c : Nat} {B : List Nat} (hc : isWsB c = false)
    (hB : ∀ b ∈ B, isWsB b = false) : ∀ b ∈ c :: B, isWsB b = false := by
  intro b hb
  rcases List.mem_cons.mp hb with rfl | h
  · exact hc
  · exact hB b h

theorem findSub_byte_none {A : List Nat} {c : Nat} (h : ∀ b ∈ A, b ≠ c) :
    findSub A [c] = none := by
  induction A with
  | nil => rfl
  | cons a A2 ih =>
    rw [findSub]
    have ha : (a == c) = false := by
      have h5 := h a (by simp)
      simp [h5]
    rw [if_neg (by simp only [startsWithB_cons_cons, ha]; simp)]
    rw [ih (fun b hb => h b (by simp [hb]))]
    rfl

theorem findSub_first_byte {A B : List Nat} {c : Nat} (h : ∀ b ∈ A, b ≠ c) :
    findSub (A ++ c :: B) [c] = some A.length := by
  induction A with
  | nil =>
    rw [List.nil_append, findSub]
    rw [if_pos (by simp only [startsWithB_cons_cons]; simp)]
    rfl
  | cons a A2 ih =>
    rw [List.cons_append, findSub]
    have ha : (a == c) = false := by
      have h5 := h a (by simp)
      simp [h5]
    rw [if_neg (by simp only [startsWithB_cons_cons, ha]; simp)]
    rw [ih (fun b hb => h b (by simp [hb]))]
    simp only [Option.map_some', List.length_cons]

theorem stripPrefixB_of_append (p r : List Nat) : stripPrefixB (p ++ r) p = some r := by
  unfold stripPrefixB
  rw [startsWithB_of_append]
  simp only [if_true]
  rw [List.drop_left]

theorem stripPrefixB_none {l p : List Nat} (h : startsWithB l p = false) :
    stripPrefixB l p = none := by
  unfold stripPrefixB
  rw [h]
  rfl

theorem split_domain_param_at {A B : List Nat} (hA : ∀ b ∈ A, b ≠ 63) :
    split_domain_param (A ++ 63 :: (S "domain=" ++ B)) = (A, some B) := by
  unfold split_domain_param
  rw [findSub_first_byte hA]
  have hd : (A ++ 63 :: (S "domain=" ++ B)).drop (A.length + 1) =
      S "domain=" ++ B := by
    rw [show A ++ 63 :: (S "domain=" ++ B) =
        (A ++ [63]) ++ (S "domain=" ++ B) from by simp]
    rw [show A.length + 1 = (A ++ [63]).length from by simp]
    exact List.drop_left _ _
  simp only []
  rw [hd, List.take_left]
  rw [show startsWithB (S "domain=" ++ B) (S "domain=") = true from
    startsWithB_of_append _ _]
  simp only [if_true]
  rw [show (7 : Nat) = (S "domain=").length from by decide, List.drop_left]

theorem split_domain_param_none {A : List Nat} (hA : ∀ b ∈ A, b ≠ 63) :
    split_domain_param A = (A, none) := by
  unfold split_domain_param
  rw [findSub_byte_none hA]

theorem rsplitColon_eq {H P : List Nat} (hP : ∀ b ∈ P, b ≠ 58) :
    rsplitColon (H ++ 58 :: P) = some (H, P) := by
  unfold rsplitColon
  have hrev : (H ++ 58 :: P).reverse = P.reverse ++ 58 :: H.reverse := by
    simp
  rw [hrev, findSub_first_byte (fun b hb => hP b (by simpa using hb))]
  simp only [List.length_reverse]
  have hlen : (H ++ 58 :: P).length = H.length + 1 + P.length := by
    simp only [List.length_append, List.length_cons]
    omega
  have ht : (H ++ 58 :: P).take ((H ++ 58 :: P).length - 1 - P.length) = H := by
    rw [show (H ++ 58 :: P).length - 1 - P.length = H.length from by rw [hlen]; omega]
    exact List.take_left _ _
  have hd : (H ++ 58 :: P).drop ((H ++ 58 :: P).length - P.length) = P := by
    rw [show (H ++ 58 :: P).length - P.length = (H ++ [58]).length from by
      rw [hlen]; simp only [List.length_append, List.length_cons, List.length_nil]; omega]
    rw [show H ++ 58 :: P = (H ++ [58]) ++ P from by simp]
    exact List.drop_left _ _
  rw [ht, hd]

theorem rsplitColon_none {A : List Nat} (hA : ∀ b ∈ A, b ≠ 58) :
    rsplitColon A = none := by
  unfold rsplitColon
  rw [findSub_byte_none (fun b hb => hA b (by simpa using hb))]

theorem parseU16_digits {P : List Nat} (hne : P ≠ [])
    (hd : ∀ b ∈ P, 48 ≤ b ∧ b ≤ 57) (hv : portVal P ≤ 65535) :
    parseU16 P = some (portVal P) := by
  unfold parseU16
  have h43 : (P.head? == some 43) = false := by
    cases P with
    | nil => exact absurd rfl hne
    | cons p1 P2 =>
      have h5 := hd p1 (by simp)
      simp only [List.head?_cons]
      refine beq_eq_false_iff_ne.mpr ?_
      intro hc
      injection hc with h6
      omega
  rw [h43]
  simp only [Bool.false_eq_true, if_false]
  rw [if_neg (by rw [isEmpty_false_of_ne hne]; simp)]
  rw [if_pos (List.all_eq_true.mpr fun b hb => by
    have h5 := hd b hb
    simp only [Bool.and_eq_true, decide_eq_true_eq]
    omega)]
  rw [if_pos hv]

theorem digit_plain {b : Nat} (h1 : 48 ≤ b) (h2 : b ≤ 57) :
    isWsB b = false ∧ b ≠ 58 ∧ b ≠ 63 := by
  refine ⟨?_, by omega, by omega⟩
  unfold isWsB
  rw [beq_eq_false_iff_ne.mpr (by omega : b ≠ 32),
      beq_eq_false_iff_ne.mpr (by omega : b ≠ 9),
      beq_eq_false_iff_ne.mpr (by omega : b ≠ 10),
      beq_eq_false_iff_ne.mpr (by omega : b ≠ 13)]
  rfl

def hostByteOk (b : Nat) : Bool := !(isWsB b) && b != 58 && b != 63

theorem hostByteOk_spec {b : Nat} (h : hostByteOk b = true) :
    isWsB b = false ∧ b ≠ 58 ∧ b ≠ 63 := by
  simp only [hostByteOk, Bool.and_eq_true, Bool.not_eq_true', bne_iff_ne, ne_eq] at h
  tauto

/-- C8 (amended): after trimming, `tls://HOST:PORT?domain=D` parses to
`Direct(HOST, PORT, DirectTls, D)`, `tcp://HOST:PORT` to
`Direct(HOST, PORT, Tcp, none)` and `tcp://HOST:PORT?domain=D` to
`Direct(HOST, PORT, Tcp, D)`, `tls://HOST` to the 5223 default,
`tcp://HOST` to the 5222 default,
`HOST:PORT` to `Direct(HOST, PORT, DirectTls iff PORT = 5223, none)`,
and an input without scheme or parsable port to `Domain(trimmed)`.
An empty host and a zero port are ACCEPTED as explicit endpoints (no
fall-through); only a port that does not parse as a `u16` falls through —
to the scheme's default port (keeping the whole `HOST:PORT` as host) for
scheme inputs (conjuncts 7 and 8 below), and to `Domain` for bare
`HOST:PORT`. -/
theorem C8_parse_server_input (H P D : List Nat)
    (hH : ∀ b ∈ H, hostByteOk b = true)
    (hPne : P ≠ []) (hP : ∀ b ∈ P, 48 ≤ b ∧ b ≤ 57) (hPv : portVal P ≤ 65535)
    (hD : ∀ b ∈ D, isWsB b = false) :
    parse_server_input (S "tls://" ++ ((H ++ 58 :: P) ++ 63 :: (S "domain=" ++ D))) =
      .Direct H (portVal P) ConnectionMode.DirectTls (some D) ∧
    parse_server_input (S "tcp://" ++ (H ++ 58 :: P)) =
      .Direct H (portVal P) ConnectionMode.Tcp none ∧
    parse_server_input (S "tls://" ++ H) =
      .Direct H 5223 ConnectionMode.DirectTls none ∧
    (startsWithB (H ++ 58 :: P) (S "tls://") = false →
     startsWithB (H ++ 58 :: P) (S "tcp://") = false →
     parse_server_input (H ++ 58 :: P) =
      .Direct H (portVal P)
        (if portVal P == 5223 then ConnectionMode.DirectTls else ConnectionMode.Tcp)
        none) ∧
    (∀ Q, (∀ b ∈ Q, isWsB b = false ∧ b ≠ 58) → parseU16 Q = none →
      startsWithB (H ++ 58 :: Q) (S "tls://") = false →
      startsWithB (H ++ 58 :: Q) (S "tcp://") = false →
      parse_server_input (H ++ 58 :: Q) = .Domain (H ++ 58 :: Q)) ∧
    parse_server_input H = .Domain H ∧
    (∀ Q, (∀ b ∈ Q, isWsB b = false ∧ b ≠ 58 ∧ b ≠ 63) → parseU16 Q = none →
      parse_server_input (S "tls://" ++ (H ++ 58 :: Q)) =
        .Direct (H ++ 58 :: Q) 5223 ConnectionMode.DirectTls none) ∧
    (∀ Q, (∀ b ∈ Q, isWsB b = false ∧ b ≠ 58 ∧ b ≠ 63) → parseU16 Q = none →
      parse_server_input (S "tcp://" ++ (H ++ 58 :: Q)) =
        .Direct (H ++ 58 :: Q) 5222 ConnectionMode.Tcp none) ∧
    parse_server_input (S "tcp://" ++ H) =
      .Direct H 5222 ConnectionMode.Tcp none ∧
    parse_server_input (S "tcp://" ++ ((H ++ 58 :: P) ++ 63 :: (S "domain=" ++ D))) =
      .Direct H (portVal P) ConnectionMode.Tcp (some D) := by
  have hHw : ∀ b ∈ H, isWsB b = false := fun b hb => (hostByteOk_spec (hH b hb)).1
  have hH58 : ∀ b ∈ H, b ≠ 58 := fun b hb => (hostByteOk_spec (hH b hb)).2.1
  have hH63 : ∀ b ∈ H, b ≠ 63 := fun b hb => (hostByteOk_spec (hH b hb)).2.2
  have hPw : ∀ b ∈ P, isWsB b = false := fun b hb =>
    (digit_plain (hP b hb).1 (hP b hb).2).1
  have hP58 : ∀ b ∈ P, b ≠ 58 := fun b hb =>
    (digit_plain (hP b hb).1 (hP b hb).2).2.1
  have hP63 : ∀ b ∈ P, b ≠ 63 := fun b hb =>
    (digit_plain (hP b hb).1 (hP b hb).2).2.2
  have hHP : ∀ b ∈ H ++ 58 :: P, isWsB b = false :=
    allNonWs_append hHw (allNonWs_cons (by decide) hPw)
  have hHP63 : ∀ b ∈ H ++ 58 :: P, b ≠ 63 := by
    intro b hb
    rcases List.mem_append.mp hb with h | h
    · exact hH63 b h
    · rcases List.mem_cons.mp h with rfl | h
      · decide
      · exact hP63 b h
  refine ⟨?_, ?_, ?_, ?_, ?_, ?_, ?_, ?_, ?_, ?_⟩
  · have htrim : trimB (S "tls://" ++ ((H ++ 58 :: P) ++ 63 :: (S "domain=" ++ D))) =
        S "tls://" ++ ((H ++ 58 :: P) ++ 63 :: (S "domain=" ++ D)) :=
      trimB_eq_self_of_all (allNonWs_append (by decide)
        (allNonWs_append hHP (allNonWs_cons (by decide)
          (allNonWs_append (by decide) hD))))
    simp only [parse_server_input]
    rw [htrim, stripPrefixB_of_append]
    simp only [schemeParse]
    rw [split_domain_param_at hHP63]
    simp only []
    rw [rsplitColon_eq hP58]
    simp only []
    rw [parseU16_digits hPne hP hPv]
  · have htrim : trimB (S "tcp://" ++ (H ++ 58 :: P)) =
        S "tcp://" ++ (H ++ 58 :: P) :=
      trimB_eq_self_of_all (allNonWs_append (by decide) hHP)
    have hnotls : startsWithB (S "tcp://" ++ (H ++ 58 :: P)) (S "tls://") = false := by
      rw [show S "tcp://" = 116 :: 99 :: S "p://" from by decide,
          show S "tls://" = 116 :: 108 :: S "s://" from by decide]
      rw [show (116 :: 99 :: S "p://") ++ (H ++ 58 :: P) =
          116 :: 99 :: (S "p://" ++ (H ++ 58 :: P)) from by simp]
      exact startsWithB_false_second (by decide)
    simp only [parse_server_input]
    rw [htrim, stripPrefixB_none hnotls]
    simp only []
    rw [stripPrefixB_of_append]
    simp only [schemeParse]
    rw [split_domain_param_none hHP63]
    simp only []
    rw [rsplitColon_eq hP58]
    simp only []
    rw [parseU16_digits hPne hP hPv]
  · have htrim : trimB (S "tls://" ++ H) = S "tls://" ++ H :=
      trimB_eq_self_of_all (allNonWs_append (by decide) hHw)
    simp only [parse_server_input]
    rw [htrim, stripPrefixB_of_append]
    simp only [schemeParse]
    rw [split_domain_param_none hH63]
    simp only []
    rw [rsplitColon_none hH58]
  · intro hns1 hns2
    have htrim : trimB (H ++ 58 :: P) = H ++ 58 :: P :=
      trimB_eq_self_of_all hHP
    simp only [parse_server_input]
    rw [htrim, stripPrefixB_none hns1]
    simp only []
    rw [stripPrefixB_none hns2]
    simp only []
    rw [rsplitColon_eq hP58]
    simp only []
    rw [parseU16_digits hPne hP hPv]
  · intro Q hQ hQnone hns1 hns2
    have htrim : trimB (H ++ 58 :: Q) = H ++ 58 :: Q :=
      trimB_eq_self_of_all (allNonWs_append hHw
        (allNonWs_cons (by decide) (fun b hb => (hQ b hb).1)))
    simp only [parse_server_input]
    rw [htrim, stripPrefixB_none hns1]
    simp only []
    rw [stripPrefixB_none hns2]
    simp only []
    rw [rsplitColon_eq (fun b hb => (hQ b hb).2)]
    simp only []
    rw [hQnone]
  · have htrim : trimB H = H := trimB_eq_self_of_all hHw
    have hns1 : startsWithB H (S "tls://") = false :=
      startsWithB_false_of_missing (by decide) hH58
    have hns2 : startsWithB H (S "tcp://") = false :=
      startsWithB_false_of_missing (by decide) hH58
    simp only [parse_server_input]
    rw [htrim, stripPrefixB_none hns1]
    simp only []
    rw [stripPrefixB_none hns2]
    simp only []
    rw [rsplitColon_none hH58]
  · intro Q hQ hQnone
    have hQw : ∀ b ∈ Q, isWsB b = false := fun b hb => (hQ b hb).1
    have hQ58 : ∀ b ∈ Q, b ≠ 58 := fun b hb => (hQ b hb).2.1
    have hQ63 : ∀ b ∈ Q, b ≠ 63 := fun b hb => (hQ b hb).2.2
    have hHQ63 : ∀ b ∈ H ++ 58 :: Q, b ≠ 63 := by
      intro b hb
      rcases List.mem_append.mp hb with h | h
      · exact hH63 b h
      · rcases List.mem_cons.mp h with rfl | h
        · decide
        · exact hQ63 b h
    have htrim : trimB (S "tls://" ++ (H ++ 58 :: Q)) =
        S "tls://" ++ (H ++ 58 :: Q) :=
      trimB_eq_self_of_all (allNonWs_append (by decide)
        (allNonWs_append hHw (allNonWs_cons (by decide) hQw)))
    simp only [parse_server_input]
    rw [htrim, stripPrefixB_of_append]
    simp only [schemeParse]
    rw [split_domain_param_none hHQ63]
    simp only []
    rw [rsplitColon_eq hQ58]
    simp only []
    rw [hQnone]
  · intro Q hQ hQnone
    have hQw : ∀ b ∈ Q, isWsB b = false := fun b hb => (hQ b hb).1
    have hQ58 : ∀ b ∈ Q, b ≠ 58 := fun b hb => (hQ b hb).2.1
    have hQ63 : ∀ b ∈ Q, b ≠ 63 := fun b hb => (hQ b hb).2.2
    have hHQ63 : ∀ b ∈ H ++ 58 :: Q, b ≠ 63 := by
      intro b hb
      rcases List.mem_append.mp hb with h | h
      · exact hH63 b h
      · rcases List.mem_cons.mp h with rfl | h
        · decide
        · exact hQ63 b h
    have htrim : trimB (S "tcp://" ++ (H ++ 58 :: Q)) =
        S "tcp://" ++ (H ++ 58 :: Q) :=
      trimB_eq_self_of_all (allNonWs_append (by decide)
        (allNonWs_append hHw (allNonWs_cons (by decide) hQw)))
    have hnotls : startsWithB (S "tcp://" ++ (H ++ 58 :: Q)) (S "tls://") = false := by
      rw [show S "tcp://" = 116 :: 99 :: S "p://" from by decide,
          show S "tls://" = 116 :: 108 :: S "s://" from by decide]
      rw [show (116 :: 99 :: S "p://") ++ (H ++ 58 :: Q) =
          116 :: 99 :: (S "p://" ++ (H ++ 58 :: Q)) from by simp]
      exact startsWithB_false_second (by decide)
    simp only [parse_server_input]
    rw [htrim, stripPrefixB_none hnotls]
    simp only []
    rw [stripPrefixB_of_append]
    simp only [schemeParse]
    rw [split_domain_param_none hHQ63]
    simp only []
    rw [rsplitColon_eq hQ58]
    simp only []
    rw [hQnone]
  · have htrim : trimB (S "tcp://" ++ H) = S "tcp://" ++ H :=
      trimB_eq_self_of_all (allNonWs_append (by decide) hHw)
    have hnotls : startsWithB (S "tcp://" ++ H) (S "tls://") = false := by
      rw [show S "tcp://" = 116 :: 99 :: S "p://" from by decide,
          show S "tls://" = 116 :: 108 :: S "s://" from by decide]
      rw [show (116 :: 99 :: S "p://") ++ H =
          116 :: 99 :: (S "p://" ++ H) from by simp]
      exact startsWithB_false_second (by decide)
    simp only [parse_server_input]
    rw [htrim, stripPrefixB_none hnotls]
    simp only []
    rw [stripPrefixB_of_append]
    simp only [schemeParse]
    rw [split_domain_param_none hH63]
    simp only []
    rw [rsplitColon_none hH58]
  · have htrim : trimB (S "tcp://" ++ ((H ++ 58 :: P) ++ 63 :: (S "domain=" ++ D))) =
        S "tcp://" ++ ((H ++ 58 :: P) ++ 63 :: (S "domain=" ++ D)) :=
      trimB_eq_self_of_all (allNonWs_append (by decide)
        (allNonWs_append hHP (allNonWs_cons (by decide)
          (allNonWs_append (by decide) hD))))
    have hnotls : startsWithB
        (S "tcp://" ++ ((H ++ 58 :: P) ++ 63 :: (S "domain=" ++ D)))
        (S "tls://") = false := by
      rw [show S "tcp://" = 116 :: 99 :: S "p://" from by decide,
          show S "tls://" = 116 :: 108 :: S "s://" from by decide]
      rw [show (116 :: 99 :: S "p://") ++ ((H ++ 58 :: P) ++ 63 :: (S "domain=" ++ D)) =
          116 :: 99 :: (S "p://" ++ ((H ++ 58 :: P) ++ 63 :: (S "domain=" ++ D)))
          from by simp]
      exact startsWithB_false_second (by decide)
    simp only [parse_server_input]
    rw [htrim, stripPrefixB_none hnotls]
    simp only []
    rw [stripPrefixB_of_append]
    simp only [schemeParse]
    rw [split_domain_param_at hHP63]
    simp only []
    rw [rsplitColon_eq hP58]
    simp only []
    rw [parseU16_digits hPne hP hPv]

theorem C8_parse_server_input_witness :
    parse_server_input (S "tls://" ++ ((S "v6.mdosch.de" ++ 58 :: S "5223") ++
        63 :: (S "domain=" ++ S "diebesban.de"))) =
      .Direct (S "v6.mdosch.de") (portVal (S "5223")) ConnectionMode.DirectTls
        (some (S "diebesban.de")) ∧
    parse_server_input (S "tcp://" ++ (S "v6.mdosch.de" ++ 58 :: S "5223")) =
      .Direct (S "v6.mdosch.de") (portVal (S "5223")) ConnectionMode.Tcp none ∧
    parse_server_input (S "tls://" ++ S "v6.mdosch.de") =
      .Direct (S "v6.mdosch.de") 5223 ConnectionMode.DirectTls none ∧
    (startsWithB (S "v6.mdosch.de" ++ 58 :: S "5223") (S "tls://") = false →
     startsWithB (S "v6.mdosch.de" ++ 58 :: S "5223") (S "tcp://") = false →
     parse_server_input (S "v6.mdosch.de" ++ 58 :: S "5223") =
      .Direct (S "v6.mdosch.de") (portVal (S "5223"))
        (if portVal (S "5223") == 5223 then ConnectionMode.DirectTls
         else ConnectionMode.Tcp) none) ∧
    (∀ Q, (∀ b ∈ Q, isWsB b = false ∧ b ≠ 58) → parseU16 Q = none →
      startsWithB (S "v6.mdosch.de" ++ 58 :: Q) (S "tls://") = false →
      startsWithB (S "v6.mdosch.de" ++ 58 :: Q) (S "tcp://") = false →
      parse_server_input (S "v6.mdosch.de" ++ 58 :: Q) =
        .Domain (S "v6.mdosch.de" ++ 58 :: Q)) ∧
    parse_server_input (S "v6.mdosch.de") = .Domain (S "v6.mdosch.de") ∧
    (∀ Q, (∀ b ∈ Q, isWsB b = false ∧ b ≠ 58 ∧ b ≠ 63) → parseU16 Q = none →
      parse_server_input (S "tls://" ++ (S "v6.mdosch.de" ++ 58 :: Q)) =
        .Direct (S "v6.mdosch.de" ++ 58 :: Q) 5223 ConnectionMode.DirectTls none) ∧
    (∀ Q, (∀ b ∈ Q, isWsB b = false ∧ b ≠ 58 ∧ b ≠ 63) → parseU16 Q = none →
      parse_server_input (S "tcp://" ++ (S "v6.mdosch.de" ++ 58 :: Q)) =
        .Direct (S "v6.mdosch.de" ++ 58 :: Q) 5222 ConnectionMode.Tcp none) ∧
    parse_server_input (S "tcp://" ++ S "v6.mdosch.de") =
      .Direct (S "v6.mdosch.de") 5222 ConnectionMode.Tcp none ∧
    parse_server_input (S "tcp://" ++ ((S "v6.mdosch.de" ++ 58 :: S "5223") ++
        63 :: (S "domain=" ++ S "diebesban.de"))) =
      .Direct (S "v6.mdosch.de") (portVal (S "5223")) ConnectionMode.Tcp
        (some (S "diebesban.de")) :=
  C8_parse_server_input (S "v6.mdosch.de") (S "5223") (S "diebesban.de")
    (by decide) (by decide) (by decide) (by decide) (by decide)

structure SrvRecord where
  target : List Nat
  port : Nat
  priority : Nat
  weight : Nat
deriving DecidableEq

def trimDots (t : List Nat) : List Nat :=
  (t.reverse.dropWhile (fun b => b == 46)).reverse

structure XmppEndpointM where
  host : List Nat
  port : Nat
  mode : ConnectionMode
  domain : Option (List Nat)
deriving DecidableEq

def srvLE (a b : SrvRecord) : Prop :=
  a.priority < b.priority ∨ (a.priority = b.priority ∧ b.weight ≤ a.weight)

instance srvLEDec : DecidableRel srvLE := fun a b =>
  inferInstanceAs (Decidable (a.priority < b.priority ∨
    (a.priority = b.priority ∧ b.weight ≤ a.weight)))

instance srvLETotal : IsTotal SrvRecord srvLE := by
  constructor
  intro a b
  unfold srvLE
  omega

instance srvLETrans : IsTrans SrvRecord srvLE := by
  constructor
  intro a b c hab hbc
  unfold srvLE at *
  omega

def srvUsable (r : SrvRecord) : Bool := !(trimDots r.target).isEmpty

def srvToEndpoint (domain : List Nat) (mode : ConnectionMode) (r : SrvRecord) :
    XmppEndpointM :=
  ⟨trimDots r.target, r.port, mode, some domain⟩

def collectSrv (domain : List Nat) (mode : ConnectionMode) (rs : List SrvRecord) :
    List XmppEndpointM :=
  ((List.insertionSort srvLE rs).filter srvUsable).map (srvToEndpoint domain mode)

def resolve_xmpp_server (domain : List Nat) (xmpps xmpp : List SrvRecord) :
    List XmppEndpointM :=
  let eps := collectSrv domain ConnectionMode.DirectTls xmpps ++
             collectSrv domain ConnectionMode.Tcp xmpp
  if eps.isEmpty then [⟨domain, 5222, ConnectionMode.Tcp, none⟩] else eps

/-- C7: resolve_xmpp_server emits first the usable xmpps-client records as
DirectTls endpoints carrying xmpp_domain = domain, then the usable
xmpp-client records as Tcp endpoints, each group a permutation of the usable
records of its lookup sorted by priority ascending then weight descending
(records whose target trims to empty are dropped); and exactly when both
groups are empty it returns the single fallback (domain, 5222, Tcp, none). -/
theorem C7_resolve_xmpp_server_contract (domain : List Nat)
    (xmpps xmpp : List SrvRecord) :
    ∃ ra rb : List SrvRecord,
      ra.Perm (xmpps.filter srvUsable) ∧
      rb.Perm (xmpp.filter srvUsable) ∧
      List.Sorted srvLE ra ∧ List.Sorted srvLE rb ∧
      ((ra = [] ∧ rb = [] ∧
        resolve_xmpp_server domain xmpps xmpp =
          [⟨domain, 5222, ConnectionMode.Tcp, none⟩]) ∨
       ((ra ≠ [] ∨ rb ≠ []) ∧
        resolve_xmpp_server domain xmpps xmpp =
          ra.map (srvToEndpoint domain ConnectionMode.DirectTls) ++
          rb.map (srvToEndpoint domain ConnectionMode.Tcp))) := by
  refine ⟨(List.insertionSort srvLE xmpps).filter srvUsable,
          (List.insertionSort srvLE xmpp).filter srvUsable,
          (List.perm_insertionSort srvLE xmpps).filter srvUsable,
          (List.perm_insertionSort srvLE xmpp).filter srvUsable,
          (List.sorted_insertionSort srvLE xmpps).filter srvUsable,
          (List.sorted_insertionSort srvLE xmpp).filter srvUsable, ?_⟩
  by_cases ha : (List.insertionSort srvLE xmpps).filter srvUsable = []
  · by_cases hb : (List.insertionSort srvLE xmpp).filter srvUsable = []
    · refine Or.inl ⟨ha, hb, ?_⟩
      simp [resolve_xmpp_server, collectSrv, ha, hb]
    · refine Or.inr ⟨Or.inr hb, ?_⟩
      simp only [resolve_xmpp_server, collectSrv]
      rw [if_neg]
      simp only [List.isEmpty_eq_true, List.append_eq_nil, List.map_eq_nil]
      intro h
      exact hb h.2
  · refine Or.inr ⟨Or.inl ha, ?_⟩
    simp only [resolve_xmpp_server, collectSrv]
    rw [if_neg]
    simp only [List.isEmpty_eq_true, List.append_eq_nil, List.map_eq_nil]
    intro h
    exact ha h.1

def tls_name (e : XmppEndpointM) : List Nat := e.domain.getD e.host

structure ConnectPlan where
  connectHost : List Nat
  connectPort : Nat
  sni : List Nat
  starttlsTo : Option (List Nat)
deriving DecidableEq

def connect_upstream_plan (e : XmppEndpointM) : ConnectPlan :=
  match e.mode with
  | ConnectionMode.Tcp => ⟨e.host, e.port, tls_name e, some (tls_name e)⟩
  | ConnectionMode.DirectTls => ⟨e.host, e.port, tls_name e, none⟩

theorem plan_sni (e : XmppEndpointM) : (connect_upstream_plan e).sni = tls_name e := by
  cases h : e.mode <;> simp [connect_upstream_plan, h]

theorem plan_host (e : XmppEndpointM) :
    (connect_upstream_plan e).connectHost = e.host := by
  cases h : e.mode <;> simp [connect_upstream_plan, h]

/-- C5: for every upstream connection the TLS SNI name — and, in STARTTLS
mode, the stream to= attribute — is the endpoint's xmpp_domain when present,
else its host; every endpoint produced by resolve_xmpp_server gets the bare
domain as SNI (the SRV connect host is never used for SNI when an
xmpp_domain exists); and the TCP connect target stays the host. -/
theorem C5_sni_and_starttls_to :
    (∀ e : XmppEndpointM, ∀ d, e.domain = some d →
      (connect_upstream_plan e).sni = d ∧
      (e.mode = ConnectionMode.Tcp →
        (connect_upstream_plan e).starttlsTo = some d) ∧
      (e.mode = ConnectionMode.DirectTls →
        (connect_upstream_plan e).starttlsTo = none)) ∧
    (∀ e : XmppEndpointM, e.domain = none →
      (connect_upstream_plan e).sni = e.host ∧
      (e.mode = ConnectionMode.Tcp →
        (connect_upstream_plan e).starttlsTo = some e.host)) ∧
    (∀ domain xmpps xmpp, ∀ e ∈ resolve_xmpp_server domain xmpps xmpp,
      (connect_upstream_plan e).sni = domain) ∧
    (∀ e : XmppEndpointM, (connect_upstream_plan e).connectHost = e.host) := by
  refine ⟨?_, ?_, ?_, fun e => plan_host e⟩
  · intro e d hd
    refine ⟨?_, ?_, ?_⟩
    · rw [plan_sni]
      simp [tls_name, hd]
    · intro hm
      simp [connect_upstream_plan, hm, tls_name, hd]
    · intro hm
      simp [connect_upstream_plan, hm]
  · intro e hd
    refine ⟨?_, ?_⟩
    · rw [plan_sni]
      simp [tls_name, hd]
    · intro hm
      simp [connect_upstream_plan, hm, tls_name, hd]
  · intro domain xmpps xmpp e he
    rw [plan_sni]
    simp only [resolve_xmpp_server] at he
    split at he
    · simp only [List.mem_singleton] at he
      subst he
      simp [tls_name]
    · rcases List.mem_append.mp he with h | h
      all_goals {
        rcases List.mem_map.mp h with ⟨r, _, hr⟩
        subst hr
        simp [srvToEndpoint, tls_name] }

theorem C5_sni_and_starttls_to_witness :
    (connect_upstream_plan ⟨S "v4.mdosch.de", 5222, ConnectionMode.Tcp,
        some (S "diebesban.de")⟩).sni = S "diebesban.de" ∧
    (connect_upstream_plan ⟨S "v4.mdosch.de", 5222, ConnectionMode.Tcp,
        some (S "diebesban.de")⟩).starttlsTo = some (S "diebesban.de") :=
  ⟨(C5_sni_and_starttls_to.1 ⟨S "v4.mdosch.de", 5222, ConnectionMode.Tcp,
      some (S "diebesban.de")⟩ (S "diebesban.de") rfl).1,
   (C5_sni_and_starttls_to.1 ⟨S "v4.mdosch.de", 5222, ConnectionMode.Tcp,
      some (S "diebesban.de")⟩ (S "diebesban.de") rfl).2.1 rfl⟩

inductive STLSResult where
  | ok
  | errNoFeatures
  | errNoHeader
  | errNoStarttls
  | errFailure
  | errUnexpectedProceed
deriving DecidableEq

def featuresScan : List (List Nat) → Bool → Option (Bool × List Nat)
  | [], _ => none
  | st :: rest, hdr =>
    if containsSub st (S "<stream:stream") then featuresScan rest true
    else if containsSub st (S "<stream:features") || containsSub st (S "<features") then
      some (hdr, st)
    else featuresScan rest hdr

def perform_starttls_model (stanzas : List (List Nat)) (proceedStanza : List Nat) :
    STLSResult :=
  match featuresScan stanzas false with
  | none => STLSResult.errNoFeatures
  | some (hdr, feats) =>
    if !hdr then STLSResult.errNoHeader
    else if !(containsSub feats (S "<starttls")) then STLSResult.errNoStarttls
    else if containsSub proceedStanza (S "<failure") then STLSResult.errFailure
    else if !(containsSub proceedStanza (S "<proceed")) then
      STLSResult.errUnexpectedProceed
    else STLSResult.ok

/-- C6 counterexample: a stanza that is neither the stream header nor a
features element, arriving in the AwaitFeatures phase, is only warned about
and skipped — the negotiation still succeeds, so it is not fatal. -/
theorem C6_junk_not_fatal_counterexample :
    perform_starttls_model
      [S "<stream:stream to=s>", S "<junk/>",
       S "<stream:features><starttls/></stream:features>"]
      (S "<proceed/>") = STLSResult.ok := by decide

/-- C6 (amended): STARTTLS negotiation settles as follows: an unexpected
stanza in the AwaitFeatures phase is skipped with a warning (NOT fatal);
once features arrive after a stream header, missing <starttls> is an error;
in the AwaitProceed phase <failure> fails, a stanza with neither <failure>
nor <proceed> is a protocol error (fatal), <proceed> continues to the TLS
upgrade; and features arriving without a stream header is an error. -/
theorem C6_starttls_negotiation :
    (∀ j rest hdr, containsSub j (S "<stream:stream") = false →
       containsSub j (S "<stream:features") = false →
       containsSub j (S "<features") = false →
       featuresScan (j :: rest) hdr = featuresScan rest hdr) ∧
    (∀ stanzas feats pr, featuresScan stanzas false = some (true, feats) →
       containsSub feats (S "<starttls") = false →
       perform_starttls_model stanzas pr = STLSResult.errNoStarttls) ∧
    (∀ stanzas feats pr, featuresScan stanzas false = some (true, feats) →
       containsSub feats (S "<starttls") = true →
       containsSub pr (S "<failure") = true →
       perform_starttls_model stanzas pr = STLSResult.errFailure) ∧
    (∀ stanzas feats pr, featuresScan stanzas false = some (true, feats) →
       containsSub feats (S "<starttls") = true →
       containsSub pr (S "<failure") = false →
       containsSub pr (S "<proceed") = false →
       perform_starttls_model stanzas pr = STLSResult.errUnexpectedProceed) ∧
    (∀ stanzas feats pr, featuresScan stanzas false = some (true, feats) →
       containsSub feats (S "<starttls") = true →
       containsSub pr (S "<failure") = false →
       containsSub pr (S "<proceed") = true →
       perform_starttls_model stanzas pr = STLSResult.ok) ∧
    (∀ stanzas feats pr, featuresScan stanzas false = some (false, feats) →
       perform_starttls_model stanzas pr = STLSResult.errNoHeader) := by
  refine ⟨?_, ?_, ?_, ?_, ?_, ?_⟩
  · intro j rest hdr h1 h2 h3
    simp [featuresScan, h1, h2, h3]
  · intro stanzas feats pr hscan hst
    simp [perform_starttls_model, hscan, hst]
  · intro stanzas feats pr hscan hst hf
    simp [perform_starttls_model, hscan, hst, hf]
  · intro stanzas feats pr hscan hst hf hp
    simp [perform_starttls_model, hscan, hst, hf, hp]
  · intro stanzas feats pr hscan hst hf hp
    simp [perform_starttls_model, hscan, hst, hf, hp]
  · intro stanzas feats pr hscan
    simp [perform_starttls_model, hscan]

theorem C6_starttls_negotiation_witness :
    perform_starttls_model
      [S "<stream:stream to=s>", S "<stream:features><starttls/></stream:features>"]
      (S "<proceed/>") = STLSResult.ok :=
  C6_starttls_negotiation.2.2.2.2.1
    [S "<stream:stream to=s>", S "<stream:features><starttls/></stream:features>"]
    (S "<stream:features><starttls/></stream:features>") (S "<proceed/>")
    (by decide) (by decide) (by decide) (by decide)

structure ProxyS where
  server_input : List Nat
  local_addr : Option Nat
  ws_url : List Nat
deriving DecidableEq

inductive StartAction where
  | reuse (url : List Nat)
  | restart (stoppedOld : Bool)
deriving DecidableEq

def start_proxy_step (guard : Option ProxyS) (server : List Nat) : StartAction :=
  match guard with
  | some existing =>
    if existing.server_input == server && existing.local_addr.isSome then
      StartAction.reuse existing.ws_url
    else StartAction.restart true
  | none => StartAction.restart false

/-- C10: calling start again with the same server_input while the listener is
bound returns the existing ws_url and performs no teardown (reuse touches
nothing); a different server_input or a stale (unbound) listener tears the
old proxy down first; with no existing proxy nothing is stopped; and reuse
happens only in the same-input bound case and only with the existing url. -/
theorem C10_start_proxy_idempotent :
    (∀ p : ProxyS, ∀ server, p.server_input = server → p.local_addr.isSome = true →
       start_proxy_step (some p) server = StartAction.reuse p.ws_url) ∧
    (∀ p : ProxyS, ∀ server, p.server_input ≠ server ∨ p.local_addr = none →
       start_proxy_step (some p) server = StartAction.restart true) ∧
    (∀ server, start_proxy_step none server = StartAction.restart false) ∧
    (∀ p : ProxyS, ∀ server url, start_proxy_step (some p) server = StartAction.reuse url →
       url = p.ws_url ∧ p.server_input = server ∧ p.local_addr.isSome = true) := by
  refine ⟨?_, ?_, fun server => rfl, ?_⟩
  · intro p server h1 h2
    simp [start_proxy_step, h1, h2]
  · intro p server h
    rcases h with h | h
    · simp [start_proxy_step, beq_iff_eq, h]
    · simp [start_proxy_step, h]
  · intro p server url h
    simp only [start_proxy_step] at h
    split at h
    · rename_i hc
      simp only [Bool.and_eq_true, beq_iff_eq] at hc
      cases h
      exact ⟨rfl, hc.1, hc.2⟩
    · cases h

theorem C10_start_proxy_idempotent_witness :
    start_proxy_step
      (some ⟨S "example.com", some 7, S "ws://127.0.0.1:7/ws"⟩)
      (S "example.com") = StartAction.reuse (S "ws://127.0.0.1:7/ws") :=
  C10_start_proxy_idempotent.1
    ⟨S "example.com", some 7, S "ws://127.0.0.1:7/ws"⟩
    (S "example.com") rfl rfl

end Fluux
